import Mathlib

/-!
# go-ipld-prime: the bindnode representation view

A shallow embedding of `node/bindnode/repr.go`.  A bindnode node is a pair of a
schema type and a reflected Go value; the typed view (`_node`) and the
representation view (`_nodeRepr`) share that pair.  Reflection is embedded as an
explicit tree of cells (`Val`), Go errors and panics as the two constructors of
`Failure`.

The typed level (`node.go`), the `schema` package and the `datamodel` package are
collaborators of `repr.go`; the parts of them that `repr.go` calls are modelled
here from the specification and are marked as such.
-/

namespace Bindnode

/-! ## Data model -/

/-- Modelled from the spec: `datamodel.Kind`, "a closed enumeration: Null, Bool, Int,
Float, String, Bytes, Link, Map, List, Absent".  `Invalid` is the zero value, reported
where no kind is known statically. -/
inductive Kind
  | Invalid | Map | List | Null | Bool | Int | Float | String | Bytes | Link | Absent
  deriving DecidableEq, Repr

/-- Modelled from the spec: `datamodel.KindSet`, "a small bitset plus a few named
constants"; embedded as the list of its members. -/
abbrev KindSet := List Kind

def KindSet_JustBool : KindSet := [Kind.Bool]
def KindSet_JustInt : KindSet := [Kind.Int]
def KindSet_JustFloat : KindSet := [Kind.Float]
def KindSet_JustString : KindSet := [Kind.String]
def KindSet_JustBytes : KindSet := [Kind.Bytes]
def KindSet_JustLink : KindSet := [Kind.Link]
def KindSet_JustMap : KindSet := [Kind.Map]
def KindSet_JustList : KindSet := [Kind.List]
def KindSet_Recursive : KindSet := [Kind.Map, Kind.List]

/-- Modelled from the spec: the error surface of section 6.  `ErrNotExists` is the
spec's `NotFound`; `Errorf` is an error built by `fmt.Errorf`, given by its format
string and the operands in order. -/
inductive Error
  | ErrWrongKind (TypeName MethodName : String) (AppropriateKind : KindSet) (ActualKind : Kind)
  | ErrNotExists (Segment : String)
  | ErrNotExpected (msg : String)
  | ErrIteratorOverread
  | ErrMissingRequiredField (Missing : List String)
  | Errorf (format : String) (operands : List String)
  deriving DecidableEq, Repr

/-- A Go call that does not produce its value either returns an error or panics, with a
message or with an error value (`panic(&datamodel.ErrWrongKind{...})`). -/
inductive Failure
  | error (e : Error)
  | panic (msg : String)
  | panicErr (e : Error)
  deriving DecidableEq, Repr

abbrev Res := Except Failure

def throwErr {α : Type} (e : Error) : Res α := Except.error (Failure.error e)

def throwPanic {α : Type} (msg : String) : Res α := Except.error (Failure.panic msg)

/-! ## Schema types -/

/-- Modelled from the spec: struct representation strategies, "Map: field_rename: map
of field name to serial key", "Tuple", "Stringjoin: delimiter", "StringPairs". -/
inductive StructRepresentation
  | Map (renames : List (String × String))
  | Tuple
  | Stringjoin (delim : String)
  | StringPairs (innerDelim entryDelim : String)
  deriving DecidableEq, Repr

/-- Modelled from the spec: union representation strategies, "Keyed: discriminant map:
serial key to member", "Kinded: kind to member", "Stringprefix: delimiter, prefix map:
prefix to member", "Inline", "Envelope".  Members are named by their type name. -/
inductive UnionRepresentation
  | Keyed (table : List (String × String))
  | Kinded (table : List (Kind × String))
  | StringPrefix (delim : String) (table : List (String × String))
  | Inline
  | Envelope
  deriving DecidableEq, Repr

mutual
/-- Modelled from the spec: `schema.Type`, the tagged variant of section 3 (scalars,
List, Map, Struct with ordered fields, Union with ordered members). -/
inductive SType
  | bool (name : String)
  | int (name : String)
  | float (name : String)
  | string (name : String)
  | bytes (name : String)
  | link (name : String)
  | list (name : String) (valueType : SType) (valueNullable : Bool)
  | map (name : String) (keyType valueType : SType) (valueNullable : Bool)
  | struct (name : String) (fields : List StructField) (repr : StructRepresentation)
  | union (name : String) (members : List SType) (repr : UnionRepresentation)
/-- Modelled from the spec: a struct field, "name to type, optional, nullable". -/
inductive StructField
  | mk (name : String) (type : SType) (optional nullable : Bool)
end

def SType.Name : SType → String
  | .bool n | .int n | .float n | .string n | .bytes n | .link n => n
  | .list n _ _ | .map n _ _ _ | .struct n _ _ | .union n _ _ => n

def StructField.Name : StructField → String
  | .mk n _ _ _ => n

def StructField.Type : StructField → SType
  | .mk _ t _ _ => t

def StructField.IsOptional : StructField → Bool
  | .mk _ _ o _ => o

def StructField.IsNullable : StructField → Bool
  | .mk _ _ _ n => n

/-- Modelled from the spec: `Type::representationBehavior()`, "the kind the
representation view exposes", by the strategy tables of section 4.F.  A kinded union
has no static answer. -/
def SType.RepresentationBehavior : SType → Kind
  | .bool _ => Kind.Bool
  | .int _ => Kind.Int
  | .float _ => Kind.Float
  | .string _ => Kind.String
  | .bytes _ => Kind.Bytes
  | .link _ => Kind.Link
  | .list _ _ _ => Kind.List
  | .map _ _ _ _ => Kind.Map
  | .struct _ _ (.Map _) => Kind.Map
  | .struct _ _ .Tuple => Kind.List
  | .struct _ _ (.Stringjoin _) => Kind.String
  | .struct _ _ (.StringPairs _ _) => Kind.Map
  | .union _ _ (.Keyed _) => Kind.Map
  | .union _ _ (.Kinded _) => Kind.Invalid
  | .union _ _ (.StringPrefix _ _) => Kind.String
  | .union _ _ .Inline => Kind.Map
  | .union _ _ .Envelope => Kind.Map

/-- Modelled from the spec: `StructRepresentation_Map.GetFieldKey`, the serial key of a
field under the rename map, the schema name when the field is not renamed. -/
def GetFieldKey (renames : List (String × String)) (fieldName : String) : String :=
  match renames.lookup fieldName with
  | some serial => serial
  | none => fieldName

/-- Modelled from the spec: `GetDiscriminant` of the keyed and stringprefix strategies,
the serial key that the discriminant map sends to the member of the given name.  The
call panics for a type that is no member of the union. -/
def GetDiscriminant (table : List (String × String)) (memberName : String) : Res String :=
  match table.find? (fun e => e.2 == memberName) with
  | some e => pure e.1
  | none => throwPanic "that type isn't a member of this union"

/-- Modelled from the spec: `UnionRepresentation_Kinded.GetMember`, the member name the
strategy maps the kind to, the empty name when it maps the kind to none. -/
def GetMember (table : List (Kind × String)) (kind : Kind) : String :=
  match table.lookup kind with
  | some name => name
  | none => ""

/-! ## Reflected values -/

/-- The part of `reflect.Value` that bindnode reads: scalars, pointers (optional and
nullable fields, union member slots), Go structs (struct and union backings), slices
and maps.  `invalid` is the zero `reflect.Value`. -/
inductive Val
  | invalid
  | bool (b : Bool)
  | int (i : Int)
  | float (bits : Nat)
  | string (s : String)
  | bytes (p : List Nat)
  | link (cid : String)
  | nilPtr
  | ptr (elem : Val)
  | struct (fields : List Val)
  | slice (items : List Val)
  | gomap (keys values : List Val)

/-- Go `reflect.Value.Field(i)`: panics unless the value is a struct with a field `i`. -/
def Val.Field : Val → Nat → Res Val
  | .struct fields, i =>
    match fields[i]? with
    | some v => pure v
    | none => throwPanic "reflect: Field index out of range"
  | _, _ => throwPanic "reflect: call of reflect.Value.Field on non-struct Value"

/-- Go `reflect.Value.NumField()`. -/
def Val.NumField : Val → Res Nat
  | .struct fields => pure fields.length
  | _ => throwPanic "reflect: call of reflect.Value.NumField on non-struct Value"

/-- Go `reflect.Value.IsNil()`: panics on a kind that cannot be nil. -/
def Val.IsNil : Val → Res Bool
  | .nilPtr => pure true
  | .ptr _ => pure false
  | .slice _ => pure false
  | .gomap _ _ => pure false
  | _ => throwPanic "reflect: call of reflect.Value.IsNil on non-pointer Value"

/-- Go `reflect.Value.Elem()`: the pointee, the zero Value for a nil pointer. -/
def Val.Elem : Val → Res Val
  | .ptr v => pure v
  | .nilPtr => pure Val.invalid
  | _ => throwPanic "reflect: call of reflect.Value.Elem on non-pointer Value"

/-! ## Nodes -/

/-- The dynamic types behind `datamodel.Node` that the representation view handles:
`*_node`, `*_nodeRepr`, `datamodel.Absent`, `datamodel.Null` and the plain string node
of `basicnode.NewString`. -/
inductive Node
  | typed (schemaType : SType) (val : Val)
  | repr (schemaType : SType) (val : Val)
  | Absent
  | Null
  | basicString (s : String)

/-- Go `reprNode` (repr.go:13): a typed node gives its representation view, any other
node is returned as it is. -/
def reprNode : Node → Node
  | .typed t v => .repr t v
  | n => n

/-- The dynamic value of `reprStrategy`: a struct strategy, or a union strategy. -/
inductive Strategy
  | ofStruct (stg : StructRepresentation)
  | ofUnion (stg : UnionRepresentation)
  deriving DecidableEq, Repr

/-- Go `reprStrategy` (repr.go:23): the strategy of a struct or union, nil otherwise. -/
def reprStrategy : SType → Option Strategy
  | .struct _ _ r => some (.ofStruct r)
  | .union _ _ r => some (.ofUnion r)
  | _ => none

/-- Go `TypeStruct.Fields()`; the empty list stands for the failed type assertion's
panic, which callers raise themselves. -/
def SType.Fields : SType → Res (List StructField)
  | .struct _ fields _ => pure fields
  | _ => throwPanic "interface conversion: schema.Type is not *schema.TypeStruct"

/-- Go `TypeUnion.Members()` behind the type assertion `.(*schema.TypeUnion)`. -/
def SType.Members : SType → Res (List SType)
  | .union _ members _ => pure members
  | _ => throwPanic "interface conversion: schema.Type is not *schema.TypeUnion"

/-! ## The typed view (`node.go`), as far as the representation view calls it -/

/-- Modelled from the spec: typed `_node.Kind`; section 4.E, "Struct: kind = Map",
"Union: kind = Map at the typed layer", every other type its own kind. -/
def _node.Kind : SType → Kind
  | .bool _ => Kind.Bool
  | .int _ => Kind.Int
  | .float _ => Kind.Float
  | .string _ => Kind.String
  | .bytes _ => Kind.Bytes
  | .link _ => Kind.Link
  | .list _ _ _ => Kind.List
  | .map _ _ _ _ => Kind.Map
  | .struct _ _ _ => Kind.Map
  | .union _ _ _ => Kind.Map

/-- The three states of a struct field cell (section 3: a cell owns "a child cell (for
optional/nullable fields)"). -/
inductive FieldState
  | absent
  | null
  | present (v : Val)

/-- Modelled from the spec: the nullable half of reading a field cell; a nullable field
is a pointer, nil in the Null state. -/
def derefNullable (nullable : Bool) (fval : Val) : Res FieldState :=
  if nullable then
    fval.IsNil >>= fun isNil =>
      if isNil then pure FieldState.null
      else fval.Elem >>= fun v => pure (FieldState.present v)
  else pure (FieldState.present fval)

/-- Modelled from the spec: reading a struct field cell of the typed view; an optional
field is a pointer, nil in the Absent state ("Absent: the observable state of an
optional struct field that has not been assigned"), then nullable as above. -/
def fieldState (optional nullable : Bool) (fval : Val) : Res FieldState :=
  if optional then
    fval.IsNil >>= fun isNil =>
      if isNil then pure FieldState.absent
      else fval.Elem >>= fun v => derefNullable nullable v
  else derefNullable nullable fval

/-- The node the typed view hands out for a field cell: `datamodel.Absent`,
`datamodel.Null`, or a typed node of the field's type. -/
def fieldNode (ftype : SType) : FieldState → Node
  | .absent => Node.Absent
  | .null => Node.Null
  | .present v => Node.typed ftype v

def unionMemberLoop : List Val → Nat → Res (Option (Nat × Val))
  | [], _ => pure none
  | c :: cs, i =>
    c.IsNil >>= fun isNil =>
      if isNil then unionMemberLoop cs (i + 1)
      else c.Elem >>= fun v => pure (some (i, v))

/-- Modelled from the spec: `unionMember`, the helper that "given a union backing,
returns (member, payload cell)": the first populated member slot.  `none` stands for
the index -1 that is returned when every slot is empty. -/
def unionMember : Val → Res (Option (Nat × Val))
  | .struct cells => unionMemberLoop cells 0
  | _ => throwPanic "reflect: call of reflect.Value.NumField on non-struct Value"

def findField : List StructField → String → Nat → Option (Nat × StructField)
  | [], _, _ => none
  | f :: rest, key, i => if f.Name = key then some (i, f) else findField rest key (i + 1)

def findMember : List SType → String → Nat → Option (Nat × SType)
  | [], _, _ => none
  | m :: rest, key, i => if m.Name = key then some (i, m) else findMember rest key (i + 1)

def findKey : List Val → String → Nat → Option Nat
  | [], _, _ => none
  | .string k :: rest, key, i => if k = key then some i else findKey rest key (i + 1)
  | _ :: rest, key, i => findKey rest key (i + 1)

/-- Modelled from the spec: typed `_node.LookupByString`; section 4.E.  Struct: "returns
the field node using the schema field name", absent and null fields as the Absent and
Null nodes.  Union: "the single key is the inhabited member's schema name;
lookupByString(other) gives NotFound".  Recursive accessors "fail with WrongKind on
scalar kinds and with NotFound on missing children". -/
def _node.LookupByString (schemaType : SType) (val : Val) (key : String) : Res Node :=
  match schemaType with
  | .struct _ fields _ =>
    match findField fields key 0 with
    | none => throwErr (Error.ErrNotExists key)
    | some (i, field) =>
      val.Field i >>= fun fval =>
      fieldState field.IsOptional field.IsNullable fval >>= fun st =>
      pure (fieldNode field.Type st)
  | .map _ _ valueType valueNullable =>
    match val with
    | .gomap keys values =>
      match findKey keys key 0 with
      | none => throwErr (Error.ErrNotExists key)
      | some i =>
        match values[i]? with
        | none => throwPanic "bindnode: map keys and values differ"
        | some fval =>
          derefNullable valueNullable fval >>= fun st => pure (fieldNode valueType st)
    | _ => throwPanic "bindnode: go value does not match the schema type"
  | .union _ members _ =>
    match findMember members key 0 with
    | none => throwErr (Error.ErrNotExists key)
    | some (idx, mtyp) =>
      unionMember val >>= fun r =>
        match r with
        | none => throwErr (Error.ErrNotExists key)
        | some (haveIdx, mval) =>
          if haveIdx ≠ idx then throwErr (Error.ErrNotExists key)
          else pure (Node.typed mtyp mval)
  | t => throwErr (Error.ErrWrongKind t.Name "LookupByString" KindSet_JustMap (_node.Kind t))

/-- Modelled from the spec: typed `_node.Length`; section 4.E, struct: "the declared
field count including absents", union: "length = 1", map and list their entry count,
"-1 for indeterminate". -/
def _node.Length (schemaType : SType) (val : Val) : Res Int :=
  match schemaType, val with
  | .struct _ fields _, _ => pure (fields.length : Int)
  | .union _ _ _, _ => pure 1
  | .map _ _ _ _, .gomap keys _ => pure (keys.length : Int)
  | .list _ _ _, .slice items => pure (items.length : Int)
  | .map _ _ _ _, _ => throwPanic "bindnode: go value does not match the schema type"
  | .list _ _ _, _ => throwPanic "bindnode: go value does not match the schema type"
  | _, _ => pure (-1)

/-- Modelled from the spec: the typed scalar accessors of section 3, which "fail with
WrongKind unless kind matches" and otherwise read the scalar cell. -/
def _node.AsBool (schemaType : SType) (val : Val) : Res Bool :=
  if _node.Kind schemaType ≠ Kind.Bool then
    throwErr (Error.ErrWrongKind schemaType.Name "AsBool" KindSet_JustBool (_node.Kind schemaType))
  else match val with
    | .bool b => pure b
    | _ => throwPanic "bindnode: go value does not match the schema type"

def _node.AsInt (schemaType : SType) (val : Val) : Res Int :=
  if _node.Kind schemaType ≠ Kind.Int then
    throwErr (Error.ErrWrongKind schemaType.Name "AsInt" KindSet_JustInt (_node.Kind schemaType))
  else match val with
    | .int i => pure i
    | _ => throwPanic "bindnode: go value does not match the schema type"

def _node.AsFloat (schemaType : SType) (val : Val) : Res Nat :=
  if _node.Kind schemaType ≠ Kind.Float then
    throwErr (Error.ErrWrongKind schemaType.Name "AsFloat" KindSet_JustFloat (_node.Kind schemaType))
  else match val with
    | .float bits => pure bits
    | _ => throwPanic "bindnode: go value does not match the schema type"

def _node.AsString (schemaType : SType) (val : Val) : Res String :=
  if _node.Kind schemaType ≠ Kind.String then
    throwErr (Error.ErrWrongKind schemaType.Name "AsString" KindSet_JustString (_node.Kind schemaType))
  else match val with
    | .string s => pure s
    | _ => throwPanic "bindnode: go value does not match the schema type"

def _node.AsBytes (schemaType : SType) (val : Val) : Res (List Nat) :=
  if _node.Kind schemaType ≠ Kind.Bytes then
    throwErr (Error.ErrWrongKind schemaType.Name "AsBytes" KindSet_JustBytes (_node.Kind schemaType))
  else match val with
    | .bytes p => pure p
    | _ => throwPanic "bindnode: go value does not match the schema type"

def _node.AsLink (schemaType : SType) (val : Val) : Res String :=
  if _node.Kind schemaType ≠ Kind.Link then
    throwErr (Error.ErrWrongKind schemaType.Name "AsLink" KindSet_JustLink (_node.Kind schemaType))
  else match val with
    | .link cid => pure cid
    | _ => throwPanic "bindnode: go value does not match the schema type"

/-- Modelled from the spec: the scalar accessors of `datamodel.Absent`, which "fails
scalar accessors with WrongKind".  The error names the type `absent` and carries the
actual kind Null, as the one of `datamodel.Null` does. -/
def absentWrongKind (method : String) (appropriate : KindSet) : Error :=
  Error.ErrWrongKind "absent" method appropriate Kind.Null

/-- Modelled from the spec: the scalar accessors of `datamodel.Null`, failing with
WrongKind as for every node whose kind does not match. -/
def nullWrongKind (method : String) (appropriate : KindSet) : Error :=
  Error.ErrWrongKind "null" method appropriate Kind.Null

/-- Modelled from the spec: typed `_node.IsAbsent` and `_node.IsNull`; the absent and
null states are the separate nodes `Absent` and `Null`, a typed node is neither. -/
def _node.IsAbsent (_schemaType : SType) (_val : Val) : Bool := false

def _node.IsNull (_schemaType : SType) (_val : Val) : Bool := false

/-! ## The representation view (`repr.go`): reading -/

/-- Go `_nodeRepr.Kind` (repr.go:44).  For a kinded union the member list is indexed
with the index `unionMember` reports, which is out of range when no slot is populated. -/
def _nodeRepr.Kind (schemaType : SType) (val : Val) : Res Kind :=
  match reprStrategy schemaType with
  | some (.ofStruct (.Stringjoin _)) => pure Kind.String
  | some (.ofStruct (.Map _)) => pure Kind.Map
  | some (.ofStruct .Tuple) => pure Kind.List
  | some (.ofUnion (.Keyed _)) => pure Kind.Map
  | some (.ofUnion (.Kinded _)) =>
    unionMember val >>= fun r =>
    schemaType.Members >>= fun members =>
      match r with
      | none => throwPanic "runtime error: index out of range [-1]"
      | some (haveIdx, _) =>
        match members[haveIdx]? with
        | none => throwPanic "runtime error: index out of range"
        | some mtyp => pure mtyp.RepresentationBehavior
  | some (.ofUnion (.StringPrefix _ _)) => pure Kind.String
  | none => pure (_node.Kind schemaType)
  | some _ => throwPanic "TODO Kind"

/-- Go `outboundMappedKey` (repr.go:67). -/
def outboundMappedKey (renames : List (String × String)) (key : String) : String :=
  GetFieldKey renames key

/-- Go `inboundMappedKey` (repr.go:74), the struct type given by its `Fields()`. -/
def inboundMappedKey (fields : List StructField) (renames : List (String × String))
    (key : String) : String :=
  match fields with
  | [] => key
  | field :: rest =>
    if key = GetFieldKey renames field.Name then field.Name
    else inboundMappedKey rest renames key

/-- Go `outboundMappedType` (repr.go:88). -/
def outboundMappedType (table : List (String × String)) (key : String) : Res String :=
  GetDiscriminant table key

/-- Go `inboundMappedType` (repr.go:95), the union type given by its `Members()`. -/
def inboundMappedType (members : List SType) (table : List (String × String))
    (key : String) : Res String :=
  match members with
  | [] => pure key
  | member :: rest =>
    GetDiscriminant table member.Name >>= fun mappedKey =>
      if key = mappedKey then pure member.Name
      else inboundMappedType rest table key

/-- The loop of `_nodeRepr.asKinded` over the members, `i` the index of the head. -/
def asKindedLoop (name : String) (val : Val) : List SType → Nat → Res (SType × Val)
  | [], _ => throwPanic "TODO: GetMember result is missing?"
  | member :: rest, i =>
    if member.Name ≠ name then asKindedLoop name val rest (i + 1)
    else val.Field i >>= fun f => f.Elem >>= fun e => pure (member, e)

/-- Go `_nodeRepr.asKinded` (repr.go:108): the view of the slot of the member that the
strategy maps the kind to. -/
def _nodeRepr.asKinded (schemaType : SType) (val : Val)
    (table : List (Bindnode.Kind × String)) (kind : Bindnode.Kind) : Res (SType × Val) :=
  schemaType.Members >>= fun members =>
    asKindedLoop (GetMember table kind) val members 0

/-- Go `_nodeRepr.LookupByString` (repr.go:123). -/
def _nodeRepr.LookupByString (schemaType : SType) (val : Val) (key : String) : Res Node :=
  (match reprStrategy schemaType with
    | some (.ofUnion (.Kinded table)) => _nodeRepr.asKinded schemaType val table Kind.Map
    | _ => pure (schemaType, val)) >>= fun w =>
  match reprStrategy w.1 with
  | some (.ofStruct (.Map renames)) =>
    w.1.Fields >>= fun fields =>
    _node.LookupByString w.1 w.2 (inboundMappedKey fields renames key) >>= fun v =>
    pure (reprNode v)
  | some (.ofUnion (.Keyed table)) =>
    w.1.Members >>= fun members =>
    inboundMappedType members table key >>= fun revKey =>
    _node.LookupByString w.1 w.2 revKey >>= fun v =>
    pure (reprNode v)
  | none => _node.LookupByString w.1 w.2 key >>= fun v => pure (reprNode v)
  | some _ => throwPanic "TODO"

/-- The loop of `lengthMinusTrailingAbsents`: the argument is one more than the index
examined, counting down as `for i := len(fields) - 1; i >= 0; i--`. -/
def lengthMinusTrailingAbsentsLoop (fields : List StructField) (val : Val) : Nat → Res Int
  | 0 => pure 0
  | i + 1 =>
    match fields[i]? with
    | none => throwPanic "runtime error: index out of range"
    | some field =>
      if !field.IsOptional then pure ((i + 1 : Nat) : Int)
      else val.Field i >>= fun f => f.IsNil >>= fun isNil =>
        if !isNil then pure ((i + 1 : Nat) : Int)
        else lengthMinusTrailingAbsentsLoop fields val i

/-- Go `_nodeRepr.lengthMinusTrailingAbsents` (repr.go:280). -/
def _nodeRepr.lengthMinusTrailingAbsents (schemaType : SType) (val : Val) : Res Int :=
  schemaType.Fields >>= fun fields =>
    lengthMinusTrailingAbsentsLoop fields val fields.length

/-- Go `_nodeRepr.Length` (repr.go:291). -/
def _nodeRepr.Length (schemaType : SType) (val : Val) : Res Int :=
  match reprStrategy schemaType with
  | some (.ofStruct (.Stringjoin _)) => pure (-1)
  | some (.ofStruct (.Map _)) => _nodeRepr.lengthMinusTrailingAbsents schemaType val
  | some (.ofStruct .Tuple) => _nodeRepr.lengthMinusTrailingAbsents schemaType val
  | some (.ofUnion (.Keyed _)) => _node.Length schemaType val
  | some (.ofUnion (.Kinded table)) =>
    _nodeRepr.Kind schemaType val >>= fun kind =>
    _nodeRepr.asKinded schemaType val table kind >>= fun w =>
    _node.Length w.1 w.2
  | none => _node.Length schemaType val
  | some _ => throwPanic "TODO"

/-- Go `_nodeRepr.IsAbsent` (repr.go:312). -/
def _nodeRepr.IsAbsent (schemaType : SType) (val : Val) : Bool :=
  if reprStrategy schemaType = none then _node.IsAbsent schemaType val else false

/-- Go `_nodeRepr.IsNull` (repr.go:319). -/
def _nodeRepr.IsNull (schemaType : SType) (val : Val) : Bool :=
  if reprStrategy schemaType = none then _node.IsNull schemaType val else false

/-- Go `_nodeRepr.AsBool` (repr.go:326). -/
def _nodeRepr.AsBool (schemaType : SType) (val : Val) : Res Bool :=
  if reprStrategy schemaType = none then _node.AsBool schemaType val
  else _nodeRepr.Kind schemaType val >>= fun kind =>
    throwErr (Error.ErrWrongKind schemaType.Name "AsBool" KindSet_JustBool kind)

/-- Go `_nodeRepr.AsInt` (repr.go:338). -/
def _nodeRepr.AsInt (schemaType : SType) (val : Val) : Res Int :=
  if reprStrategy schemaType = none then _node.AsInt schemaType val
  else _nodeRepr.Kind schemaType val >>= fun kind =>
    throwErr (Error.ErrWrongKind schemaType.Name "AsInt" KindSet_JustInt kind)

/-- Go `_nodeRepr.AsFloat` (repr.go:350). -/
def _nodeRepr.AsFloat (schemaType : SType) (val : Val) : Res Nat :=
  if reprStrategy schemaType = none then _node.AsFloat schemaType val
  else _nodeRepr.Kind schemaType val >>= fun kind =>
    throwErr (Error.ErrWrongKind schemaType.Name "AsFloat" KindSet_JustFloat kind)

/-- Go `_nodeRepr.AsBytes` (repr.go:412). -/
def _nodeRepr.AsBytes (schemaType : SType) (val : Val) : Res (List Nat) :=
  if reprStrategy schemaType = none then _node.AsBytes schemaType val
  else _nodeRepr.Kind schemaType val >>= fun kind =>
    throwErr (Error.ErrWrongKind schemaType.Name "AsBytes" KindSet_JustBytes kind)

/-- Go `_nodeRepr.AsLink` (repr.go:424). -/
def _nodeRepr.AsLink (schemaType : SType) (val : Val) : Res String :=
  if reprStrategy schemaType = none then _node.AsLink schemaType val
  else _nodeRepr.Kind schemaType val >>= fun kind =>
    throwErr (Error.ErrWrongKind schemaType.Name "AsLink" KindSet_JustLink kind)

mutual
/-- Go `_nodeRepr.AsString` (repr.go:362).  The three recursive cases go through the
helpers below, which walk the field or member list of the type. -/
def _nodeRepr.AsString : SType → Val → Res String
  | .struct _ fields (.Stringjoin delim), val => AsString_join fields val delim 0 true ""
  | .union _ members (.StringPrefix delim table), val =>
    unionMember val >>= fun r =>
      match r with
      | none => throwPanic "runtime error: index out of range [-1]"
      | some (haveIdx, mval) =>
        AsString_member members haveIdx mval >>= fun ms =>
        GetDiscriminant table ms.1 >>= fun name =>
        pure (name ++ delim ++ ms.2)
  | .union _ members (.Kinded table), val =>
    AsString_kinded (GetMember table Kind.String) val members 0
  | .struct _ _ _, _ => throwPanic "TODO"
  | .union _ _ _, _ => throwPanic "TODO"
  | t, val => _node.AsString t val
/-- The Stringjoin loop of `AsString` (repr.go:365-384): the typed struct iterator
stands at field `i`, whose declaration heads the list; `b` is the string builder. -/
def AsString_join : List StructField → Val → String → Nat → Bool → String → Res String
  | [], _, _, _, _, b => pure b
  | (.mk _ ftype optional nullable) :: rest, val, delim, i, first, b =>
    val.Field i >>= fun fval =>
    fieldState optional nullable fval >>= fun st =>
    (match st with
      | .absent => throwErr (absentWrongKind "AsString" KindSet_JustString)
      | .null => throwErr (nullWrongKind "AsString" KindSet_JustString)
      | .present v => _nodeRepr.AsString ftype v) >>= fun s =>
    AsString_join rest val delim (i + 1) false ((if first then b else b ++ delim) ++ s)
/-- The member access `Members()[haveIdx]` of the Stringprefix case followed by
`w2.AsString()`; gives the member's name with the string. -/
def AsString_member : List SType → Nat → Val → Res (String × String)
  | [], _, _ => throwPanic "runtime error: index out of range"
  | mtyp :: _, 0, mval => _nodeRepr.AsString mtyp mval >>= fun s => pure (mtyp.Name, s)
  | _ :: rest, haveIdx + 1, mval => AsString_member rest haveIdx mval
/-- The kinded case `w.asKinded(stg, datamodel.Kind_String).AsString()`. -/
def AsString_kinded (name : String) (val : Val) : List SType → Nat → Res String
  | [], _ => throwPanic "TODO: GetMember result is missing?"
  | member :: rest, i =>
    if member.Name ≠ name then AsString_kinded name val rest (i + 1)
    else val.Field i >>= fun f => f.Elem >>= fun e => _nodeRepr.AsString member e
end

/-- Interface dispatch of `datamodel.Node.AsString`. -/
def Node.AsString : Node → Res String
  | .typed t v => _node.AsString t v
  | .repr t v => _nodeRepr.AsString t v
  | .Absent => throwErr (absentWrongKind "AsString" KindSet_JustString)
  | .Null => throwErr (nullWrongKind "AsString" KindSet_JustString)
  | .basicString s => pure s

/-- Interface dispatch of `datamodel.Node.AsInt`. -/
def Node.AsInt : Node → Res Int
  | .typed t v => _node.AsInt t v
  | .repr t v => _nodeRepr.AsInt t v
  | .Absent => throwErr (absentWrongKind "AsInt" KindSet_JustInt)
  | .Null => throwErr (nullWrongKind "AsInt" KindSet_JustInt)
  | .basicString _ => throwErr (Error.ErrWrongKind "string" "AsInt" KindSet_JustInt Kind.String)

/-- Interface dispatch of `datamodel.Node.IsAbsent`. -/
def Node.IsAbsent : Node → Bool
  | .typed t v => _node.IsAbsent t v
  | .repr t v => _nodeRepr.IsAbsent t v
  | .Absent => true
  | _ => false

/-! ## Struct iteration -/

/-- Modelled from the spec: the typed struct iterator, "a cursor value type that holds a
shared reference to the backing and an index".  `reprEnd` is the field that
`_nodeRepr.MapIterator` sets. -/
structure _structIterator where
  schemaType : SType
  fields : List StructField
  val : Val
  nextIndex : Nat
  reprEnd : Int

/-- Modelled from the spec: typed `_structIterator.Done`; the iterator is "finite and
single-pass" over the declared fields. -/
def _structIterator.Done (w : _structIterator) : Bool :=
  decide (w.nextIndex ≥ w.fields.length)

/-- Modelled from the spec: typed `_structIterator.Next`; section 4.E, "field order for
iteration follows the schema declaration order", every declared field is visited,
an absent one as the Absent node, and the key is the schema field name. -/
def _structIterator.Next (w : _structIterator) : Res (Node × Node × _structIterator) :=
  if w.Done then throwErr Error.ErrIteratorOverread
  else
    match w.fields[w.nextIndex]? with
    | none => throwPanic "runtime error: index out of range"
    | some field =>
      w.val.Field w.nextIndex >>= fun fval =>
      fieldState field.IsOptional field.IsNullable fval >>= fun st =>
      pure (Node.basicString field.Name, fieldNode field.Type st,
        { w with nextIndex := w.nextIndex + 1 })

/-- Modelled from the spec: typed `_node.MapIterator` on a struct, a fresh iterator over
the declared fields. -/
def _node.MapIterator_struct (schemaType : SType) (val : Val) : Res _structIterator :=
  schemaType.Fields >>= fun fields =>
    pure { schemaType := schemaType, fields := fields, val := val, nextIndex := 0, reprEnd := 0 }

/-- Go `_nodeRepr.MapIterator` (repr.go:216), the case `StructRepresentation_Map`. -/
def _nodeRepr.MapIterator_struct (schemaType : SType) (val : Val) : Res _structIterator :=
  _node.MapIterator_struct schemaType val >>= fun itr =>
  _nodeRepr.lengthMinusTrailingAbsents schemaType val >>= fun n =>
    pure { itr with reprEnd := n }

/-- Go `_structIteratorRepr.Next` (repr.go:910), the case `StructRepresentation_Map`:
the typed iterator is advanced until it gives a field that is not absent.  The error
of `key.AsString()` is dropped, as in `keyStr, _ := key.AsString()`. -/
def _structIteratorRepr.Next (renames : List (String × String)) (w : _structIterator) :
    Res (Node × Node × _structIterator) :=
  match h : _structIterator.Next w with
  | .error e => .error e
  | .ok (key, value, w2) =>
    if value.IsAbsent then _structIteratorRepr.Next renames w2
    else
      let keyStr := match key.AsString with
        | .ok s => s
        | .error _ => ""
      let mappedKey := outboundMappedKey renames keyStr
      pure (if mappedKey ≠ keyStr then Node.basicString mappedKey else key,
        reprNode value, w2)
termination_by w.fields.length - w.nextIndex
decreasing_by
  unfold _structIterator.Next at h
  by_cases hd : w.Done = true
  · simp [hd, throwErr] at h
  · simp only [hd] at h
    have hlt : w.nextIndex < w.fields.length := by
      simpa [_structIterator.Done] using hd
    cases hf : w.fields[w.nextIndex]? with
    | none => simp [hf, throwPanic] at h
    | some field =>
      simp only [hf] at h
      cases hv : w.val.Field w.nextIndex with
      | error e => simp [hv, bind, Except.bind] at h
      | ok fval =>
        cases hs : fieldState field.IsOptional field.IsNullable fval with
        | error e => simp [hv, hs, bind, Except.bind] at h
        | ok st =>
          simp [hv, hs, bind, Except.bind, pure, Except.pure] at h
          obtain ⟨-, -, rfl⟩ := h
          simp only
          omega

/-- Go `_structIteratorRepr.Done` (repr.go:932). -/
def _structIteratorRepr.Done (w : _structIterator) : Bool :=
  decide ((w.nextIndex : Int) ≥ w.reprEnd)

/-- The client loop over a representation struct iterator, which calls `Next` while
`Done` is false: the entries in the order they are given, or the first failure of
`Next`.  `fuel` bounds the number of tests of `Done`; `none` is fuel run out. -/
def drain (renames : List (String × String)) :
    Nat → _structIterator → Option (Res (List (Node × Node)))
  | 0, _ => none
  | fuel + 1, w =>
    if _structIteratorRepr.Done w then some (pure [])
    else
      match _structIteratorRepr.Next renames w with
      | .error e => some (.error e)
      | .ok (key, value, w2) =>
        (drain renames fuel w2).map fun r => r >>= fun rest => pure ((key, value) :: rest)

/-! ## Go `strings` -/

/-- The scan of `strings.Split` for a non-empty separator: `skip` counts the bytes of a
matched separator still to be passed over, `cur` is the current part, reversed. -/
def strings.splitAux (sep : List Char) : List Char → Nat → List Char → List (List Char)
  | [], _, cur => [cur.reverse]
  | _ :: cs, skip + 1, cur => strings.splitAux sep cs skip cur
  | c :: cs, 0, cur =>
    if sep.isPrefixOf (c :: cs) then cur.reverse :: strings.splitAux sep cs (sep.length - 1) []
    else strings.splitAux sep cs 0 (c :: cur)

/-- Go `strings.Split(s, sep)`: the parts between the leftmost non-overlapping
occurrences of `sep`; an empty `sep` splits after each character. -/
def strings.Split (s sep : String) : List String :=
  if sep = "" then s.data.map fun c => String.mk [c]
  else (strings.splitAux sep.data s.data 0 []).map String.mk

/-- The scan of `strings.SplitN(s, sep, 2)` for a non-empty separator. -/
def strings.cutAux (sep : List Char) : List Char → List Char → Option (List Char × List Char)
  | [], _ => none
  | c :: cs, cur =>
    if sep.isPrefixOf (c :: cs) then some (cur.reverse, (c :: cs).drop sep.length)
    else strings.cutAux sep cs (c :: cur)

/-- Go `strings.SplitN(s, sep, 2)` for a non-empty `sep`: the text before and after the
first occurrence of `sep`, or `s` alone. -/
def strings.SplitN2 (s sep : String) : List String :=
  match strings.cutAux sep.data s.data [] with
  | some (a, b) => [String.mk a, String.mk b]
  | none => [s]

/-- Go `strings.HasPrefix`. -/
def strings.HasPrefix (s pre : String) : Bool := pre.data.isPrefixOf s.data

/-! ## The assembler (`repr.go`): `AssignString` -/

mutual
/-- The zero value of the Go type bound to a schema type, the "fresh backing cell" a
prototype creates. -/
def zeroVal : SType → Val
  | .bool _ => Val.bool false
  | .int _ => Val.int 0
  | .float _ => Val.float 0
  | .string _ => Val.string ""
  | .bytes _ => Val.bytes []
  | .link _ => Val.link ""
  | .list _ _ _ => Val.slice []
  | .map _ _ _ _ => Val.gomap [] []
  | .struct _ fields _ => Val.struct (zeroCells fields)
  | .union _ members _ => Val.struct (members.map fun _ => Val.nilPtr)
/-- The zero cells of a struct: a nil pointer for an optional or nullable field. -/
def zeroCells : List StructField → List Val
  | [] => []
  | (.mk _ t optional nullable) :: rest =>
    (if optional || nullable then Val.nilPtr else zeroVal t) :: zeroCells rest
end

/-- Modelled from the spec: a nullable cell is a pointer to the value assigned. -/
def wrapNullable (nullable : Bool) (v : Val) : Val :=
  if nullable then Val.ptr v else v

/-- Modelled from the spec: typed `_assembler.AssignString`; the assembler of a type
whose kind is String stores the string in its cell, any other fails with WrongKind.
The result is the cell after the call. -/
def _assembler.AssignString (schemaType : SType) (nullable : Bool) (s : String) : Res Val :=
  if _node.Kind schemaType ≠ Kind.String then
    throwErr (Error.ErrWrongKind schemaType.Name "AssignString" KindSet_JustString
      (_node.Kind schemaType))
  else pure (wrapNullable nullable (Val.string s))

/-- Modelled from the spec: the typed struct assembler that `BeginMap` returns, the
cells built so far and which fields have been assigned. -/
structure _structAssembler where
  cells : List Val
  doneFields : List Bool

/-- Modelled from the spec: typed `_assembler.BeginMap` on a struct, "a Prototype creates
a fresh backing cell; an Assembler populates it". -/
def _assembler.BeginMap_struct (fields : List StructField) : _structAssembler :=
  { cells := zeroCells fields, doneFields := fields.map fun _ => false }

/-- Modelled from the spec: typed `_structAssembler.AssembleEntry`; the field is looked
up by its schema name and marked as assigned, and the entry assembler is for its cell.
Gives the index and the declaration of the field. -/
def _structAssembler.AssembleEntry (w : _structAssembler) (fields : List StructField)
    (name : String) : Res (Nat × StructField × _structAssembler) :=
  match findField fields name 0 with
  | none => throwPanic name
  | some (j, field) => pure (j, field, { w with doneFields := w.doneFields.set j true })

/-- Modelled from the spec: the entry assembler's cell after an assignment that leaves
`v` in it, behind a pointer when the field is optional. -/
def _structAssembler.store (w : _structAssembler) (j : Nat) (field : StructField)
    (v : Val) : _structAssembler :=
  { w with cells := w.cells.set j (if field.IsOptional then Val.ptr v else v) }

def missingFields : List StructField → List Bool → List String
  | [], _ => []
  | f :: fs, [] => if !f.IsOptional then f.Name :: missingFields fs [] else missingFields fs []
  | f :: fs, d :: ds =>
    if !f.IsOptional && !d then f.Name :: missingFields fs ds else missingFields fs ds

/-- Modelled from the spec: typed `_structAssembler.Finish`; "MissingRequiredFields:
returned by finish(); carries schema names", of the non-optional fields not assigned. -/
def _structAssembler.Finish (w : _structAssembler) (fields : List StructField) : Res Val :=
  match missingFields fields w.doneFields with
  | [] => pure (Val.struct w.cells)
  | missing => throwErr (Error.ErrMissingRequiredField missing)

/-- Modelled from the spec: `unionSetMember`, which leaves exactly the slot `idx` of the
`n` member slots populated (invariant 2 of section 3): the union is reset to its zero
value and the slot is set to a pointer to the member value. -/
def unionSetMember (n idx : Nat) (v : Val) : Val :=
  Val.struct ((List.replicate n Val.nilPtr).set idx (Val.ptr v))

mutual
/-- Go `_assemblerRepr.AssignString` (repr.go:577) for an assembler of the given schema
type and nullable flag; the result is the assembler's cell after the call.  The entry
assembler of the field a declaration names has that declaration's type: the fields are
the keys of an ordered map. -/
def _assemblerRepr.AssignString : SType → Bool → String → Res Val
  | .struct _ fields (.Stringjoin delim), nullable, s =>
    if (strings.Split s delim).length ≠ fields.length then throwPanic "TODO: len mismatch"
    else
      AssignString_fields fields fields (strings.Split s delim)
        (_assembler.BeginMap_struct fields) >>= fun mapAsm =>
      mapAsm.Finish fields >>= fun v => pure (wrapNullable nullable v)
  | .union _ members (.Kinded table), nullable, s =>
    AssignString_kinded (GetMember table Kind.String) members.length nullable s members 0
  | .union name members (.StringPrefix delim table), nullable, s =>
    if delim ≠ "" then
      match strings.SplitN2 s delim with
      | [pre, remainder] =>
        AssignString_member table name members.length nullable s (some (pre, remainder)) members 0
      | _ => throwErr (Error.Errorf "schema rejects data: the union type %s expects delimiter %q, and it was not found in the data %q" [name, delim, s])
    else AssignString_member table name members.length nullable s none members 0
  | .struct _ _ _, _, _ => throwPanic "TODO"
  | .union _ _ _, _, _ => throwPanic "TODO"
  | t, nullable, s => _assembler.AssignString t nullable s
/-- The loop `for i, field := range fields` of the Stringjoin case (repr.go:589-598);
`parts` are the parts from `parts[i]` on. -/
def AssignString_fields (fields : List StructField) :
    List StructField → List String → _structAssembler → Res _structAssembler
  | [], _, mapAsm => pure mapAsm
  | (.mk _ _ _ _) :: _, [], _ => throwPanic "runtime error: index out of range"
  | (.mk name ftype _ _) :: rest, part :: parts, mapAsm =>
    mapAsm.AssembleEntry fields name >>= fun entry =>
    _assemblerRepr.AssignString ftype entry.2.1.IsNullable part >>= fun v =>
    AssignString_fields fields rest parts (entry.2.2.store entry.1 entry.2.1 v)
/-- The loop of `_assemblerRepr.asKinded` (repr.go:472) followed by `AssignString` on its
result, a nil assembler when no member has the name.  For the member found,
`w.val.Field(idx)` (repr.go:480) is called on the cell of the assembler; the cell of a
nullable assembler is a pointer, on which `reflect.Value.Field` panics.  The assembler
of the member is a copy of `w` and keeps its flag. -/
def AssignString_kinded (name : String) (n : Nat) (nullable : Bool) (s : String) :
    List SType → Nat → Res Val
  | [], _ => throwPanic "runtime error: invalid memory address or nil pointer dereference"
  | member :: rest, idx =>
    if member.Name ≠ name then AssignString_kinded name n nullable s rest (idx + 1)
    else if nullable then throwPanic "reflect: call of reflect.Value.Field on ptr Value"
    else
      _assemblerRepr.AssignString member nullable s >>= fun v =>
      pure (unionSetMember n idx v)
/-- The loop `for idx, member := range members` of the Stringprefix case
(repr.go:615-644); `split` is the prefix and remainder cut at the delimiter, `none`
when the delimiter is empty.  For the member selected, `w.val.Field(idx)` (repr.go:630)
is called on the cell of the assembler; the cell of a nullable assembler is a pointer,
on which `reflect.Value.Field` panics.  The assembler of the member is a copy of `w`
and keeps its flag. -/
def AssignString_member (table : List (String × String)) (uname : String) (n : Nat)
    (nullable : Bool) (s : String) (split : Option (String × String)) :
    List SType → Nat → Res Val
  | [], _ => throwErr (Error.Errorf "schema rejects data: the union type %s requires a known prefix, and it was not found in the data %q" [uname, s])
  | member :: rest, idx =>
    GetDiscriminant table member.Name >>= fun descrm =>
      match split with
      | some (pre, remainder) =>
        if descrm ≠ pre then AssignString_member table uname n nullable s split rest (idx + 1)
        else if nullable then throwPanic "reflect: call of reflect.Value.Field on ptr Value"
        else
          _assemblerRepr.AssignString member nullable remainder >>= fun v =>
          pure (unionSetMember n idx v)
      | none =>
        if !strings.HasPrefix s descrm then
          AssignString_member table uname n nullable s split rest (idx + 1)
        else if nullable then throwPanic "reflect: call of reflect.Value.Field on ptr Value"
        else
          _assemblerRepr.AssignString member nullable (String.mk (s.data.drop descrm.length)) >>= fun v =>
          pure (unionSetMember n idx v)
end

/-! ## The schemas of the concrete scenarios -/

/-- `type U union { | A "a" | B "b" } representation keyed`, `A = int`, `B = string`. -/
def exampleKeyed : SType :=
  .union "U" [.int "A", .string "B"] (.Keyed [("a", "A"), ("b", "B")])

/-- `type U union { | Foo int | Bar string } representation kinded`. -/
def exampleKinded : SType :=
  .union "U" [.int "Foo", .string "Bar"] (.Kinded [(Kind.Int, "Foo"), (Kind.String, "Bar")])

/-- `type V struct { x String y String } representation stringjoin (":")`. -/
def exampleStringjoin : SType :=
  .struct "V" [.mk "x" (.string "String") false false, .mk "y" (.string "String") false false]
    (.Stringjoin ":")

/-- `type P struct { firstName optional String lastName String } representation map`
with `firstName` renamed to `fn`. -/
def exampleRename : SType :=
  .struct "P" [.mk "firstName" (.string "String") true false,
    .mk "lastName" (.string "String") false false] (.Map [("firstName", "fn")])

/-! ## Predicates of the statements -/

/-- Every member of the union has a discriminant in the table, and the discriminants of
different members differ. -/
def DistinctDiscriminants (table : List (String × String)) (members : List SType) : Prop :=
  (∀ m ∈ members, ∃ d, GetDiscriminant table m.Name = Except.ok d) ∧
    members.Pairwise fun a b => GetDiscriminant table a.Name ≠ GetDiscriminant table b.Name

/-- The cell of a field that is both optional and absent: a nil pointer. -/
def isOptionalAbsent (fc : StructField × Val) : Bool :=
  fc.1.IsOptional && (match fc.2 with
    | .nilPtr => true
    | _ => false)

/-- The length of the longest suffix of fields that are both optional and absent. -/
def trailingAbsents (fields : List StructField) (cells : List Val) : Nat :=
  ((fields.zip cells).reverse.takeWhile isOptionalAbsent).length

/-- The backing struct has one cell for each declared field, and the cell of an optional
field is a pointer. -/
def OptionalCellsArePointers (fields : List StructField) (cells : List Val) : Prop :=
  cells.length = fields.length ∧
    ∀ fc ∈ fields.zip cells, fc.1.IsOptional = true → ∃ b, fc.2.IsNil = Except.ok b

/-- The states of the field cells of a backing struct, read as the typed view reads
them; `none` when the struct has not one cell for each field, or a cell cannot be read
(the cell of an optional or nullable field is not a pointer). -/
def fieldStates : List StructField → List Val → Option (List FieldState)
  | [], [] => some []
  | f :: fs, c :: cs =>
    match fieldState f.IsOptional f.IsNullable c, fieldStates fs cs with
    | .ok st, some sts => some (st :: sts)
    | _, _ => none
  | _, _ => none

/-- The entries a struct with Map representation is to yield: for each field that is not
absent, in declaration order, its serial key under the rename map and its
representation node. -/
def presentEntries (renames : List (String × String)) :
    List StructField → List FieldState → List (Node × Node)
  | f :: fs, st :: sts =>
    match st with
    | .absent => presentEntries renames fs sts
    | st => (Node.basicString (GetFieldKey renames f.Name), reprNode (fieldNode f.Type st))
        :: presentEntries renames fs sts
  | _, _ => []

/-- The cells from index `i` on hold, for the declared fields `fs`, values that are
present and string-valued: the representation node of each gives the string at the same
place of `ss`. -/
def FieldsHaveStrings (cells : List Val) : List StructField → Nat → List String → Prop
  | [], _, ss => ss = []
  | f :: fs, i, ss =>
    ∃ c v s rest, ss = s :: rest ∧ cells[i]? = some c ∧
      fieldState f.IsOptional f.IsNullable c = Except.ok (FieldState.present v) ∧
      (reprNode (Node.typed f.Type v)).AsString = Except.ok s ∧
      FieldsHaveStrings cells fs (i + 1) rest

/-- The delimiter before each of the strings: `δ + s1 + δ + s2 + ...`. -/
def joinTail (delim : String) : List String → String
  | [] => ""
  | s :: rest => delim ++ s ++ joinTail delim rest

/-- The strings joined by the delimiter: `s1 + δ + s2 + ... + δ + sn`, no delimiter
leading or trailing. -/
def joinStrings (delim : String) : List String → String
  | [] => ""
  | s :: rest => s ++ joinTail delim rest

/-- The delimiter `sep` does not begin at any position inside `s` when `s` is followed by
`sep`: in `s + sep` the delimiter occurs only as the final `sep`.  For a delimiter of one
character: the character does not occur in `s`. -/
def delimiterFree (sep : List Char) : List Char → Bool
  | [] => true
  | c :: cs => !sep.isPrefixOf (c :: cs ++ sep) && delimiterFree sep cs

/-- The cell of a field holding the string `s`: behind a pointer for a nullable field,
and behind one more for an optional field. -/
def stringCell (f : StructField) (s : String) : Val :=
  if f.IsOptional then Val.ptr (wrapNullable f.IsNullable (Val.string s))
  else wrapNullable f.IsNullable (Val.string s)

/-! ## The representation view (`repr.go`): lookup by index -/

/-- Modelled from the spec: typed `_node.LookupByIndex`; the recursive accessors "fail
with WrongKind on scalar kinds and with NotFound on missing children".  A list gives the
node of its item at the index, every other type has no children by index. -/
def _node.LookupByIndex (schemaType : SType) (val : Val) (idx : Int) : Res Node :=
  match schemaType with
  | .list _ valueType valueNullable =>
    match val with
    | .slice items =>
      if idx < 0 ∨ idx ≥ (items.length : Int) then throwErr (Error.ErrNotExists (toString idx))
      else
        match items[idx.toNat]? with
        | none => throwErr (Error.ErrNotExists (toString idx))
        | some fval =>
          derefNullable valueNullable fval >>= fun st => pure (fieldNode valueType st)
    | _ => throwPanic "bindnode: go value does not match the schema type"
  | t => throwErr (Error.ErrWrongKind t.Name "LookupByIndex" KindSet_JustList (_node.Kind t))

/-- Go `_nodeRepr.LookupByIndex` (repr.go:153).  The Tuple case indexes the field list
with `fields[idx]`, which panics when `idx` is out of range. -/
def _nodeRepr.LookupByIndex (schemaType : SType) (val : Val) (idx : Int) : Res Node :=
  match reprStrategy schemaType with
  | some (.ofStruct .Tuple) =>
    schemaType.Fields >>= fun fields =>
      if idx < 0 ∨ idx ≥ (fields.length : Int) then
        throwPanic "runtime error: index out of range"
      else
        match fields[idx.toNat]? with
        | none => throwPanic "runtime error: index out of range"
        | some field =>
          _node.LookupByString schemaType val field.Name >>= fun v => pure (reprNode v)
  | none => _node.LookupByIndex schemaType val idx >>= fun v => pure (reprNode v)
  | some _ => throwPanic "TODO"

/-! ## The assembler (`repr.go`): the scalar assigners -/

/-- Modelled from the spec: the typed scalar assigners; as `AssignString` above, the
assembler of a type of the matching kind stores the scalar in its cell, any other fails
with WrongKind.  The result is the cell after the call. -/
def _assembler.AssignBool (schemaType : SType) (nullable : Bool) (b : Bool) : Res Val :=
  if _node.Kind schemaType ≠ Kind.Bool then
    throwErr (Error.ErrWrongKind schemaType.Name "AssignBool" KindSet_JustBool
      (_node.Kind schemaType))
  else pure (wrapNullable nullable (Val.bool b))

def _assembler.AssignInt (schemaType : SType) (nullable : Bool) (i : Int) : Res Val :=
  if _node.Kind schemaType ≠ Kind.Int then
    throwErr (Error.ErrWrongKind schemaType.Name "AssignInt" KindSet_JustInt
      (_node.Kind schemaType))
  else pure (wrapNullable nullable (Val.int i))

def _assembler.AssignFloat (schemaType : SType) (nullable : Bool) (bits : Nat) : Res Val :=
  if _node.Kind schemaType ≠ Kind.Float then
    throwErr (Error.ErrWrongKind schemaType.Name "AssignFloat" KindSet_JustFloat
      (_node.Kind schemaType))
  else pure (wrapNullable nullable (Val.float bits))

def _assembler.AssignBytes (schemaType : SType) (nullable : Bool) (p : List Nat) : Res Val :=
  if _node.Kind schemaType ≠ Kind.Bytes then
    throwErr (Error.ErrWrongKind schemaType.Name "AssignBytes" KindSet_JustBytes
      (_node.Kind schemaType))
  else pure (wrapNullable nullable (Val.bytes p))

def _assembler.AssignLink (schemaType : SType) (nullable : Bool) (cid : String) : Res Val :=
  if _node.Kind schemaType ≠ Kind.Link then
    throwErr (Error.ErrWrongKind schemaType.Name "AssignLink" KindSet_JustLink
      (_node.Kind schemaType))
  else pure (wrapNullable nullable (Val.link cid))

mutual
/-- Go `_assemblerRepr.AssignBool` (repr.go:548): a kinded union forwards to the
assembler `asKinded` gives for the kind Bool. -/
def _assemblerRepr.AssignBool : SType → Bool → Bool → Res Val
  | .union _ members (.Kinded table), nullable, b =>
    AssignBool_kinded (GetMember table Kind.Bool) members.length nullable b members 0
  | .struct _ _ _, _, _ => throwPanic "TODO"
  | .union _ _ _, _, _ => throwPanic "TODO"
  | t, nullable, b => _assembler.AssignBool t nullable b
/-- The loop of `_assemblerRepr.asKinded` (repr.go:472) followed by `AssignBool` on its
result, a nil assembler when no member has the name.  For the member found,
`w.val.Field(idx)` (repr.go:480) panics on the pointer cell of a nullable assembler. -/
def AssignBool_kinded (name : String) (n : Nat) (nullable : Bool) (b : Bool) :
    List SType → Nat → Res Val
  | [], _ => throwPanic "runtime error: invalid memory address or nil pointer dereference"
  | member :: rest, idx =>
    if member.Name ≠ name then AssignBool_kinded name n nullable b rest (idx + 1)
    else if nullable then throwPanic "reflect: call of reflect.Value.Field on ptr Value"
    else
      _assemblerRepr.AssignBool member nullable b >>= fun v =>
      pure (unionSetMember n idx v)
end

/-- Go `_assemblerRepr.AssignInt` (repr.go:559): the typed assigner when the type has no
representation strategy, a panic for every strategy. -/
def _assemblerRepr.AssignInt (schemaType : SType) (nullable : Bool) (i : Int) : Res Val :=
  match reprStrategy schemaType with
  | none => _assembler.AssignInt schemaType nullable i
  | some _ => throwPanic "TODO"

/-- Go `_assemblerRepr.AssignFloat` (repr.go:568). -/
def _assemblerRepr.AssignFloat (schemaType : SType) (nullable : Bool) (bits : Nat) : Res Val :=
  match reprStrategy schemaType with
  | none => _assembler.AssignFloat schemaType nullable bits
  | some _ => throwPanic "TODO"

/-- Go `_assemblerRepr.AssignBytes` (repr.go:653). -/
def _assemblerRepr.AssignBytes (schemaType : SType) (nullable : Bool) (p : List Nat) :
    Res Val :=
  match reprStrategy schemaType with
  | none => _assembler.AssignBytes schemaType nullable p
  | some _ => throwPanic "TODO"

/-- Go `_assemblerRepr.AssignLink` (repr.go:662). -/
def _assemblerRepr.AssignLink (schemaType : SType) (nullable : Bool) (cid : String) :
    Res Val :=
  match reprStrategy schemaType with
  | none => _assembler.AssignLink schemaType nullable cid
  | some _ => throwPanic "TODO"

/-! ## The assembler (`repr.go`): the struct assembler of the Map representation -/

/-- Modelled from the spec: typed `_structAssembler.AssembleValue`; `curKey` is the
string the key assembler has stored in the key cell.  The field of that schema name is
looked up and marked as assigned, as `AssembleEntry` does for its argument. -/
def _structAssembler.AssembleValue (w : _structAssembler) (fields : List StructField)
    (curKey : String) : Res (Nat × StructField × _structAssembler) :=
  w.AssembleEntry fields curKey

/-- Go `_structAssemblerRepr.AssembleKey` (repr.go:686): the typed key assembler for the
Map representation, a string assembler whose `AssignString` stores the key in the key
cell; a panic with a WrongKind error value for the other struct representations. -/
def _structAssemblerRepr.AssembleKey (schemaType : SType) : Res Unit :=
  match reprStrategy schemaType with
  | some (.ofStruct (.Map _)) => pure ()
  | some (.ofStruct (.Stringjoin _)) =>
    Except.error (Failure.panicErr (Error.ErrWrongKind (schemaType.Name ++ ".Repr")
      "AssembleKey" KindSet_JustMap Kind.String))
  | some (.ofStruct (.StringPairs _ _)) =>
    Except.error (Failure.panicErr (Error.ErrWrongKind (schemaType.Name ++ ".Repr")
      "AssembleKey" KindSet_JustMap Kind.String))
  | some (.ofStruct .Tuple) =>
    Except.error (Failure.panicErr (Error.ErrWrongKind (schemaType.Name ++ ".Repr")
      "AssembleKey" KindSet_JustMap Kind.List))
  | _ => throwPanic "TODO"

/-- Go `_structAssemblerRepr.AssembleValue` (repr.go:712); `key` is the string in the key
cell, which is overwritten with `inboundMappedKey` of it before the typed assembler
reads it. -/
def _structAssemblerRepr.AssembleValue (schemaType : SType) (w : _structAssembler)
    (key : String) : Res (Nat × StructField × _structAssembler) :=
  match reprStrategy schemaType with
  | some (.ofStruct (.Map renames)) =>
    schemaType.Fields >>= fun fields =>
      _structAssembler.AssembleValue w fields (inboundMappedKey fields renames key)
  | _ => throwPanic "TODO"

/-- Go `_structAssemblerRepr.AssembleEntry` (repr.go:727): `AssembleKey().AssignString(k)`
leaves `k` in the key cell, then `AssembleValue()`. -/
def _structAssemblerRepr.AssembleEntry (schemaType : SType) (w : _structAssembler)
    (k : String) : Res (Nat × StructField × _structAssembler) :=
  _structAssemblerRepr.AssembleKey schemaType >>= fun _ =>
    _structAssemblerRepr.AssembleValue schemaType w k

/-- The loop `for i, name := range err.Missing` of `_structAssemblerRepr.Finish`
(repr.go:740-745), which rewrites the names in place.  `quote` is the verb `%q` of
`fmt.Sprintf`, Go's `strconv.Quote`. -/
def decorateMissing (quote : String → String) (renames : List (String × String)) :
    List String → List String
  | [] => []
  | name :: rest =>
    (if outboundMappedKey renames name ≠ name then
        name ++ (" (serial:" ++ quote (outboundMappedKey renames name) ++ ")")
      else name) :: decorateMissing quote renames rest

/-- Go `_structAssemblerRepr.Finish` (repr.go:735). -/
def _structAssemblerRepr.Finish (quote : String → String) (schemaType : SType)
    (w : _structAssembler) : Res Val :=
  match reprStrategy schemaType with
  | some (.ofStruct (.Map renames)) =>
    schemaType.Fields >>= fun fields =>
      match _structAssembler.Finish w fields with
      | .error (.error (.ErrMissingRequiredField missing)) =>
        throwErr (Error.ErrMissingRequiredField (decorateMissing quote renames missing))
      | r => r
  | _ => throwPanic "TODO"

/-! ## More schemas of the concrete scenarios -/

/-- `type U union { | A "a" | B "ab" } representation stringprefix`, no delimiter, `A`
and `B` strings. -/
def exampleStringprefixOverlap : SType :=
  .union "U" [.string "A", .string "B"] (.StringPrefix "" [("a", "A"), ("ab", "B")])

/-- `type U union { | A "a:" | B "b:" } representation stringprefix`, no delimiter. -/
def exampleStringprefixColon : SType :=
  .union "U" [.string "A", .string "B"] (.StringPrefix "" [("a:", "A"), ("b:", "B")])

/-- The union `U` with the delimiter `":"` and the discriminants `"a"` and `"b"`. -/
def exampleStringprefixDelim : SType :=
  .union "U" [.string "A", .string "B"] (.StringPrefix ":" [("a", "A"), ("b", "B")])

/-- A union with the delimiter `":"` and a discriminant in which the delimiter occurs. -/
def exampleStringprefixInner : SType :=
  .union "U" [.string "A", .string "B"] (.StringPrefix ":" [("x:y", "A"), ("b", "B")])

/-- `type U union { | Foo int } representation kinded`: no member for the kind String. -/
def exampleKindedInt : SType :=
  .union "U" [.int "Foo"] (.Kinded [(Kind.Int, "Foo")])

/-- `type T struct { a Int b String } representation tuple`. -/
def exampleTuple : SType :=
  .struct "T" [.mk "a" (.int "Int") false false, .mk "b" (.string "String") false false]
    .Tuple

/-- `type P struct { firstName String lastName String } representation map` with
`firstName` renamed to `fn`, both fields required. -/
def exampleRenameRequired : SType :=
  .struct "P" [.mk "firstName" (.string "String") false false,
    .mk "lastName" (.string "String") false false] (.Map [("firstName", "fn")])

/-! ## The representation view (`repr.go`): lookup by segment and by node -/

/-- Modelled from the spec: `datamodel.PathSegment`, a path step that is a string key or
a list index. -/
inductive PathSegment
  | ofString (s : String)
  | ofInt (i : Int)

/-- Modelled from the spec: `PathSegment.String()`, the key, an index in decimal. -/
def PathSegment.String (seg : PathSegment) :=
  match seg with
  | .ofString s => s
  | .ofInt i => toString i

/-- The value of a run of decimal digits, `none` when a character is no digit. -/
def strconv.digits : List Char → Nat → Option Nat
  | [], acc => some acc
  | c :: cs, acc =>
    if c.isDigit then strconv.digits cs (acc * 10 + (c.toNat - '0'.toNat)) else none

/-- Go `strconv.ParseInt(s, 10, 64)`: an optional sign and decimal digits, within the
range of `int64`. -/
def strconv.ParseInt (s : String) : Option Int :=
  (match s.data with
    | [] => none
    | '-' :: cs => if cs = [] then none else (strconv.digits cs 0).map fun n => -(n : Int)
    | '+' :: cs => if cs = [] then none else (strconv.digits cs 0).map fun n => (n : Int)
    | cs => (strconv.digits cs 0).map fun n => (n : Int)) >>= fun i =>
  if -(2 : Int) ^ 63 ≤ i ∧ i < (2 : Int) ^ 63 then some i else none

/-- Modelled from the spec: `PathSegment.Index()`, the index, a string key read as a
decimal number, an error when it is none. -/
def PathSegment.Index (seg : PathSegment) : Res Int :=
  match seg with
  | .ofInt i => pure i
  | .ofString s =>
    match strconv.ParseInt s with
    | some i => pure i
    | none => throwErr (Error.Errorf "strconv.ParseInt: parsing %q: invalid syntax" [s])

/-- Go `_nodeRepr.LookupBySegment` (repr.go:174). -/
def _nodeRepr.LookupBySegment (schemaType : SType) (val : Val) (seg : PathSegment) :
    Res Node :=
  _nodeRepr.Kind schemaType val >>= fun kind =>
    match kind with
    | .Map => _nodeRepr.LookupByString schemaType val seg.String
    | .List => seg.Index >>= fun idx => _nodeRepr.LookupByIndex schemaType val idx
    | _ =>
      _nodeRepr.Kind schemaType val >>= fun actual =>
        throwErr (Error.ErrWrongKind schemaType.Name "LookupBySegment" KindSet_Recursive actual)

/-- Go `_nodeRepr.LookupByNode` (repr.go:193). -/
def _nodeRepr.LookupByNode (schemaType : SType) (val : Val) (key : Node) : Res Node :=
  _nodeRepr.Kind schemaType val >>= fun kind =>
    match kind with
    | .Map => key.AsString >>= fun s => _nodeRepr.LookupByString schemaType val s
    | .List => key.AsInt >>= fun i => _nodeRepr.LookupByIndex schemaType val i
    | _ =>
      _nodeRepr.Kind schemaType val >>= fun actual =>
        throwErr (Error.ErrWrongKind schemaType.Name "LookupByNode" KindSet_Recursive actual)

/-! ## The assembler (`repr.go`): the list assembler of the Tuple representation -/

/-- Modelled from the spec: the typed list assembler that `BeginList` returns for a list
type, the items assembled so far. -/
structure _listAssembler where
  items : List Val

/-- Modelled from the spec: typed `_assembler.BeginList`; a list type gives an empty list
assembler, any other fails with WrongKind. -/
def _assembler.BeginList (schemaType : SType) : Res _listAssembler :=
  match schemaType with
  | .list _ _ _ => pure { items := [] }
  | t => throwErr (Error.ErrWrongKind t.Name "BeginList" KindSet_JustList (_node.Kind t))

/-- Go `_listStructAssemblerRepr` (repr.go:808), the typed struct assembler seen as a
list assembler; `nextIndex` is the field of that name of the struct assembler, which
only this view advances. -/
structure _listStructAssemblerRepr where
  asm : _structAssembler
  nextIndex : Nat

/-- The two list assemblers `_assemblerRepr.BeginList` returns. -/
inductive ListAssembler
  | ofStruct (w : _listStructAssemblerRepr)
  | ofList (w : _listAssembler)

/-- Go `_assemblerRepr.BeginList` (repr.go:520). -/
def _assemblerRepr.BeginList (schemaType : SType) : Res ListAssembler :=
  match reprStrategy schemaType with
  | some (.ofStruct .Tuple) =>
    schemaType.Fields >>= fun fields =>
      pure (.ofStruct { asm := _assembler.BeginMap_struct fields, nextIndex := 0 })
  | none => _assembler.BeginList schemaType >>= fun asm => pure (.ofList asm)
  | some _ => throwPanic "TODO"

/-- Go `_listStructAssemblerRepr.AssembleValue` (repr.go:810): the entry assembler of the
field at `nextIndex`, which is advanced; an error of the typed `AssembleEntry` is
raised as a panic. -/
def _listStructAssemblerRepr.AssembleValue (schemaType : SType)
    (w : _listStructAssemblerRepr) : Res (Nat × StructField × _listStructAssemblerRepr) :=
  match reprStrategy schemaType with
  | some (.ofStruct .Tuple) =>
    schemaType.Fields >>= fun fields =>
      match fields[w.nextIndex]? with
      | none => throwPanic "runtime error: index out of range"
      | some field =>
        match w.asm.AssembleEntry fields field.Name with
        | .error (.error e) => Except.error (Failure.panicErr e)
        | .error f => Except.error f
        | .ok (j, fld, asm) => pure (j, fld, { asm := asm, nextIndex := w.nextIndex + 1 })
  | _ => throwPanic "TODO"

/-- Go `_listStructAssemblerRepr.Finish` (repr.go:828). -/
def _listStructAssemblerRepr.Finish (schemaType : SType) (w : _listStructAssemblerRepr) :
    Res Val :=
  match reprStrategy schemaType with
  | some (.ofStruct .Tuple) => schemaType.Fields >>= fun fields => w.asm.Finish fields
  | _ => throwPanic "TODO"

/-- The client loop over the list assembler of a struct: for each value in turn,
`AssembleValue()` and an assignment to the entry assembler that leaves the value in the
entry's cell. -/
def assembleValues (schemaType : SType) :
    List Val → _listStructAssemblerRepr → Res _listStructAssemblerRepr
  | [], w => pure w
  | v :: vs, w =>
    _listStructAssemblerRepr.AssembleValue schemaType w >>= fun e =>
      assembleValues schemaType vs { e.2.2 with asm := e.2.2.asm.store e.1 e.2.1 v }

/-- The cell of a field after the assignment that leaves `v` in it. -/
def assignedCell (f : StructField) (v : Val) : Val :=
  if f.IsOptional then Val.ptr v else v

end Bindnode

/-!
# go-ipld-prime: the schema DSL parser

A shallow embedding of `schema/dsl/parse.go`.  The parser state is passed explicitly;
the buffered reader is the list of the bytes not yet read, a byte given as the character
of its code.  The schema document types of the package `schema/dmt` are modelled from
the specification.  Loops and recursion that follow the input run on fuel; every step
that uses fuel is preceded by the reading of a token, so the fuel `Parse` starts with,
more than twice the length of the source, is not used up.
-/

namespace Schemadsl

/-! ## The schema document (DMT) -/

/-- Modelled from the spec: an ordered map of the DMT, "the keys sequence and the values
mapping"; the Go map `Values` is embedded as the list of its bindings, a key bound once. -/
structure OrderedMap (V : Type) where
  Keys : List String
  Values : List (String × V)
  deriving DecidableEq

/-- Go map assignment `m[k] = v`: the binding of `k` is replaced, or added. -/
def mapSet {V : Type} : List (String × V) → String → V → List (String × V)
  | [], k, v => [(k, v)]
  | (k2, v2) :: rest, k, v =>
    if k2 = k then (k, v) :: rest else (k2, v2) :: mapSet rest k v

/-- Go `mapAppend` (parse.go:70): the key is appended to `Keys`, also when it is there
already, and bound in `Values`. -/
def mapAppend {V : Type} (m : OrderedMap V) (k : String) (v : V) : OrderedMap V :=
  { Keys := m.Keys ++ [k], Values := mapSet m.Values k v }

/-- Modelled from the spec: `dmt.AnyScalar`, the scalar of an implicit value, a Go struct
with one pointer for each scalar kind. -/
structure AnyScalar where
  Bool : Option Bool
  String : Option String
  Bytes : Option (List Nat)
  Int : Option Int
  Float : Option Nat
  deriving DecidableEq

/-- The zero value `var anyScalar dmt.AnyScalar`: no scalar is set. -/
def AnyScalar.zero : AnyScalar :=
  { Bool := none, String := none, Bytes := none, Int := none, Float := none }

mutual
/-- Modelled from the spec: `typeOrInline`, a type name or an inline map or list. -/
inductive TypeNameOrInlineDefn
  | TypeName (name : String)
  | InlineDefn (defn : InlineDefn)
  deriving DecidableEq
/-- Modelled from the spec: an inline definition, a map or a list. -/
inductive InlineDefn
  | TypeDefnMap (defn : TypeDefnMap)
  | TypeDefnList (defn : TypeDefnList)
  deriving DecidableEq
/-- Modelled from the spec: `mapBody`. -/
inductive TypeDefnMap
  | mk (KeyType : String) (ValueType : TypeNameOrInlineDefn) (ValueNullable : Option Bool)
  deriving DecidableEq
/-- Modelled from the spec: `listBody`. -/
inductive TypeDefnList
  | mk (ValueType : TypeNameOrInlineDefn) (ValueNullable : Option Bool)
  deriving DecidableEq
end

/-- Modelled from the spec: a struct field of the DMT; `Optional` and `Nullable` are
pointers, nil when the keyword is absent. -/
structure StructField where
  TypeRef : TypeNameOrInlineDefn
  Optional : Option Bool
  Nullable : Option Bool
  deriving DecidableEq

/-- Modelled from the spec: the details of a field under the Map representation, "field
rename" and "field implicit". -/
structure StructRepresentation_Map_FieldDetails where
  Rename : Option String
  Implicit : Option AnyScalar
  deriving DecidableEq

/-- Modelled from the spec: the representation of a struct in the DMT; the parser
produces the Map representation only. -/
inductive StructRepresentation
  | StructRepresentation_Map (Fields : OrderedMap StructRepresentation_Map_FieldDetails)
  deriving DecidableEq

structure TypeDefnStruct where
  Fields : OrderedMap StructField
  Representation : StructRepresentation
  deriving DecidableEq

/-- Modelled from the spec: a union member of the DMT, named by its type. -/
inductive UnionMember
  | TypeName (name : String)
  deriving DecidableEq

/-- Modelled from the spec: the representations of a union that the parser produces,
each an ordered map from the discriminant to the member. -/
inductive UnionRepresentation
  | UnionRepresentation_Keyed (m : OrderedMap UnionMember)
  | UnionRepresentation_Kinded (m : OrderedMap UnionMember)
  deriving DecidableEq

structure TypeDefnUnion where
  Members : List UnionMember
  Representation : UnionRepresentation
  deriving DecidableEq

structure TypeDefnEnum where
  Members : List String
  deriving DecidableEq

/-- Modelled from the spec: `dmt.TypeDefn`, "each TypeDefn is a tagged variant". -/
inductive TypeDefn
  | TypeDefnStruct (defn : TypeDefnStruct)
  | TypeDefnUnion (defn : TypeDefnUnion)
  | TypeDefnEnum (defn : TypeDefnEnum)
  | TypeDefnBool
  | TypeDefnBytes
  | TypeDefnFloat
  | TypeDefnInt
  | TypeDefnLink
  | TypeDefnString
  | TypeDefnMap (defn : TypeDefnMap)
  | TypeDefnList (defn : TypeDefnList)
  | TypeDefnCopy (FromType : String)
  deriving DecidableEq

/-- Modelled from the spec: "Schema { Types: ordered map of name to TypeDefn }". -/
structure Schema where
  Types : OrderedMap TypeDefn
  deriving DecidableEq

/-! ## Errors and the parser state -/

/-- The errors of the parser: the sentinel `io.EOF`; an error with a position, built by
`forwardError` from a format string and its operands; a panic.  `fuel` is no outcome of
the Go code: it marks a run of the embedding that used up its fuel. -/
inductive ParseError
  | EOF
  | positioned (pfx : String) (line col : Nat) (format : String) (operands : List String)
  | panic (msg : String)
  | fuel
  deriving DecidableEq, Repr

/-- Equality of two results of the parser can be decided. -/
instance instDecidableEqExcept {ε α : Type} [DecidableEq ε] [DecidableEq α] :
    DecidableEq (Except ε α)
  | .ok a, .ok b => if h : a = b then isTrue (congrArg Except.ok h)
    else isFalse fun h2 => h (Except.ok.inj h2)
  | .error a, .error b => if h : a = b then isTrue (congrArg Except.error h)
    else isFalse fun h2 => h (Except.error.inj h2)
  | .ok _, .error _ => isFalse fun h => nomatch h
  | .error _, .ok _ => isFalse fun h => nomatch h

/-- Go `parser` (parse.go:88). -/
structure parser where
  path : String
  br : List Char
  peekedToken : String
  line : Nat
  col : Nat
  deriving DecidableEq

/-- Go `parser.forwardError` (parse.go:97), the wrapped error given by its format string
and operands. -/
def forwardError (path : String) (line col : Nat) (format : String)
    (operands : List String) : ParseError :=
  .positioned (if path ≠ "" then path ++ ":" else "") line col format operands

/-- Go `parser.errf` (parse.go:105). -/
def parser.errf (p : parser) (format : String) (operands : List String) : ParseError :=
  forwardError p.path p.line p.col format operands

/-! ## The tokenizer -/

/-- The bytes that continue a name (parse.go:160-162). -/
def isNameByte (b : Char) : Bool :=
  decide (('a' ≤ b ∧ b ≤ 'z') ∨ ('A' ≤ b ∧ b ≤ 'Z') ∨ ('0' ≤ b ∧ b ≤ '9') ∨ b = '_')

/-- Go `bufio.Reader.ReadString(delim)`: the bytes up to and with the first `delim`, and
the bytes left; `none` is the error `io.EOF` of an input without `delim`. -/
def ReadString (delim : Char) : List Char → Option (List Char × List Char)
  | [] => none
  | b :: rest =>
    if b = delim then some ([b], rest)
    else
      match ReadString delim rest with
      | none => none
      | some (read, left) => some (b :: read, left)

/-- The inner loop of `consumeToken` (parse.go:153-170): bytes are added to the builder
`sb` while they continue a name; the byte that does not is unread.  `none` is the error
of `ReadByte` at the end of the input. -/
def nameLoop (sb : List Char) : List Char → Option (List Char × List Char)
  | [] => none
  | b :: rest =>
    if isNameByte b then nameLoop (sb ++ [b]) rest else some (sb, b :: rest)

/-- The read loop of `consumeToken` (parse.go:114-172) over the bytes not yet read.
`comment` is true inside `ReadString('\n')` of a comment, whose newline is unread and
read again by the loop. -/
def consumeLoop (path : String) :
    List Char → Bool → Nat → Nat → Except ParseError (String × List Char × Nat × Nat)
  | [], false, _, _ => .error .EOF
  | [], true, line, col => .error (forwardError path line col "EOF" [])
  | b :: rest, true, line, col =>
    if b = '\n' then consumeLoop path rest false (line + 1) 1
    else consumeLoop path rest true line col
  | b :: rest, false, line, col =>
    if b = ' ' ∨ b = '\t' ∨ b = '\r' then consumeLoop path rest false line (col + 1)
    else if b = '\n' then consumeLoop path rest false (line + 1) 1
    else if b = '"' then
      match ReadString '"' rest with
      | none => .error (forwardError path line (col + 1) "EOF" [])
      | some (quoted, left) => .ok ("\"" ++ String.mk quoted, left, line, col + 1)
    else if ['{', '}', '[', ']', '(', ')', ':', '&'].contains b then
      .ok (String.mk [b], rest, line, col + 1)
    else if b = '#' then consumeLoop path rest true line (col + 1)
    else
      match nameLoop [b] rest with
      | none => .error (forwardError path line (col + 1) "EOF" [])
      | some (tok, left) => .ok (String.mk tok, left, line, col + 1)

/-- Go `parser.consumeToken` (parse.go:109). -/
def parser.consumeToken (p : parser) : Except ParseError (String × parser) :=
  if p.peekedToken ≠ "" then .ok (p.peekedToken, { p with peekedToken := "" })
  else
    match consumeLoop p.path p.br false p.line p.col with
    | .error e => .error e
    | .ok (tok, left, line, col) => .ok (tok, { p with br := left, line := line, col := col })

/-- Go `parser.consumePeeked` (parse.go:175). -/
def parser.consumePeeked (p : parser) : Except ParseError parser :=
  if p.peekedToken = "" then
    .error (.panic "consumePeeked requires a peeked token to be present")
  else .ok { p with peekedToken := "" }

/-- Go `parser.peekToken` (parse.go:182). -/
def parser.peekToken (p : parser) : Except ParseError (String × parser) :=
  if p.peekedToken ≠ "" then .ok (p.peekedToken, p)
  else
    match p.consumeToken with
    | .error e => .error e
    | .ok (tok, p2) => .ok (tok, { p2 with peekedToken := tok })

/-- Go `parser.consumeName` (parse.go:194). -/
def parser.consumeName (p : parser) : Except ParseError (String × parser) :=
  match p.consumeToken with
  | .error e => .error e
  | .ok (tok, p2) =>
    if ["\"", "\x7b", "\x7d", "[", "]", "(", ")", ":"].contains tok then
      .error (p2.errf "expected a name, got %q" [tok])
    else
      match tok.data with
      | [] => .error (.panic "runtime error: index out of range")
      | c :: _ =>
        if c = '"' then .error (p2.errf "expected a name, got string %s" [tok])
        else .ok (tok, p2)

/-- Go `parser.consumeString` (parse.go:209). -/
def parser.consumeString (p : parser) : Except ParseError (String × parser) :=
  match p.consumeToken with
  | .error e => .error e
  | .ok (tok, p2) =>
    match tok.data with
    | [] => .error (.panic "runtime error: index out of range")
    | c :: rest =>
      if c ≠ '"' then .error (p2.errf "expected a string, got %q" [tok])
      else .ok (String.mk rest.dropLast, p2)

/-- Go `parser.consumeRequired` (parse.go:221). -/
def parser.consumeRequired (p : parser) (tok : String) : Except ParseError parser :=
  match p.consumeToken with
  | .error e => .error e
  | .ok (got, p2) =>
    if got ≠ tok then .error (p2.errf "expected %q, got %q" [tok, got])
    else .ok p2

/-- Go `strconv.Unquote`: a double-quoted string without backslash and newline is its
contents, provided nothing follows the closing quote; a string that does not begin with
a quote character, or has no second one, is a syntax error (`none`).  The strings with
escape sequences and the strings in single quotes (code 39) and back quotes (code 96)
are left to the parameter `escaped`. -/
def strconv.Unquote (escaped : String → Option String) (s : String) : Option String :=
  match s.data with
  | [] => none
  | c :: rest =>
    if c = '"' then
      match ReadString '"' rest with
      | none => none
      | some (quoted, left) =>
        if quoted.contains '\\' ∨ quoted.contains '\n' then escaped s
        else if left = [] then some (String.mk quoted.dropLast) else none
    else if c = Char.ofNat 39 ∨ c = Char.ofNat 96 then
      if rest.contains c then escaped s else none
    else none

/-! ## The parser -/

mutual
/-- Go `parser.typeNameOrInlineDefn` (parse.go:370). -/
def parser.typeNameOrInlineDefn : Nat → parser → Except ParseError (TypeNameOrInlineDefn × parser)
  | 0, _ => .error .fuel
  | fuel + 1, p =>
    match p.consumeToken with
    | .error e => .error e
    | .ok (tok, p2) =>
      if tok = "&" then .error (p2.errf "TODO: links" [])
      else if tok = "[" then
        match parser.typeList fuel p2 with
        | .error e => .error e
        | .ok (tlist, p3) => .ok (.InlineDefn (.TypeDefnList tlist), p3)
      else if tok = "\x7b" then
        match parser.typeMap fuel p2 with
        | .error e => .error e
        | .ok (tmap, p3) => .ok (.InlineDefn (.TypeDefnMap tmap), p3)
      else .ok (.TypeName tok, p2)
/-- Go `parser.typeList` (parse.go:399). -/
def parser.typeList : Nat → parser → Except ParseError (TypeDefnList × parser)
  | 0, _ => .error .fuel
  | fuel + 1, p =>
    match p.peekToken with
    | .error e => .error e
    | .ok (tok, p2) =>
      match (if tok = "nullable" then
          (match p2.consumePeeked with
            | .error e => .error e
            | .ok p3 => .ok (some true, p3))
        else (.ok (none, p2) : Except ParseError (Option Bool × parser))) with
      | .error e => .error e
      | .ok (nullable, p3) =>
        match parser.typeNameOrInlineDefn fuel p3 with
        | .error e => .error e
        | .ok (valueType, p4) =>
          match p4.consumeRequired "]" with
          | .error e => .error e
          | .ok p5 => .ok (.mk valueType nullable, p5)
/-- Go `parser.typeMap` (parse.go:423). -/
def parser.typeMap : Nat → parser → Except ParseError (TypeDefnMap × parser)
  | 0, _ => .error .fuel
  | fuel + 1, p =>
    match p.consumeName with
    | .error e => .error e
    | .ok (keyType, p1) =>
      match p1.consumeRequired ":" with
      | .error e => .error e
      | .ok p1b =>
        match p1b.peekToken with
        | .error e => .error e
        | .ok (tok, p2) =>
          match (if tok = "nullable" then
              (match p2.consumePeeked with
                | .error e => .error e
                | .ok p3 => .ok (some true, p3))
            else (.ok (none, p2) : Except ParseError (Option Bool × parser))) with
          | .error e => .error e
          | .ok (nullable, p3) =>
            match parser.typeNameOrInlineDefn fuel p3 with
            | .error e => .error e
            | .ok (valueType, p4) =>
              match p4.consumeRequired "\x7d" with
              | .error e => .error e
              | .ok p5 => .ok (.mk keyType valueType nullable, p5)
end

/-- The loop `loop:` of `typeStruct` (parse.go:304-330): the keywords `optional` and
`nullable`, then the type of the field. -/
def parser.typeStruct_field : Nat → parser → Option Bool → Option Bool →
    Except ParseError (StructField × parser)
  | 0, _, _, _ => .error .fuel
  | fuel + 1, p, optional, nullable =>
    match p.peekToken with
    | .error e => .error e
    | .ok (tok, p2) =>
      if tok = "optional" then
        if optional ≠ none then .error (p2.errf "multiple optional keywords" [])
        else
          match p2.consumePeeked with
          | .error e => .error e
          | .ok p3 => parser.typeStruct_field fuel p3 (some true) nullable
      else if tok = "nullable" then
        if nullable ≠ none then .error (p2.errf "multiple nullable keywords" [])
        else
          match p2.consumePeeked with
          | .error e => .error e
          | .ok p3 => parser.typeStruct_field fuel p3 optional (some true)
      else
        match parser.typeNameOrInlineDefn fuel p2 with
        | .error e => .error e
        | .ok (typ, p3) => .ok ({ TypeRef := typ, Optional := optional, Nullable := nullable }, p3)

/-- The scalar of `(implicit scalar)` in `typeStruct` (parse.go:345-356): a string and
the booleans are taken, every other token leaves the `AnyScalar` empty. -/
def parser.typeStruct_scalar (escaped : String → Option String) (p : parser)
    (scalar : String) : Except ParseError AnyScalar :=
  match scalar.data with
  | [] => .error (.panic "runtime error: index out of range")
  | c :: _ =>
    if c = '"' then
      match strconv.Unquote escaped scalar with
      | none => .error (p.errf "invalid syntax" [])
      | some s => .ok { AnyScalar.zero with String := some s }
    else if scalar = "true" ∨ scalar = "false" then
      .ok { AnyScalar.zero with Bool := some (decide (scalar = "true")) }
    else .ok AnyScalar.zero

/-- Go `parser.typeStruct` (parse.go:284), the loop over the fields; `repr` and `fields`
are the maps built so far. -/
def parser.typeStruct (escaped : String → Option String) : Nat → parser →
    OrderedMap StructRepresentation_Map_FieldDetails → OrderedMap StructField →
    Except ParseError (TypeDefnStruct × parser)
  | 0, _, _, _ => .error .fuel
  | fuel + 1, p, repr, fields =>
    match p.consumeToken with
    | .error e => .error e
    | .ok (tok, p1) =>
      if tok = "\x7d" then
        .ok ({ Fields := fields, Representation := .StructRepresentation_Map repr }, p1)
      else
        match parser.typeStruct_field fuel p1 none none with
        | .error e => .error e
        | .ok (field, p2) =>
          match p2.peekToken with
          | .error e => .error e
          | .ok (tok2, p3) =>
            if tok2 = "(" then
              match p3.consumePeeked with
              | .error e => .error e
              | .ok p4 =>
                match p4.consumeRequired "implicit" with
                | .error e => .error e
                | .ok p5 =>
                  match p5.consumeToken with
                  | .error e => .error e
                  | .ok (scalar, p6) =>
                    match parser.typeStruct_scalar escaped p6 scalar with
                    | .error e => .error e
                    | .ok anyScalar =>
                      match p6.consumeRequired ")" with
                      | .error e => .error e
                      | .ok p7 =>
                        parser.typeStruct escaped fuel p7
                          (mapAppend repr tok { Rename := none, Implicit := some anyScalar })
                          (mapAppend fields tok field)
            else parser.typeStruct escaped fuel p3 repr (mapAppend fields tok field)

/-- The member loop of `typeUnion` (parse.go:461-487); `members` and `reprKeys` are the
slices built so far. -/
def parser.typeUnion_members : Nat → parser → List UnionMember → List String →
    Except ParseError (List UnionMember × List String × parser)
  | 0, _, _, _ => .error .fuel
  | fuel + 1, p, members, reprKeys =>
    match p.consumeToken with
    | .error e => .error e
    | .ok (tok, p1) =>
      if tok = "\x7d" then .ok (members, reprKeys, p1)
      else if tok ≠ "|" then .error (p1.errf "expected %q or %q, got %q" ["\x7d", "|", tok])
      else
        match p1.consumeName with
        | .error e => .error e
        | .ok (name, p2) =>
          match p2.consumeToken with
          | .error e => .error e
          | .ok (key, p3) =>
            parser.typeUnion_members fuel p3 (members ++ [UnionMember.TypeName name])
              (reprKeys ++ [key])

/-- The loop `for i, keyStr := range reprKeys` of the keyed representation
(parse.go:498-504); `members` are `defn.Members[i:]`. -/
def typeUnion_keyed (escaped : String → Option String) (p : parser) :
    List String → List UnionMember → OrderedMap UnionMember →
    Except ParseError (OrderedMap UnionMember)
  | [], _, repr => .ok repr
  | keyStr :: keys, members, repr =>
    match strconv.Unquote escaped keyStr with
    | none => .error (p.errf "invalid syntax" [])
    | some key =>
      match members with
      | [] => .error (.panic "runtime error: index out of range")
      | m :: ms => typeUnion_keyed escaped p keys ms (mapAppend repr key m)

/-- The loop `for i, key := range reprKeys` of the kinded representation
(parse.go:509-511): the keys are taken as they are. -/
def typeUnion_kinded : List String → List UnionMember → OrderedMap UnionMember →
    Except ParseError (OrderedMap UnionMember)
  | [], _, repr => .ok repr
  | key :: keys, members, repr =>
    match members with
    | [] => .error (.panic "runtime error: index out of range")
    | m :: ms => typeUnion_kinded keys ms (mapAppend repr key m)

/-- The end of `typeUnion` (parse.go:488-516), after the closing brace of the body. -/
def parser.typeUnion_representation (escaped : String → Option String) (p : parser)
    (members : List UnionMember) (reprKeys : List String) :
    Except ParseError (TypeDefnUnion × parser) :=
  match p.consumeRequired "representation" with
  | .error e => .error e
  | .ok p1 =>
    match p1.consumeName with
    | .error e => .error e
    | .ok (reprName, p2) =>
      if reprName = "keyed" then
        match typeUnion_keyed escaped p2 reprKeys members { Keys := [], Values := [] } with
        | .error e => .error e
        | .ok repr =>
          .ok ({ Members := members, Representation := .UnionRepresentation_Keyed repr }, p2)
      else if reprName = "kinded" then
        match typeUnion_kinded reprKeys members { Keys := [], Values := [] } with
        | .error e => .error e
        | .ok repr =>
          .ok ({ Members := members, Representation := .UnionRepresentation_Kinded repr }, p2)
      else .error (p2.errf "TODO: union repr %q" [reprName])

/-- Go `parser.typeUnion` (parse.go:457). -/
def parser.typeUnion (escaped : String → Option String) (fuel : Nat) (p : parser) :
    Except ParseError (TypeDefnUnion × parser) :=
  match parser.typeUnion_members fuel p [] [] with
  | .error e => .error e
  | .ok (members, reprKeys, p1) => parser.typeUnion_representation escaped p1 members reprKeys

/-- Go `parser.typeEnum` (parse.go:519); the keys in parentheses are read and dropped. -/
def parser.typeEnum : Nat → parser → List String → Except ParseError (TypeDefnEnum × parser)
  | 0, _, _ => .error .fuel
  | fuel + 1, p, members =>
    match p.consumeToken with
    | .error e => .error e
    | .ok (tok, p1) =>
      if tok = "\x7d" then .ok ({ Members := members }, p1)
      else if tok ≠ "|" then .error (p1.errf "expected %q or %q, got %q" ["\x7d", "|", tok])
      else
        match p1.consumeToken with
        | .error e => .error e
        | .ok (name, p2) =>
          match p2.consumeRequired "(" with
          | .error e => .error e
          | .ok p3 =>
            match p3.consumeToken with
            | .error e => .error e
            | .ok (_, p4) =>
              match p4.consumeRequired ")" with
              | .error e => .error e
              | .ok p5 => parser.typeEnum fuel p5 (members ++ [name])

/-- Go `parser.typeDefn` (parse.go:232). -/
def parser.typeDefn (escaped : String → Option String) (fuel : Nat) (p : parser) :
    Except ParseError (TypeDefn × parser) :=
  match p.consumeToken with
  | .error e => .error e
  | .ok (kind, p1) =>
    if kind = "struct" then
      match p1.consumeRequired "\x7b" with
      | .error e => .error e
      | .ok p2 =>
        match parser.typeStruct escaped fuel p2 { Keys := [], Values := [] }
            { Keys := [], Values := [] } with
        | .error e => .error e
        | .ok (defn, p3) => .ok (.TypeDefnStruct defn, p3)
    else if kind = "union" then
      match p1.consumeRequired "\x7b" with
      | .error e => .error e
      | .ok p2 =>
        match parser.typeUnion escaped fuel p2 with
        | .error e => .error e
        | .ok (defn, p3) => .ok (.TypeDefnUnion defn, p3)
    else if kind = "enum" then
      match p1.consumeRequired "\x7b" with
      | .error e => .error e
      | .ok p2 =>
        match parser.typeEnum fuel p2 [] with
        | .error e => .error e
        | .ok (defn, p3) => .ok (.TypeDefnEnum defn, p3)
    else if kind = "bool" then .ok (.TypeDefnBool, p1)
    else if kind = "bytes" then .ok (.TypeDefnBytes, p1)
    else if kind = "float" then .ok (.TypeDefnFloat, p1)
    else if kind = "int" then .ok (.TypeDefnInt, p1)
    else if kind = "link" then .ok (.TypeDefnLink, p1)
    else if kind = "string" then .ok (.TypeDefnString, p1)
    else if kind = "\x7b" then
      match parser.typeMap fuel p1 with
      | .error e => .error e
      | .ok (defn, p2) => .ok (.TypeDefnMap defn, p2)
    else if kind = "[" then
      match parser.typeList fuel p1 with
      | .error e => .error e
      | .ok (defn, p2) => .ok (.TypeDefnList defn, p2)
    else if kind = "=" then
      match p1.consumeName with
      | .error e => .error e
      | .ok (src, p2) => .ok (.TypeDefnCopy src, p2)
    else .error (p1.errf "unknown type keyword: %q" [kind])

/-- The loop of `Parse` (parse.go:44-66).  An error of `consumeToken` other than
`io.EOF` is not looked at: the token is empty then and is reported as unexpected, at the
position the parser stands at, which is the position of the error dropped. -/
def Parse_loop (escaped : String → Option String) : Nat → parser → Schema →
    Except ParseError Schema
  | 0, _, _ => .error .fuel
  | fuel + 1, p, sch =>
    match p.consumeToken with
    | .error .EOF => .ok sch
    | .error (.positioned pfx line col _ _) =>
      .error (.positioned pfx line col "unexpected token: %q" [""])
    | .error e => .error e
    | .ok (tok, p1) =>
      if tok = "type" then
        match p1.consumeName with
        | .error e => .error e
        | .ok (name, p2) =>
          match parser.typeDefn escaped fuel p2 with
          | .error e => .error e
          | .ok (defn, p3) => Parse_loop escaped fuel p3 { Types := mapAppend sch.Types name defn }
      else if tok = "advanced" then .error (p1.errf "TODO: advanced" [])
      else .error (p1.errf "unexpected token: %q" [tok])

/-- Go `Parse` (parse.go:33) on a reader that yields the bytes of `src`. -/
def Parse (escaped : String → Option String) (name : String) (src : String) :
    Except ParseError Schema :=
  Parse_loop escaped (2 * src.length + 8)
    { path := name, br := src.data, peekedToken := "", line := 1, col := 1 }
    { Types := { Keys := [], Values := [] } }

/-- Go `ParseBytes` (parse.go:20). -/
def ParseBytes (escaped : String → Option String) (src : String) : Except ParseError Schema :=
  Parse escaped "" src

/-! ## Source texts of the statements -/

/-- The parameter `escaped` for a source without escape sequences, where it plays no
part: no string is accepted. -/
def noEscapes : String → Option String := fun _ => none

/-- A name: not empty, made of the bytes that continue a name. -/
def IsName (s : String) : Prop :=
  s.data ≠ [] ∧ ∀ c ∈ s.data, isNameByte c = true

/-- Blank text: spaces, tabs, carriage returns and newlines. -/
def IsBlank (text : List Char) : Prop :=
  ∀ c ∈ text, c = ' ' ∨ c = '\t' ∨ c = '\r' ∨ c = '\n'

/-- A union member as declared: its type name, its discriminant as written between the
quotes, and the discriminant unquoted. -/
structure MemberDecl where
  name : String
  disc : String
  key : String

/-- The string token of a discriminant, with its quotes. -/
def quoted (d : String) : String := String.mk (['"'] ++ d.data ++ ['"'])

/-- The members of a union body as written, ` | M "d"` for each. -/
def unionMembersText : List MemberDecl → List Char
  | [] => []
  | m :: rest =>
    ' ' :: '|' :: ' ' :: (m.name.data ++ ' ' :: '"' :: (m.disc.data ++ '"' ::
      unionMembersText rest))

/-- The source `type U union { | M1 "d1" ... | Mn "dn" } representation keyed` followed
by `tail`. -/
def keyedUnionText (U : String) (ms : List MemberDecl) (tail : List Char) : String :=
  String.mk ("type".data ++ ' ' :: (U.data ++ ' ' :: ("union".data ++ ' ' :: '{' ::
    (unionMembersText ms ++ ' ' :: '}' :: ' ' :: ("representation".data ++ ' ' ::
      ("keyed".data ++ tail))))))

end Schemadsl


namespace Schemadsl

/-! ## The input left to read -/

/-- The input a parser has not consumed yet: two for each byte not read and one for a
peeked token.  Reading a token lowers it, also when the token is kept as the peeked
one, and so does taking the peeked token. -/
def parser.unread (p : parser) : Nat :=
  2 * p.br.length + (if p.peekedToken = "" then 0 else 1)

/-- The errors that the Go code returns: `io.EOF` and the errors with a position.  A
panic is none, nor is the exhausted fuel of the embedding. -/
def ParseError.IsReturned : ParseError → Bool
  | .EOF => true
  | .positioned _ _ _ _ _ => true
  | .panic _ => false
  | .fuel => false

/-- A step of the parser from the state `p`: it fails with an error that the Go code
returns, or it succeeds in a state with less input left to read and no token peeked. -/
def Advances {α : Type} (p : parser) (r : Except ParseError (α × parser)) : Prop :=
  match r with
  | .ok (_, p2) => p2.unread < p.unread ∧ p2.peekedToken = ""
  | .error e => e.IsReturned = true

end Schemadsl

/-! # The schema validator (`typed/system/validate.go`)

`validate` checks a node against a schema type and gives the list of the mismatches
found.  The types and the nodes it reads are declared in files which are not part of
the sources at hand; they are modelled here as far as `validate` reads them. -/

namespace Typesystem

/-- Modelled from the spec: `ipld.ReprKind`, the kinds of a node (section 3). -/
inductive ReprKind
  | Invalid | Map | List | Null | Bool | Int | Float | String | Bytes | Link
  deriving DecidableEq, Repr

/-- Modelled from the spec: an `ipld.Node` as `validate` reads it, a tree; a map is "an
ordered map {keys sequence, values mapping}" (section 3), every key having a value. -/
inductive Node
  | null
  | bool (b : Bool)
  | int (i : Int)
  | float (bits : Nat)
  | string (s : String)
  | bytes (p : List Nat)
  | link (cid : String)
  | map (keys : List String) (values : String → Node)
  | list (items : List Node)

/-- Modelled from the spec: `Node.ReprKind()`. -/
def Node.ReprKind : Node → ReprKind
  | .null => .Null
  | .bool _ => .Bool
  | .int _ => .Int
  | .float _ => .Float
  | .string _ => .String
  | .bytes _ => .Bytes
  | .link _ => .Link
  | .map _ _ => .Map
  | .list _ => .List

/-- Modelled from the spec: `Node.IsNull()`. -/
def Node.IsNull : Node → Bool
  | .null => true
  | _ => false

/-- Modelled from the spec: `Node.KeysImmediate()` of a map, its keys sequence.
`validate` calls it on nodes of kind Map only and drops its error. -/
def Node.KeysImmediate : Node → List String
  | .map keys _ => keys
  | _ => []

/-- Modelled from the spec: `Node.TraverseField(k)` of a map, the value of the key.
`validate` calls it on nodes of kind Map, with the keys of the node, and drops its
error. -/
def Node.TraverseField : Node → String → Node
  | .map _ values, k => values k
  | _, _ => .null

/-- Modelled from the spec: a schema `Type` of the type system, the tagged variant of
section 3, with what `validate` reads of it: the name, for a map the value type and
whether the values are nullable, for a struct whether it is a tuple. -/
inductive SType
  | TypeBool (name : String)
  | TypeString (name : String)
  | TypeBytes (name : String)
  | TypeInt (name : String)
  | TypeFloat (name : String)
  | TypeMap (name : String) (keyType : SType) (valueType : SType) (valueNullable : Bool)
  | TypeList (name : String) (valueType : SType) (valueNullable : Bool)
  | TypeLink (name : String)
  | TypeUnion (name : String) (members : List SType)
  | TypeStruct (name : String) (tupleStyle : Bool) (fields : List (String × SType))
  | TypeEnum (name : String) (members : List String)

/-- Modelled from the spec: `Type.Name()`. -/
def SType.Name : SType → String
  | .TypeBool n | .TypeString n | .TypeBytes n | .TypeInt n | .TypeFloat n => n
  | .TypeMap n _ _ _ | .TypeList n _ _ | .TypeLink n | .TypeUnion n _ => n
  | .TypeStruct n _ _ | .TypeEnum n _ => n

/-- Modelled from the spec: `Type.ReprKind()`, the kind of the nodes of the type: a
scalar its own kind, a struct Map or, as a tuple, List; `validate` reads it for the
error message, of the scalars, the maps and the structs. -/
def SType.ReprKind : SType → ReprKind
  | .TypeBool _ => .Bool
  | .TypeString _ => .String
  | .TypeBytes _ => .Bytes
  | .TypeInt _ => .Int
  | .TypeFloat _ => .Float
  | .TypeMap _ _ _ _ => .Map
  | .TypeList _ _ _ => .List
  | .TypeLink _ => .Link
  | .TypeUnion _ _ => .Map
  | .TypeStruct _ tupleStyle _ => if tupleStyle then .List else .Map
  | .TypeEnum _ _ => .String

/-- An operand of `fmt.Errorf`: a string (verb `%q`) or a kind (verb `%v`). -/
inductive Operand
  | str (s : String)
  | kind (k : ReprKind)
  deriving DecidableEq, Repr

/-- An error value built by `fmt.Errorf`, given by its format string and operands. -/
structure Error where
  format : String
  operands : List Operand
  deriving DecidableEq, Repr

/-- The error of a kind mismatch, as built in each case of `validate`
(validate.go:19, 24, 29, 34, 39, 44, 68). -/
def kindError (t : SType) (node : Node) (pth : String) : Error :=
  { format := "Schema match failed: expected type %q (which is kind %v) at path %q, but found kind %v",
    operands := [.str t.Name, .kind t.ReprKind, .str pth, .kind node.ReprKind] }

/-- The error of a null value in a map whose values are not nullable (validate.go:53). -/
def nullError (pth k : String) : Error :=
  { format := "Schema match failed: map at path %q contains unpermitted null in key %q",
    operands := [.str pth, .str k] }

/-- Go `validate` (validate.go:15).  `pathJoin` is Go's `path.Join`; the universe `ts`
is passed on and not read. -/
def validate {Universe : Type} (pathJoin : String → String → String) (ts : Universe) :
    SType → Node → String → List Error
  | .TypeBool name, node, pth =>
    if node.ReprKind ≠ .Bool then [kindError (.TypeBool name) node pth] else []
  | .TypeString name, node, pth =>
    if node.ReprKind ≠ .String then [kindError (.TypeString name) node pth] else []
  | .TypeBytes name, node, pth =>
    if node.ReprKind ≠ .Bytes then [kindError (.TypeBytes name) node pth] else []
  | .TypeInt name, node, pth =>
    if node.ReprKind ≠ .Int then [kindError (.TypeInt name) node pth] else []
  | .TypeFloat name, node, pth =>
    if node.ReprKind ≠ .Float then [kindError (.TypeFloat name) node pth] else []
  | .TypeMap name keyType valueType valueNullable, node, pth =>
    if node.ReprKind ≠ .Map then
      [kindError (.TypeMap name keyType valueType valueNullable) node pth]
    else
      node.KeysImmediate.flatMap fun k =>
        if (node.TraverseField k).IsNull then
          if !valueNullable then [nullError pth k] else []
        else validate pathJoin ts valueType (node.TraverseField k) (pathJoin pth k)
  | .TypeList _ _ _, _, _ => []
  | .TypeLink _, _, _ => []
  | .TypeUnion _ _, _, _ => []
  | .TypeStruct name tupleStyle fields, node, pth =>
    if tupleStyle = false then
      if node.ReprKind ≠ .Map then [kindError (.TypeStruct name tupleStyle fields) node pth]
      else []
    else []
  | .TypeEnum _ _, _, _ => []

/-- Go `Validate` (validate.go:10). -/
def Validate {Universe : Type} (pathJoin : String → String → String) (ts : Universe)
    (t : SType) (node : Node) : List Error :=
  validate pathJoin ts t node "/"

/-- The types built from Bool, String, Bytes, Int, Float and Map only, the value type
of a map being such a type. -/
def SType.IsBasic : SType → Bool
  | .TypeBool _ | .TypeString _ | .TypeBytes _ | .TypeInt _ | .TypeFloat _ => true
  | .TypeMap _ _ valueType _ => valueType.IsBasic
  | _ => false

/-- The conformance of a node to a type in the words of the statement: the kind of the
node is the kind of the type and, for a map, the value of every entry is null, the
values being nullable, or conforms to the value type. -/
def Conforms : SType → Node → Bool
  | .TypeMap _ _ valueType valueNullable, node =>
    decide (node.ReprKind = .Map) &&
      node.KeysImmediate.all fun k =>
        ((node.TraverseField k).IsNull && valueNullable) ||
          Conforms valueType (node.TraverseField k)
  | t, node => decide (node.ReprKind = t.ReprKind)

/-- Go `path.Join` on a clean path and a key that is a plain name: the two joined by
a slash, none added after the root. -/
def joinPlain (pth k : String) : String :=
  if pth = "/" then pth ++ k else pth ++ "/" ++ k

/-- The map node with the entries `a`, the integer 1, and `b`, null. -/
def exampleMapNode : Node :=
  .map ["a", "b"] fun k => if k = "a" then .int 1 else .null

end Typesystem
namespace Bindnode

/-! ## Helper lemmas -/

theorem bind_ok {α β : Type} (a : α) (f : α → Res β) : (Except.ok a >>= f) = f a := rfl

theorem bind_error {α β : Type} (e : Failure) (f : α → Res β) :
    ((Except.error e : Res α) >>= f) = Except.error e := rfl

theorem pure_eq_ok {α : Type} (a : α) : (pure a : Res α) = Except.ok a := rfl

theorem unionMemberLoop_set (v : Val) :
    ∀ (n i k : Nat), i < n →
      unionMemberLoop ((List.replicate n Val.nilPtr).set i (Val.ptr v)) k
        = Except.ok (some (k + i, v)) := by
  intro n
  induction n with
  | zero => intro i k h; omega
  | succ n ih =>
    intro i k h
    cases i with
    | zero =>
      simp [List.replicate_succ, unionMemberLoop, Val.IsNil, Val.Elem, bind_ok, pure_eq_ok]
    | succ i =>
      have := ih i (k + 1) (by omega)
      simp only [List.replicate_succ, List.set_cons_succ, unionMemberLoop, Val.IsNil,
        pure_eq_ok, bind_ok]
      simp only [List.replicate_succ] at this
      rw [if_pos trivial, this]
      simp only [Nat.add_assoc, Nat.add_comm 1 i]

theorem unionMember_unionSetMember (n i : Nat) (v : Val) (h : i < n) :
    unionMember (unionSetMember n i v) = Except.ok (some (i, v)) := by
  have := unionMemberLoop_set v n i 0 h
  simpa [unionMember, unionSetMember] using this

theorem findMember_split (M : SType) (post : List SType) :
    ∀ (pre : List SType) (k : Nat), (∀ m ∈ pre, m.Name ≠ M.Name) →
      findMember (pre ++ M :: post) M.Name k = some (k + pre.length, M) := by
  intro pre
  induction pre with
  | nil => intro k _; simp [findMember]
  | cons m pre ih =>
    intro k h
    have hm : m.Name ≠ M.Name := h m (List.mem_cons_self _ _)
    have := ih (k + 1) (fun x hx => h x (List.mem_cons_of_mem _ hx))
    simp only [List.cons_append, findMember, if_neg hm, this, List.length_cons]
    have h2 : k + (pre.length + 1) = k + 1 + pre.length := by omega
    rw [h2]
    exact this

theorem findMember_some (key : String) :
    ∀ (members : List SType) (k idx : Nat) (mtyp : SType),
      findMember members key k = some (idx, mtyp) →
        k ≤ idx ∧ members[idx - k]? = some mtyp ∧ mtyp.Name = key := by
  intro members
  induction members with
  | nil => intro k idx mtyp h; simp [findMember] at h
  | cons m rest ih =>
    intro k idx mtyp h
    simp only [findMember] at h
    by_cases hm : m.Name = key
    · simp only [hm, if_true, Option.some.injEq, Prod.mk.injEq] at h
      obtain ⟨rfl, rfl⟩ := h
      simp [hm]
    · simp only [hm, if_false] at h
      obtain ⟨h1, h2, h3⟩ := ih (k + 1) idx mtyp h
      refine ⟨by omega, ?_, h3⟩
      have : idx - k = (idx - (k + 1)) + 1 := by omega
      rw [this, List.getElem?_cons_succ]
      exact h2

theorem inboundMappedType_split (table : List (String × String)) (M : SType) (d : String)
    (post : List SType) (hM : GetDiscriminant table M.Name = Except.ok d) :
    ∀ (pre : List SType),
      (∀ m ∈ pre, ∃ dm, GetDiscriminant table m.Name = Except.ok dm ∧ dm ≠ d) →
      inboundMappedType (pre ++ M :: post) table d = Except.ok M.Name := by
  intro pre
  induction pre with
  | nil => intro _; simp [inboundMappedType, hM, bind_ok, pure_eq_ok]
  | cons m pre ih =>
    intro h
    obtain ⟨dm, h1, h2⟩ := h m (List.mem_cons_self _ _)
    have := ih (fun x hx => h x (List.mem_cons_of_mem _ hx))
    simp only [List.cons_append, inboundMappedType, h1, bind_ok, if_neg (Ne.symm h2)]
    exact this

theorem inboundMappedType_cases (table : List (String × String)) (key : String) :
    ∀ (members : List SType),
      (∀ m ∈ members, ∃ dm, GetDiscriminant table m.Name = Except.ok dm) →
      (∃ m ∈ members, GetDiscriminant table m.Name = Except.ok key ∧
          inboundMappedType members table key = Except.ok m.Name) ∨
      ((∀ m ∈ members, GetDiscriminant table m.Name ≠ Except.ok key) ∧
          inboundMappedType members table key = Except.ok key) := by
  intro members
  induction members with
  | nil => intro _; right; simp [inboundMappedType, pure_eq_ok]
  | cons m rest ih =>
    intro h
    obtain ⟨dm, h1⟩ := h m (List.mem_cons_self _ _)
    by_cases hk : key = dm
    · left
      refine ⟨m, List.mem_cons_self _ _, by rw [h1, hk], ?_⟩
      simp [inboundMappedType, h1, bind_ok, hk, pure_eq_ok]
    · rcases ih (fun x hx => h x (List.mem_cons_of_mem _ hx)) with ⟨m2, hm2, h3, h4⟩ | ⟨h3, h4⟩
      · left
        refine ⟨m2, List.mem_cons_of_mem _ hm2, h3, ?_⟩
        simp [inboundMappedType, h1, bind_ok, hk, h4]
      · right
        refine ⟨?_, ?_⟩
        · intro x hx
          rcases List.mem_cons.1 hx with rfl | hx
          · rw [h1]; intro heq; injection heq with heq; exact hk heq.symm
          · exact h3 x hx
        · simp [inboundMappedType, h1, bind_ok, hk, h4]

theorem split_at_index {α : Type} (l : List α) (i : Nat) (a : α) (h : l[i]? = some a) :
    l = l.take i ++ a :: l.drop (i + 1) ∧ (l.take i).length = i := by
  have hi : i < l.length := by
    rcases Nat.lt_or_ge i l.length with h1 | h1
    · exact h1
    · rw [List.getElem?_eq_none h1] at h; cases h
  have ha : l[i] = a := by
    rw [List.getElem?_eq_getElem hi] at h; injection h
  refine ⟨?_, by simp [List.length_take]; omega⟩
  rw [← ha, ← List.drop_eq_getElem_cons hi, List.take_append_drop]

/-! ## Keyed unions -/

theorem keyed_lookup_eq (uname : String) (members : List SType)
    (table : List (String × String)) (val : Val) (key : String) :
    _nodeRepr.LookupByString (.union uname members (.Keyed table)) val key
      = (inboundMappedType members table key >>= fun revKey =>
          _node.LookupByString (.union uname members (.Keyed table)) val revKey >>= fun v =>
          pure (reprNode v)) := rfl

theorem typed_union_lookup_notFound (uname : String) (members : List SType)
    (r : UnionRepresentation) (i : Nat) (mval : Val) (M : SType) (key : String)
    (hi : i < members.length) (hM : members[i]? = some M) (hkey : key ≠ M.Name) :
    _node.LookupByString (.union uname members r) (unionSetMember members.length i mval) key
      = throwErr (Error.ErrNotExists key) := by
  simp only [_node.LookupByString]
  cases hf : findMember members key 0 with
  | none => rfl
  | some p =>
    obtain ⟨idx, mtyp⟩ := p
    obtain ⟨-, h2, h3⟩ := findMember_some key members 0 idx mtyp hf
    simp only [unionMember_unionSetMember _ _ _ hi, bind_ok]
    by_cases hidx : i = idx
    · subst hidx
      simp only [Nat.sub_zero] at h2
      rw [hM] at h2
      injection h2 with h2
      subst h2
      exact absurd h3.symm hkey
    · simp [hidx]

/-- C1 (counterexample): in the union `U = (A "a", B "b")` inhabited by `A = 7`, whose
discriminant is `"a"`, the key `"A"` differs from the discriminant and is no
discriminant, yet `LookupByString("A")` is not NotFound: it returns the representation
node of the member. -/
theorem C1_lookup_member_name_counterexample :
    "A" ≠ "a" ∧
    GetDiscriminant [("a", "A"), ("b", "B")] "A" = Except.ok "a" ∧
    _nodeRepr.LookupByString exampleKeyed (unionSetMember 2 0 (Val.int 7)) "A"
      = Except.ok (Node.repr (.int "A") (Val.int 7)) ∧
    ¬ ∃ seg, _nodeRepr.LookupByString exampleKeyed (unionSetMember 2 0 (Val.int 7)) "A"
      = throwErr (Error.ErrNotExists seg) := by
  refine ⟨by decide, rfl, rfl, ?_⟩
  rintro ⟨seg, h⟩
  have h2 : _nodeRepr.LookupByString exampleKeyed (unionSetMember 2 0 (Val.int 7)) "A"
      = Except.ok (Node.repr (.int "A") (Val.int 7)) := rfl
  rw [h2] at h
  cases h

/-- C1 (amended): for a keyed union in which every member has a discriminant and a value
inhabiting member `M` (slot `i`) with discriminant `d`, `LookupByString(d')` on the
representation view returns a NotFound error for every key `d' ≠ d` that differs from
the schema name of `M` or is the discriminant of some member. -/
theorem C1_keyed_lookup_other_key_notFound (uname : String) (members : List SType)
    (table : List (String × String)) (i : Nat) (M : SType) (mval : Val) (d d' : String)
    (hall : ∀ m ∈ members, ∃ dm, GetDiscriminant table m.Name = Except.ok dm)
    (hM : members[i]? = some M)
    (hd : GetDiscriminant table M.Name = Except.ok d)
    (hne : d' ≠ d)
    (hkey : d' ≠ M.Name ∨ ∃ m ∈ members, GetDiscriminant table m.Name = Except.ok d') :
    ∃ seg, _nodeRepr.LookupByString (.union uname members (.Keyed table))
        (unionSetMember members.length i mval) d' = throwErr (Error.ErrNotExists seg) := by
  have hi : i < members.length := by
    rcases Nat.lt_or_ge i members.length with h1 | h1
    · exact h1
    · rw [List.getElem?_eq_none h1] at hM; cases hM
  rw [keyed_lookup_eq]
  rcases inboundMappedType_cases table d' members hall with ⟨m, -, h3, h4⟩ | ⟨h3, h4⟩
  · refine ⟨m.Name, ?_⟩
    have hmn : m.Name ≠ M.Name := by
      intro heq
      rw [heq, hd] at h3
      injection h3 with h3
      exact hne h3.symm
    rw [h4, bind_ok, typed_union_lookup_notFound uname members _ i mval M m.Name hi hM hmn]
    rfl
  · refine ⟨d', ?_⟩
    have hmn : d' ≠ M.Name := by
      rcases hkey with h | ⟨m, hm, h⟩
      · exact h
      · exact absurd h (h3 m hm)
    rw [h4, bind_ok, typed_union_lookup_notFound uname members _ i mval M d' hi hM hmn]
    rfl

/-- C1 (witness): the union `U = (A "a", B "b")` inhabited by `A = 7`, looked up at the
other discriminant `"b"`. -/
theorem C1_keyed_lookup_other_key_notFound_witness :
    ∃ seg, _nodeRepr.LookupByString exampleKeyed (unionSetMember 2 0 (Val.int 7)) "b"
      = throwErr (Error.ErrNotExists seg) :=
  C1_keyed_lookup_other_key_notFound "U" [.int "A", .string "B"] [("a", "A"), ("b", "B")]
    0 (.int "A") (Val.int 7) "a" "b"
    (by
      intro m hm
      simp only [List.mem_cons, List.mem_singleton, List.not_mem_nil, or_false] at hm
      rcases hm with rfl | rfl
      · exact ⟨"a", rfl⟩
      · exact ⟨"b", rfl⟩)
    rfl rfl (by decide) (Or.inl (by decide))

/-- C2: for a keyed union whose members' discriminants are pairwise distinct and a value
inhabiting member `M` (slot `i`) with discriminant `d`, the representation view has
kind Map and `LookupByString(d)` succeeds with the representation node of `M`'s value,
which is `reprNode` of the typed lookup by `M`'s schema name. -/
theorem C2_keyed_lookup_discriminant (uname : String) (members : List SType)
    (table : List (String × String)) (i : Nat) (M : SType) (mval : Val) (d : String)
    (hdist : DistinctDiscriminants table members)
    (hM : members[i]? = some M)
    (hd : GetDiscriminant table M.Name = Except.ok d) :
    _nodeRepr.Kind (.union uname members (.Keyed table)) (unionSetMember members.length i mval)
      = Except.ok Kind.Map ∧
    _node.LookupByString (.union uname members (.Keyed table))
      (unionSetMember members.length i mval) M.Name = Except.ok (Node.typed M mval) ∧
    _nodeRepr.LookupByString (.union uname members (.Keyed table))
      (unionSetMember members.length i mval) d = Except.ok (reprNode (Node.typed M mval)) := by
  have hi : i < members.length := by
    rcases Nat.lt_or_ge i members.length with h1 | h1
    · exact h1
    · rw [List.getElem?_eq_none h1] at hM; cases hM
  obtain ⟨hsplit, hlen⟩ := split_at_index members i M hM
  obtain ⟨hall, hpair⟩ := hdist
  rw [hsplit] at hpair
  have hpre : ∀ m ∈ members.take i,
      GetDiscriminant table m.Name ≠ GetDiscriminant table M.Name := by
    intro m hm
    have := List.pairwise_append.1 hpair
    exact this.2.2 m hm M (List.mem_cons_self _ _)
  have hmem : ∀ m ∈ members.take i, m ∈ members := fun m hm => List.mem_of_mem_take hm
  have htyped : _node.LookupByString (.union uname members (.Keyed table))
      (unionSetMember members.length i mval) M.Name = Except.ok (Node.typed M mval) := by
    have hfind : findMember members M.Name 0 = some (i, M) := by
      have := findMember_split M (members.drop (i + 1)) (members.take i) 0
        (fun m hm heq => hpre m hm (by rw [heq]))
      rw [← hsplit, hlen, Nat.zero_add] at this
      exact this
    simp only [_node.LookupByString, hfind, unionMember_unionSetMember _ _ _ hi, bind_ok]
    simp [pure_eq_ok]
  refine ⟨rfl, htyped, ?_⟩
  have hin : inboundMappedType members table d = Except.ok M.Name := by
    have := inboundMappedType_split table M d (members.drop (i + 1)) hd (members.take i)
      (by
        intro m hm
        obtain ⟨dm, h1⟩ := hall m (hmem m hm)
        refine ⟨dm, h1, ?_⟩
        intro heq
        apply hpre m hm
        rw [h1, hd, heq])
    rw [← hsplit] at this
    exact this
  rw [keyed_lookup_eq, hin, bind_ok, htyped, bind_ok]
  rfl

/-- C2 (witness): the union `U = (A "a", B "b")` inhabited by `A = 7`. -/
theorem C2_keyed_lookup_discriminant_witness :
    _nodeRepr.Kind exampleKeyed (unionSetMember 2 0 (Val.int 7)) = Except.ok Kind.Map ∧
    _node.LookupByString exampleKeyed (unionSetMember 2 0 (Val.int 7)) "A"
      = Except.ok (Node.typed (.int "A") (Val.int 7)) ∧
    _nodeRepr.LookupByString exampleKeyed (unionSetMember 2 0 (Val.int 7)) "a"
      = Except.ok (reprNode (Node.typed (.int "A") (Val.int 7))) :=
  C2_keyed_lookup_discriminant "U" [.int "A", .string "B"] [("a", "A"), ("b", "B")]
    0 (.int "A") (Val.int 7) "a"
    ⟨by
      intro m hm
      simp only [List.mem_cons, List.mem_singleton, List.not_mem_nil, or_false] at hm
      rcases hm with rfl | rfl
      · exact ⟨"a", rfl⟩
      · exact ⟨"b", rfl⟩,
     by
      refine List.Pairwise.cons ?_ (List.pairwise_singleton _ _)
      intro b hb
      simp only [List.mem_singleton] at hb
      subst hb
      intro h
      have h1 : GetDiscriminant [("a", "A"), ("b", "B")] (SType.int "A").Name
          = Except.ok "a" := rfl
      have h2 : GetDiscriminant [("a", "A"), ("b", "B")] (SType.string "B").Name
          = Except.ok "b" := rfl
      rw [h1, h2] at h
      injection h with h
      exact absurd h (by decide)⟩
    rfl rfl

/-! ## Kinded unions -/

/-- C3 (the code at the failing input): on the kinded union `(Foo int, Bar string)`
inhabited by `Foo = 7`, `AsInt` succeeds with 7 on the member's representation view,
and fails with WrongKind on the union's representation view. -/
theorem C3_kinded_AsInt_wrongKind :
    _nodeRepr.AsInt (.int "Foo") (Val.int 7) = Except.ok 7 ∧
    _nodeRepr.AsInt exampleKinded (unionSetMember 2 0 (Val.int 7))
      = throwErr (Error.ErrWrongKind "U" "AsInt" KindSet_JustInt Kind.Int) :=
  ⟨rfl, rfl⟩

/-- C4: for a kinded union and a value in which exactly the slot `i` of member `M` is
populated, the kind of the representation view is the representation behavior of
`M`. -/
theorem C4_kinded_kind (uname : String) (members : List SType)
    (table : List (Kind × String)) (i : Nat) (M : SType) (mval : Val)
    (hM : members[i]? = some M) :
    unionMember (unionSetMember members.length i mval) = Except.ok (some (i, mval)) ∧
    _nodeRepr.Kind (.union uname members (.Kinded table)) (unionSetMember members.length i mval)
      = Except.ok M.RepresentationBehavior := by
  have hi : i < members.length := by
    rcases Nat.lt_or_ge i members.length with h1 | h1
    · exact h1
    · rw [List.getElem?_eq_none h1] at hM; cases hM
  refine ⟨unionMember_unionSetMember _ _ _ hi, ?_⟩
  simp only [_nodeRepr.Kind, reprStrategy, unionMember_unionSetMember _ _ _ hi, bind_ok,
    SType.Members, pure_eq_ok, hM]

/-- C4 (witness): the kinded union `(Foo int, Bar string)` inhabited by `Bar = "hi"`. -/
theorem C4_kinded_kind_witness :
    unionMember (unionSetMember 2 1 (Val.string "hi")) = Except.ok (some (1, Val.string "hi")) ∧
    _nodeRepr.Kind exampleKinded (unionSetMember 2 1 (Val.string "hi"))
      = Except.ok (SType.string "Bar").RepresentationBehavior :=
  C4_kinded_kind "U" [.int "Foo", .string "Bar"] [(Kind.Int, "Foo"), (Kind.String, "Bar")]
    1 (.string "Bar") (Val.string "hi") rfl

/-! ## Length of a struct's representation -/

theorem IsNil_true_iff (c : Val) : c.IsNil = Except.ok true ↔ c = Val.nilPtr := by
  cases c <;> simp [Val.IsNil, throwPanic, pure_eq_ok]

theorem isOptionalAbsent_eq (f : StructField) (c : Val) (b : Bool)
    (hb : c.IsNil = Except.ok b) :
    isOptionalAbsent (f, c) = (f.IsOptional && b) := by
  cases c <;> simp_all [isOptionalAbsent, Val.IsNil, throwPanic, pure_eq_ok]

theorem zip_getElem? (fields : List StructField) (cells : List Val) (k : Nat)
    (f : StructField) (c : Val) (hf : fields[k]? = some f) (hc : cells[k]? = some c) :
    (fields.zip cells)[k]? = some (f, c) := by
  rw [List.getElem?_zip_eq_some]
  exact ⟨hf, hc⟩

theorem reverse_take_succ {α : Type} (l : List α) (k : Nat) (a : α) (h : l[k]? = some a) :
    (l.take (k + 1)).reverse = a :: (l.take k).reverse := by
  rw [List.take_succ, h]
  simp

theorem lengthMinusTrailingAbsentsLoop_spec (fields : List StructField) (cells : List Val)
    (hconf : OptionalCellsArePointers fields cells) :
    ∀ k, k ≤ fields.length →
      lengthMinusTrailingAbsentsLoop fields (Val.struct cells) k
        = Except.ok ((k - (((fields.zip cells).take k).reverse.takeWhile isOptionalAbsent).length
            : Nat) : Int) := by
  intro k
  induction k with
  | zero => intro _; simp [lengthMinusTrailingAbsentsLoop, pure_eq_ok]
  | succ k ih =>
    intro hk
    obtain ⟨hlen, hptr⟩ := hconf
    have hkf : k < fields.length := by omega
    have hkc : k < cells.length := by omega
    have hf : fields[k]? = some fields[k] := List.getElem?_eq_getElem hkf
    have hc : cells[k]? = some cells[k] := List.getElem?_eq_getElem hkc
    have hz := zip_getElem? fields cells k _ _ hf hc
    rw [reverse_take_succ _ k _ hz]
    simp only [lengthMinusTrailingAbsentsLoop, hf, Val.Field, hc, pure_eq_ok, bind_ok]
    by_cases hopt : fields[k].IsOptional = true
    · have hmem : (fields[k], cells[k]) ∈ fields.zip cells := List.mem_iff_getElem?.2 ⟨k, hz⟩
      obtain ⟨b, hb⟩ := hptr _ hmem hopt
      have hP := isOptionalAbsent_eq fields[k] cells[k] b hb
      rw [hopt, Bool.true_and] at hP
      simp only [hopt, Bool.not_true, hb, bind_ok]
      cases b with
      | false =>
        simp only [Bool.not_false, if_true]
        rw [List.takeWhile_cons, hP]
        simp
      | true =>
        simp only [Bool.not_true]
        rw [List.takeWhile_cons, hP]
        simp only [if_true, List.length_cons]
        rw [ih (by omega)]
        simp only [Bool.false_eq_true, if_false]
        congr 2
        omega
    · have hP : isOptionalAbsent (fields[k], cells[k]) = false := by
        simp [isOptionalAbsent, hopt]
      simp only [hopt, Bool.not_false, if_true]
      rw [List.takeWhile_cons, hP]
      simp

theorem lengthMinusTrailingAbsents_eq (name : String) (fields : List StructField)
    (repr : StructRepresentation) (cells : List Val)
    (hconf : OptionalCellsArePointers fields cells) :
    _nodeRepr.lengthMinusTrailingAbsents (.struct name fields repr) (Val.struct cells)
      = Except.ok ((fields.length - trailingAbsents fields cells : Nat) : Int) := by
  have h := lengthMinusTrailingAbsentsLoop_spec fields cells hconf fields.length (le_refl _)
  have hz : (fields.zip cells).take fields.length = fields.zip cells := by
    apply List.take_of_length_le
    simp [List.length_zip, hconf.1]
  rw [hz] at h
  simp only [_nodeRepr.lengthMinusTrailingAbsents, SType.Fields, pure_eq_ok, bind_ok, h,
    trailingAbsents]

theorem trailingAbsents_le (fields : List StructField) (cells : List Val)
    (hlen : cells.length = fields.length) : trailingAbsents fields cells ≤ fields.length := by
  unfold trailingAbsents
  have h1 := (List.takeWhile_prefix (l := (fields.zip cells).reverse) isOptionalAbsent).length_le
  simp [List.length_zip, hlen] at h1
  exact h1

theorem trailingAbsents_suffix (fields : List StructField) (cells : List Val)
    (hlen : cells.length = fields.length) (j : Nat)
    (h1 : fields.length - trailingAbsents fields cells ≤ j) (h2 : j < fields.length) :
    ∃ f c, fields[j]? = some f ∧ cells[j]? = some c ∧ f.IsOptional = true ∧ c = Val.nilPtr := by
  have hjc : j < cells.length := by omega
  refine ⟨fields[j], cells[j], List.getElem?_eq_getElem h2, List.getElem?_eq_getElem hjc, ?_⟩
  set zs := fields.zip cells with hzs
  have hzl : zs.length = fields.length := by simp [hzs, List.length_zip, hlen]
  have hpre := List.takeWhile_prefix (l := zs.reverse) isOptionalAbsent
  have ht : trailingAbsents fields cells = (zs.reverse.takeWhile isOptionalAbsent).length := rfl
  have hidx : fields.length - 1 - j < (zs.reverse.takeWhile isOptionalAbsent).length := by
    have := trailingAbsents_le fields cells hlen
    omega
  have hmem : (zs.reverse.takeWhile isOptionalAbsent)[fields.length - 1 - j] ∈
      zs.reverse.takeWhile isOptionalAbsent := List.getElem_mem _
  have hP := List.mem_takeWhile_imp hmem
  have heq : (zs.reverse.takeWhile isOptionalAbsent)[fields.length - 1 - j]
      = (fields[j], cells[j]) := by
    have h3 := List.IsPrefix.getElem hpre hidx
    rw [h3, List.getElem_reverse]
    simp only [hzs, List.getElem_zip]
    have : (fields.zip cells).length - 1 - (fields.length - 1 - j) = j := by
      rw [← hzs, hzl]; omega
    simp only [this]
  rw [heq] at hP
  simp only [isOptionalAbsent, Bool.and_eq_true] at hP
  refine ⟨hP.1, ?_⟩
  cases hc : cells[j] <;> simp_all

theorem takeWhile_length_not {α : Type} (p : α → Bool) :
    ∀ (l : List α) (h : (l.takeWhile p).length < l.length),
      p (l[(l.takeWhile p).length]) = false := by
  intro l
  induction l with
  | nil => intro h; simp at h
  | cons a l ih =>
    intro h
    by_cases hp : p a = true
    · have hlen : ((a :: l).takeWhile p).length = (l.takeWhile p).length + 1 := by
        simp [List.takeWhile_cons, hp]
      have h2 : (l.takeWhile p).length < l.length := by
        rw [hlen] at h; simpa using h
      simp only [hlen, List.getElem_cons_succ]
      exact ih h2
    · have hlen : ((a :: l).takeWhile p).length = 0 := by
        simp [List.takeWhile_cons, hp]
      simp only [hlen, List.getElem_cons_zero]
      simpa using hp

theorem trailingAbsents_last (fields : List StructField) (cells : List Val)
    (hlen : cells.length = fields.length) (i : Nat)
    (hi : fields.length - trailingAbsents fields cells = i + 1) :
    ∃ f c, fields[i]? = some f ∧ cells[i]? = some c ∧
      (f.IsOptional = false ∨ c ≠ Val.nilPtr) := by
  have hif : i < fields.length := by omega
  have hic : i < cells.length := by omega
  refine ⟨fields[i], cells[i], List.getElem?_eq_getElem hif, List.getElem?_eq_getElem hic, ?_⟩
  set zs := fields.zip cells with hzs
  have hzl : zs.length = fields.length := by simp [hzs, List.length_zip, hlen]
  have ht : trailingAbsents fields cells = (zs.reverse.takeWhile isOptionalAbsent).length := rfl
  have hlt : (zs.reverse.takeWhile isOptionalAbsent).length < zs.reverse.length := by
    rw [List.length_reverse, hzl]; omega
  have hnot := takeWhile_length_not isOptionalAbsent zs.reverse hlt
  have heq : zs.reverse[(zs.reverse.takeWhile isOptionalAbsent).length] = (fields[i], cells[i]) := by
    rw [List.getElem_reverse]
    simp only [hzs, List.getElem_zip]
    have : (fields.zip cells).length - 1 - (List.takeWhile isOptionalAbsent (fields.zip cells).reverse).length = i := by
      rw [← hzs, hzl, ← ht]; omega
    simp only [this]
  rw [heq] at hnot
  by_cases hopt : fields[i].IsOptional = true
  · right
    intro hc
    simp [isOptionalAbsent, hopt, hc] at hnot
  · left
    simpa using hopt

/-- C6: for a struct with Map or Tuple representation whose backing struct has one cell
for each of the `n` declared fields, pointers for the optional ones, `Length()` of the
representation view is `n` minus the length of the longest suffix of fields that are
both optional and absent; every field from that length on is optional and absent, and
when the length is `i + 1` the field `i` is non-optional or present. -/
theorem C6_struct_length_minus_trailing_absents (name : String) (fields : List StructField)
    (repr : StructRepresentation) (cells : List Val)
    (hrepr : (∃ renames, repr = StructRepresentation.Map renames) ∨
      repr = StructRepresentation.Tuple)
    (hconf : OptionalCellsArePointers fields cells) :
    _nodeRepr.Length (.struct name fields repr) (Val.struct cells)
      = Except.ok ((fields.length - trailingAbsents fields cells : Nat) : Int) ∧
    trailingAbsents fields cells ≤ fields.length ∧
    (∀ j, fields.length - trailingAbsents fields cells ≤ j → j < fields.length →
      ∃ f c, fields[j]? = some f ∧ cells[j]? = some c ∧
        f.IsOptional = true ∧ c = Val.nilPtr) ∧
    (∀ i, fields.length - trailingAbsents fields cells = i + 1 →
      ∃ f c, fields[i]? = some f ∧ cells[i]? = some c ∧
        (f.IsOptional = false ∨ c ≠ Val.nilPtr)) := by
  refine ⟨?_, trailingAbsents_le fields cells hconf.1,
    fun j h1 h2 => trailingAbsents_suffix fields cells hconf.1 j h1 h2,
    fun i hi => trailingAbsents_last fields cells hconf.1 i hi⟩
  have h := lengthMinusTrailingAbsents_eq name fields repr cells hconf
  rcases hrepr with ⟨renames, rfl⟩ | rfl
  · simpa only [_nodeRepr.Length, reprStrategy] using h
  · simpa only [_nodeRepr.Length, reprStrategy] using h

/-- C6 (witness): the struct `P` with `firstName` optional and absent, `lastName = "X"`:
the absent field is followed by a present one, and is counted. -/
theorem C6_struct_length_minus_trailing_absents_witness :
    _nodeRepr.Length exampleRename (Val.struct [Val.nilPtr, Val.string "X"]) = Except.ok 2 :=
  (C6_struct_length_minus_trailing_absents "P"
    [.mk "firstName" (.string "String") true false, .mk "lastName" (.string "String") false false]
    (.Map [("firstName", "fn")]) [Val.nilPtr, Val.string "X"]
    (Or.inl ⟨_, rfl⟩)
    ⟨rfl, by
      intro fc hfc hopt
      simp only [List.zip_cons_cons, List.zip_nil_right, List.mem_cons, List.mem_singleton,
        List.not_mem_nil, or_false] at hfc
      rcases hfc with rfl | rfl
      · exact ⟨true, rfl⟩
      · cases hopt⟩).1

/-! ## Iteration over a struct with Map representation -/

theorem derefNullable_ne_absent (nullable : Bool) (v : Val) :
    derefNullable nullable v ≠ Except.ok FieldState.absent := by
  unfold derefNullable
  cases nullable
  · simp [pure_eq_ok]
  · simp only [if_true]
    cases h1 : v.IsNil with
    | error e => simp [bind_error]
    | ok b =>
      cases b
      · cases h2 : v.Elem with
        | error e => simp [bind_ok, bind_error]
        | ok x => simp [bind_ok, pure_eq_ok]
      · simp [bind_ok, pure_eq_ok]

theorem fieldState_absent_iff (optional nullable : Bool) (c : Val) :
    fieldState optional nullable c = Except.ok FieldState.absent ↔
      optional = true ∧ c = Val.nilPtr := by
  unfold fieldState
  cases optional
  · simp [derefNullable_ne_absent]
  · simp only [if_true, true_and]
    cases h1 : c.IsNil with
    | error e => 
      simp only [bind_error]
      constructor
      · intro h; cases h
      · intro h; rw [h] at h1; cases h1
    | ok b =>
      cases b
      · simp only [bind_ok, Bool.false_eq_true, if_false]
        constructor
        · intro h
          cases h2 : c.Elem with
          | error e => rw [h2, bind_error] at h; cases h
          | ok x => rw [h2, bind_ok] at h; exact absurd h (derefNullable_ne_absent _ _)
        · intro h; rw [h] at h1; cases h1
      · simp only [bind_ok, if_true, pure_eq_ok, true_iff]
        exact (IsNil_true_iff c).1 h1

theorem fieldState_optional_IsNil (nullable : Bool) (c : Val) (st : FieldState)
    (h : fieldState true nullable c = Except.ok st) : ∃ b, c.IsNil = Except.ok b := by
  unfold fieldState at h
  simp only [if_true] at h
  cases h1 : c.IsNil with
  | error e => rw [h1, bind_error] at h; cases h
  | ok b => exact ⟨b, rfl⟩

theorem fieldStates_spec :
    ∀ (fields : List StructField) (cells : List Val) (sts : List FieldState),
      fieldStates fields cells = some sts →
        cells.length = fields.length ∧ sts.length = fields.length ∧
        ∀ (k : Nat) (f : StructField), fields[k]? = some f →
          ∃ c st, cells[k]? = some c ∧ sts[k]? = some st ∧
          fieldState f.IsOptional f.IsNullable c = Except.ok st := by
  intro fields
  induction fields with
  | nil =>
    intro cells sts h
    cases cells with
    | nil => simp [fieldStates] at h; subst h; simp
    | cons c cs => simp [fieldStates] at h
  | cons f fs ih =>
    intro cells sts h
    cases cells with
    | nil => simp [fieldStates] at h
    | cons c cs =>
      simp only [fieldStates] at h
      cases h1 : fieldState f.IsOptional f.IsNullable c with
      | error e => simp [h1] at h
      | ok st =>
        cases h2 : fieldStates fs cs with
        | none => simp [h1, h2] at h
        | some sts2 =>
          simp only [h1, h2, Option.some.injEq] at h
          subst h
          obtain ⟨ha, hb, hc⟩ := ih cs sts2 h2
          refine ⟨by simp [ha], by simp [hb], ?_⟩
          intro k g hg
          cases k with
          | zero =>
            simp only [List.getElem?_cons_zero, Option.some.injEq] at hg
            subst hg
            exact ⟨c, st, by simp, by simp, h1⟩
          | succ k =>
            simp only [List.getElem?_cons_succ] at hg
            obtain ⟨c2, st2, h3, h4, h5⟩ := hc k g hg
            exact ⟨c2, st2, by simpa using h3, by simpa using h4, h5⟩

theorem fieldStates_pointers (fields : List StructField) (cells : List Val)
    (sts : List FieldState) (h : fieldStates fields cells = some sts) :
    OptionalCellsArePointers fields cells := by
  obtain ⟨h1, -, h3⟩ := fieldStates_spec fields cells sts h
  refine ⟨h1, ?_⟩
  intro fc hfc hopt
  obtain ⟨k, hk⟩ := List.mem_iff_getElem?.1 hfc
  obtain ⟨fc1, fc2⟩ := fc
  rw [List.getElem?_zip_eq_some] at hk
  obtain ⟨c, st, h4, -, h6⟩ := h3 k fc1 hk.1
  rw [hk.2] at h4
  injection h4 with h4
  subst h4
  simp only at hopt
  rw [hopt] at h6
  exact fieldState_optional_IsNil _ _ _ h6

theorem reprNext_unfold (renames : List (String × String)) (w : _structIterator) :
    _structIteratorRepr.Next renames w =
      (match _structIterator.Next w with
        | .error e => .error e
        | .ok (key, value, w2) =>
          if value.IsAbsent then _structIteratorRepr.Next renames w2
          else
            pure (if outboundMappedKey renames (match key.AsString with
                      | .ok s => s
                      | .error _ => "") ≠ (match key.AsString with
                      | .ok s => s
                      | .error _ => "")
                  then Node.basicString (outboundMappedKey renames (match key.AsString with
                      | .ok s => s
                      | .error _ => "")) else key,
              reprNode value, w2)) := by
  rw [_structIteratorRepr.Next]
  split
  · rename_i e h
    rw [h]
  · rename_i key value w2 h
    rw [h]

theorem typedNext_at (w : _structIterator) (cells : List Val) (f : StructField) (c : Val)
    (st : FieldState) (hval : w.val = Val.struct cells)
    (hf : w.fields[w.nextIndex]? = some f) (hc : cells[w.nextIndex]? = some c)
    (hst : fieldState f.IsOptional f.IsNullable c = Except.ok st) :
    _structIterator.Next w
      = Except.ok (Node.basicString f.Name, fieldNode f.Type st,
          { w with nextIndex := w.nextIndex + 1 }) := by
  have hlt : w.nextIndex < w.fields.length := by
    rcases Nat.lt_or_ge w.nextIndex w.fields.length with h1 | h1
    · exact h1
    · rw [List.getElem?_eq_none h1] at hf; cases hf
  have hd : w.Done = false := by
    simp [_structIterator.Done, hlt]
  simp only [_structIterator.Next, hd, hf, hval, Val.Field, hc, pure_eq_ok, bind_ok, hst]
  simp

theorem presentEntries_all_absent (renames : List (String × String)) :
    ∀ (fs : List StructField) (sts : List FieldState),
      (∀ st ∈ sts, st = FieldState.absent) → presentEntries renames fs sts = [] := by
  intro fs
  induction fs with
  | nil => intro sts _; simp [presentEntries]
  | cons f fs ih =>
    intro sts h
    cases sts with
    | nil => simp [presentEntries]
    | cons st sts =>
      have h1 : st = FieldState.absent := h st (List.mem_cons_self _ _)
      subst h1
      simp only [presentEntries]
      exact ih sts (fun x hx => h x (List.mem_cons_of_mem _ hx))

theorem presentEntries_drop (renames : List (String × String)) (fields : List StructField)
    (sts : List FieldState) (k : Nat) (f : StructField) (st : FieldState)
    (hf : fields[k]? = some f) (hs : sts[k]? = some st) :
    presentEntries renames (fields.drop k) (sts.drop k)
      = presentEntries renames (f :: fields.drop (k + 1)) (st :: sts.drop (k + 1)) := by
  have e1 : fields.drop k = f :: fields.drop (k + 1) := by
    have hk : k < fields.length := by
      rcases Nat.lt_or_ge k fields.length with h | h
      · exact h
      · rw [List.getElem?_eq_none h] at hf; cases hf
    rw [List.getElem?_eq_getElem hk] at hf
    injection hf with hf
    rw [List.drop_eq_getElem_cons hk, hf]
  have e2 : sts.drop k = st :: sts.drop (k + 1) := by
    have hk : k < sts.length := by
      rcases Nat.lt_or_ge k sts.length with h | h
      · exact h
      · rw [List.getElem?_eq_none h] at hs; cases hs
    rw [List.getElem?_eq_getElem hk] at hs
    injection hs with hs
    rw [List.drop_eq_getElem_cons hk, hs]
  rw [e1, e2]

theorem fieldNode_IsAbsent (t : SType) (st : FieldState) :
    (fieldNode t st).IsAbsent = true ↔ st = FieldState.absent := by
  cases st <;> simp [fieldNode, Node.IsAbsent, _node.IsAbsent]

theorem reprNext_skip (T : SType) (fields : List StructField) (cells : List Val)
    (sts : List FieldState) (renames : List (String × String)) (L : Nat)
    (hspec : ∀ (k : Nat) (f : StructField), fields[k]? = some f →
      ∃ c st, cells[k]? = some c ∧ sts[k]? = some st ∧
        fieldState f.IsOptional f.IsNullable c = Except.ok st)
    (hL : L ≤ fields.length)
    (hlast : ∀ i, L = i + 1 → sts[i]? ≠ some FieldState.absent) :
    ∀ (d k : Nat), k < L → L - k ≤ d →
      ∃ j key value, k ≤ j ∧ j < L ∧
        _structIteratorRepr.Next renames
            { schemaType := T, fields := fields, val := Val.struct cells, nextIndex := k,
              reprEnd := (L : Int) }
          = Except.ok (key, value,
              { schemaType := T, fields := fields, val := Val.struct cells,
                nextIndex := j + 1, reprEnd := (L : Int) }) ∧
        presentEntries renames (fields.drop k) (sts.drop k)
          = (key, value) :: presentEntries renames (fields.drop (j + 1)) (sts.drop (j + 1)) := by
  intro d
  induction d with
  | zero => intro k h1 h2; omega
  | succ d ih =>
    intro k hk hd
    have hkf : k < fields.length := by omega
    have hf : fields[k]? = some fields[k] := List.getElem?_eq_getElem hkf
    obtain ⟨c, st, hc, hs, hst⟩ := hspec k _ hf
    have hnext := typedNext_at
      { schemaType := T, fields := fields, val := Val.struct cells, nextIndex := k,
        reprEnd := (L : Int) } cells fields[k] c st rfl hf hc hst
    rw [reprNext_unfold, hnext, presentEntries_drop renames fields sts k _ st hf hs]
    by_cases habs : st = FieldState.absent
    · subst habs
      have hk1 : k + 1 < L := by
        rcases Nat.lt_or_ge (k + 1) L with h | h
        · exact h
        · exact absurd hs (hlast k (by omega))
      obtain ⟨j, key, value, h1, h2, h3, h4⟩ := ih (k + 1) hk1 (by omega)
      refine ⟨j, key, value, by omega, h2, ?_, ?_⟩
      · simp only [fieldNode, Node.IsAbsent, if_true]
        exact h3
      · simp only [presentEntries]
        exact h4
    · refine ⟨k, Node.basicString (GetFieldKey renames fields[k].Name),
        reprNode (fieldNode fields[k].Type st), le_refl _, hk, ?_, ?_⟩
      · have hna : (fieldNode fields[k].Type st).IsAbsent = false := by
          cases hb : (fieldNode fields[k].Type st).IsAbsent
          · rfl
          · exact absurd ((fieldNode_IsAbsent _ _).1 hb) habs
        simp only [hna, Bool.false_eq_true, if_false, Node.AsString, pure_eq_ok, bind_ok,
          outboundMappedKey]
        by_cases hm : GetFieldKey renames fields[k].Name = fields[k].Name
        · simp [hm]
        · simp [hm]
      · cases st with
        | absent => exact absurd rfl habs
        | null => simp only [presentEntries]
        | present v => simp only [presentEntries]

theorem drain_spec (T : SType) (fields : List StructField) (cells : List Val)
    (sts : List FieldState) (renames : List (String × String)) (L : Nat)
    (hspec : ∀ (k : Nat) (f : StructField), fields[k]? = some f →
      ∃ c st, cells[k]? = some c ∧ sts[k]? = some st ∧
        fieldState f.IsOptional f.IsNullable c = Except.ok st)
    (hL : L ≤ fields.length)
    (hlast : ∀ i, L = i + 1 → sts[i]? ≠ some FieldState.absent)
    (hsuffix : ∀ j, L ≤ j → ∀ st, sts[j]? = some st → st = FieldState.absent) :
    ∀ (fuel k : Nat), L - k < fuel →
      drain renames fuel
          { schemaType := T, fields := fields, val := Val.struct cells, nextIndex := k,
            reprEnd := (L : Int) }
        = some (Except.ok (presentEntries renames (fields.drop k) (sts.drop k))) := by
  intro fuel
  induction fuel with
  | zero => intro k h; omega
  | succ fuel ih =>
    intro k hfuel
    by_cases hk : k < L
    · have hd : _structIteratorRepr.Done
          { schemaType := T, fields := fields, val := Val.struct cells, nextIndex := k,
            reprEnd := (L : Int) } = false := by
        simp [_structIteratorRepr.Done, hk]
      obtain ⟨j, key, value, h1, h2, h3, h4⟩ :=
        reprNext_skip T fields cells sts renames L hspec hL hlast (L - k) k hk (le_refl _)
      simp only [drain, hd, Bool.false_eq_true, if_false, h3, ih (j + 1) (by omega), h4,
        Option.map_some', bind_ok, pure_eq_ok]
    · have hd : _structIteratorRepr.Done
          { schemaType := T, fields := fields, val := Val.struct cells, nextIndex := k,
            reprEnd := (L : Int) } = true := by
        simp [_structIteratorRepr.Done]; omega
      have hE : presentEntries renames (fields.drop k) (sts.drop k) = [] := by
        apply presentEntries_all_absent
        intro st hst
        obtain ⟨m, hm⟩ := List.mem_iff_getElem?.1 hst
        rw [List.getElem?_drop] at hm
        exact hsuffix (k + m) (by omega) st hm
      simp only [drain, hd, if_true, hE, pure_eq_ok]

theorem presentEntries_not_absent (renames : List (String × String)) :
    ∀ (fs : List StructField) (sts : List FieldState),
      ∀ e ∈ presentEntries renames fs sts, e.2.IsAbsent = false := by
  intro fs
  induction fs with
  | nil => intro sts e he; simp [presentEntries] at he
  | cons f fs ih =>
    intro sts e he
    cases sts with
    | nil => simp [presentEntries] at he
    | cons st sts =>
      cases st with
      | absent => simp only [presentEntries] at he; exact ih sts e he
      | null =>
        simp only [presentEntries, List.mem_cons] at he
        rcases he with rfl | he
        · rfl
        · exact ih sts e he
      | present v =>
        simp only [presentEntries, List.mem_cons] at he
        rcases he with rfl | he
        · simp [fieldNode, reprNode, Node.IsAbsent, _nodeRepr.IsAbsent, _node.IsAbsent]
        · exact ih sts e he

/-- C5: for a struct with Map representation whose backing struct conforms to the
declared fields (one readable cell for each), draining the representation view's map
iterator, calling `Next` while `Done` is false, succeeds with exactly the fields that
are not absent, each once, in declaration order, each with its serial key under the
rename map and its representation node; no entry is absent, and no `Next` fails, so
none is called past the last field.  Any fuel above the field count is enough. -/
theorem C5_struct_map_iteration (name : String) (fields : List StructField)
    (renames : List (String × String)) (cells : List Val) (sts : List FieldState)
    (fuel : Nat) (hconf : fieldStates fields cells = some sts)
    (hfuel : fields.length < fuel) :
    (∃ itr, _nodeRepr.MapIterator_struct (.struct name fields (.Map renames)) (Val.struct cells)
        = Except.ok itr ∧
      drain renames fuel itr = some (Except.ok (presentEntries renames fields sts))) ∧
    ∀ e ∈ presentEntries renames fields sts, e.2.IsAbsent = false := by
  refine ⟨?_, presentEntries_not_absent renames fields sts⟩
  obtain ⟨hlenc, hlens, hspec⟩ := fieldStates_spec fields cells sts hconf
  have hptr := fieldStates_pointers fields cells sts hconf
  have hlen := lengthMinusTrailingAbsents_eq name fields (.Map renames) cells hptr
  have hle := trailingAbsents_le fields cells hlenc
  refine ⟨{ schemaType := .struct name fields (.Map renames), fields := fields,
            val := Val.struct cells, nextIndex := 0,
            reprEnd := ((fields.length - trailingAbsents fields cells : Nat) : Int) }, ?_, ?_⟩
  · simp only [_nodeRepr.MapIterator_struct, _node.MapIterator_struct, SType.Fields,
      pure_eq_ok, bind_ok, hlen]
  · have := drain_spec (.struct name fields (.Map renames)) fields cells sts renames
      (fields.length - trailingAbsents fields cells) hspec (by omega)
      (by
        intro i hi hs
        obtain ⟨f, c, h1, h2, h3⟩ := trailingAbsents_last fields cells hlenc i hi
        obtain ⟨c2, st, h4, h5, h6⟩ := hspec i f h1
        rw [h2] at h4
        injection h4 with h4
        subst h4
        rw [h5] at hs
        injection hs with hs
        subst hs
        have := (fieldState_absent_iff _ _ _).1 h6
        rcases h3 with h3 | h3
        · rw [h3] at this; exact absurd this.1 (by simp)
        · exact h3 this.2)
      (by
        intro j hj st hs
        have hjn : j < fields.length := by
          rcases Nat.lt_or_ge j sts.length with h | h
          · omega
          · rw [List.getElem?_eq_none h] at hs; cases hs
        obtain ⟨f, c, h1, h2, h3, h4⟩ := trailingAbsents_suffix fields cells hlenc j hj hjn
        obtain ⟨c2, st2, h5, h6, h7⟩ := hspec j f h1
        rw [h2] at h5
        injection h5 with h5
        subst h5
        rw [h6] at hs
        injection hs with hs
        subst hs
        rw [h3, h4] at h7
        have : fieldState true f.IsNullable Val.nilPtr = Except.ok FieldState.absent :=
          (fieldState_absent_iff _ _ _).2 ⟨rfl, rfl⟩
        rw [this] at h7
        injection h7 with h7
        exact h7.symm)
      fuel 0 (by omega)
    simpa using this

/-- C5 (witness): the struct `P` with `firstName` renamed to `fn`, built with
`firstName` absent and `lastName = "X"`, drained with fuel 3. -/
theorem C5_struct_map_iteration_witness :
    (∃ itr, _nodeRepr.MapIterator_struct exampleRename (Val.struct [Val.nilPtr, Val.string "X"])
        = Except.ok itr ∧
      drain [("firstName", "fn")] 3 itr
        = some (Except.ok [(Node.basicString "lastName",
            Node.repr (.string "String") (Val.string "X"))])) ∧
    ∀ e ∈ [(Node.basicString "lastName", Node.repr (.string "String") (Val.string "X"))],
      e.2.IsAbsent = false :=
  C5_struct_map_iteration "P"
    [.mk "firstName" (.string "String") true false, .mk "lastName" (.string "String") false false]
    [("firstName", "fn")] [Val.nilPtr, Val.string "X"]
    [FieldState.absent, FieldState.present (Val.string "X")] 3 rfl (by decide)

/-! ## Stringjoin: reading -/

theorem AsString_join_prefix (cells : List Val) (delim : String) (rest : List StructField) :
    ∀ (pre : List StructField) (i : Nat) (ss : List String) (b : String),
      FieldsHaveStrings cells pre i ss →
      AsString_join (pre ++ rest) (Val.struct cells) delim i false b
        = AsString_join rest (Val.struct cells) delim (i + pre.length) false
            (b ++ joinTail delim ss) := by
  intro pre
  induction pre with
  | nil =>
    intro i ss b h
    simp only [FieldsHaveStrings] at h
    subst h
    simp [joinTail]
  | cons f pre ih =>
    intro i ss b h
    obtain ⟨name, ftype, optional, nullable⟩ := f
    obtain ⟨c, v, s, tl, rfl, hc, hst, hs, hrest⟩ := h
    simp only [StructField.IsOptional, StructField.IsNullable, StructField.Type, reprNode,
      Node.AsString] at hst hs
    simp only [List.cons_append, AsString_join, Val.Field, hc, pure_eq_ok, bind_ok, hst, hs,
      List.append_eq]
    rw [ih (i + 1) tl _ hrest]
    simp only [Bool.false_eq_true, if_false, joinTail, List.length_cons, String.append_assoc]
    congr 1
    omega

theorem AsString_join_first (cells : List Val) (delim : String) (rest : List StructField) :
    ∀ (pre : List StructField) (ss : List String),
      FieldsHaveStrings cells pre 0 ss →
      AsString_join (pre ++ rest) (Val.struct cells) delim 0 true ""
        = AsString_join rest (Val.struct cells) delim pre.length pre.isEmpty
            (joinStrings delim ss) := by
  intro pre ss h
  cases pre with
  | nil =>
    simp only [FieldsHaveStrings] at h
    subst h
    simp [joinStrings]
  | cons f pre =>
    obtain ⟨name, ftype, optional, nullable⟩ := f
    obtain ⟨c, v, s, tl, rfl, hc, hst, hs, hrest⟩ := h
    simp only [StructField.IsOptional, StructField.IsNullable, StructField.Type, reprNode,
      Node.AsString] at hst hs
    simp only [List.cons_append, AsString_join, Val.Field, hc, pure_eq_ok, bind_ok, hst, hs,
      List.append_eq]
    have := AsString_join_prefix cells delim rest pre 1 tl ("" ++ s) hrest
    simp only [if_true, Nat.zero_add]
    rw [this]
    simp only [joinStrings, List.length_cons, String.empty_append, List.isEmpty_cons]
    congr 1
    omega

/-- C7: for a struct with Stringjoin representation with delimiter `δ` whose fields are
all present and string-valued, with strings `s1..sn` in declaration order, `AsString` of
the representation view returns `s1 + δ + ... + δ + sn`, the delimiter only between
consecutive fields, and `Length()` is -1. -/
theorem C7_stringjoin_AsString (name : String) (fields : List StructField) (delim : String)
    (cells : List Val) (ss : List String) (h : FieldsHaveStrings cells fields 0 ss) :
    _nodeRepr.AsString (.struct name fields (.Stringjoin delim)) (Val.struct cells)
      = Except.ok (joinStrings delim ss) ∧
    _nodeRepr.Length (.struct name fields (.Stringjoin delim)) (Val.struct cells)
      = Except.ok (-1) := by
  refine ⟨?_, rfl⟩
  have := AsString_join_first cells delim [] fields ss h
  simp only [List.append_nil] at this
  simp only [_nodeRepr.AsString, this, AsString_join, pure_eq_ok]

/-- C7 (witness): the struct `V` built with `x = "a"`, `y = "b"` gives `"a:b"`. -/
theorem C7_stringjoin_AsString_witness :
    _nodeRepr.AsString exampleStringjoin (Val.struct [Val.string "a", Val.string "b"])
      = Except.ok "a:b" ∧
    _nodeRepr.Length exampleStringjoin (Val.struct [Val.string "a", Val.string "b"])
      = Except.ok (-1) :=
  C7_stringjoin_AsString "V"
    [.mk "x" (.string "String") false false, .mk "y" (.string "String") false false] ":"
    [Val.string "a", Val.string "b"] ["a", "b"]
    ⟨Val.string "a", Val.string "a", "a", ["b"], rfl, rfl, rfl, rfl,
      ⟨Val.string "b", Val.string "b", "b", [], rfl, rfl, rfl, rfl, rfl⟩⟩
/-! ## Stringjoin: the round trip through `AssignString` -/

theorem splitAux_skip (sep : List Char) (y : List Char) :
    ∀ (a cur : List Char),
      strings.splitAux sep (a ++ y) a.length cur = strings.splitAux sep y 0 cur := by
  intro a
  induction a with
  | nil => intro cur; rfl
  | cons x a ih =>
    intro cur
    simp only [List.cons_append, List.length_cons, strings.splitAux]
    exact ih cur

theorem splitAux_delimiter (sep : List Char) (hsep : sep ≠ []) (t cur : List Char) :
    strings.splitAux sep (sep ++ t) 0 cur = cur.reverse :: strings.splitAux sep t 0 [] := by
  cases sep with
  | nil => exact absurd rfl hsep
  | cons c sep2 =>
    have hp : (c :: sep2).isPrefixOf (c :: (sep2 ++ t)) = true := by
      rw [List.isPrefixOf_iff_prefix]
      exact List.prefix_append (c :: sep2) t
    simp only [List.cons_append, strings.splitAux, List.append_eq, hp, if_true,
      List.length_cons, Nat.add_sub_cancel]
    rw [splitAux_skip]

theorem splitAux_field (sep : List Char) (tail : List Char)
    (htail : tail = [] ∨ ∃ t, tail = sep ++ t) :
    ∀ (s cur : List Char), delimiterFree sep s = true →
      strings.splitAux sep (s ++ tail) 0 cur = strings.splitAux sep tail 0 (s.reverse ++ cur) := by
  intro s
  induction s with
  | nil => intro cur _; rfl
  | cons c s ih =>
    intro cur h
    simp only [delimiterFree, Bool.and_eq_true, Bool.not_eq_true'] at h
    obtain ⟨h1, h2⟩ := h
    have hp : sep.isPrefixOf (c :: (s ++ tail)) = false := by
      cases hb : sep.isPrefixOf (c :: (s ++ tail))
      · rfl
      · exfalso
        rw [List.isPrefixOf_iff_prefix] at hb
        have hcontra : sep <+: c :: s ++ sep := by
          rcases htail with rfl | ⟨t, rfl⟩
          · rw [List.append_nil] at hb
            exact hb.trans (List.prefix_append _ _)
          · have e : c :: (s ++ (sep ++ t)) = (c :: s ++ sep) ++ t := by simp
            rw [e] at hb
            exact List.prefix_of_prefix_length_le hb (List.prefix_append _ _)
              (by simp only [List.length_append, List.length_cons]; omega)
        have := (List.isPrefixOf_iff_prefix).2 hcontra
        rw [h1] at this
        cases this
    simp only [List.cons_append, strings.splitAux, List.append_eq, hp, Bool.false_eq_true,
      if_false]
    rw [ih (c :: cur) h2]
    simp

theorem joinTail_data (delim : String) (s : String) (rest : List String) :
    (joinTail delim (s :: rest)).data = delim.data ++ (s.data ++ (joinTail delim rest).data) := by
  simp [joinTail, String.data_append]

theorem splitAux_join (delim : String) (hdelim : delim.data ≠ []) :
    ∀ (ss : List String) (s : String) (cur : List Char),
      (∀ x ∈ s :: ss, delimiterFree delim.data x.data = true) →
      strings.splitAux delim.data (s.data ++ (joinTail delim ss).data) 0 cur
        = (cur.reverse ++ s.data) :: ss.map String.data := by
  intro ss
  induction ss with
  | nil =>
    intro s cur h
    have h1 := h s (List.mem_cons_self _ _)
    have := splitAux_field delim.data [] (Or.inl rfl) s.data cur h1
    have e : (joinTail delim []).data = [] := rfl
    rw [e, this]
    simp [strings.splitAux]
  | cons s2 ss ih =>
    intro s cur h
    have h1 := h s (List.mem_cons_self _ _)
    rw [joinTail_data]
    rw [splitAux_field delim.data _ (Or.inr ⟨_, rfl⟩) s.data cur h1]
    rw [splitAux_delimiter delim.data hdelim]
    rw [ih s2 [] (fun x hx => h x (List.mem_cons_of_mem _ hx))]
    simp

theorem map_mk_data : ∀ (ss : List String), ss.map (String.mk ∘ String.data) = ss := by
  intro ss
  induction ss with
  | nil => rfl
  | cons x xs ih => simp [ih]

theorem Split_joinStrings (delim : String) (hdelim : delim ≠ "") (s : String)
    (ss : List String) (h : ∀ x ∈ s :: ss, delimiterFree delim.data x.data = true) :
    strings.Split (joinStrings delim (s :: ss)) delim = s :: ss := by
  have hd : delim.data ≠ [] := by
    intro h0
    apply hdelim
    apply String.ext
    rw [h0]
  simp only [strings.Split, hdelim, if_false, joinStrings, String.data_append]
  rw [splitAux_join delim hd ss s [] h]
  simp only [List.reverse_nil, List.nil_append, List.map_cons, List.map_map]
  congr 1
  exact map_mk_data ss


theorem findField_split (f : StructField) (post : List StructField) :
    ∀ (pre : List StructField) (k : Nat), (∀ m ∈ pre, m.Name ≠ f.Name) →
      findField (pre ++ f :: post) f.Name k = some (k + pre.length, f) := by
  intro pre
  induction pre with
  | nil => intro k _; simp [findField]
  | cons m pre ih =>
    intro k h
    have hm : m.Name ≠ f.Name := h m (List.mem_cons_self _ _)
    have := ih (k + 1) (fun x hx => h x (List.mem_cons_of_mem _ hx))
    simp only [List.cons_append, findField, if_neg hm, List.append_eq, List.length_cons]
    have h2 : k + (pre.length + 1) = k + 1 + pre.length := by omega
    rw [h2]
    exact this

theorem take_set_succ {α : Type} (a : α) :
    ∀ (l : List α) (k : Nat), k < l.length → (l.set k a).take (k + 1) = l.take k ++ [a] := by
  intro l
  induction l with
  | nil => intro k h; simp at h
  | cons x l ih =>
    intro k h
    cases k with
    | zero => simp
    | succ k =>
      simp only [List.set_cons_succ, List.take_succ_cons, List.cons_append, List.cons.injEq,
        true_and]
      exact ih k (by simpa using h)

theorem zeroCells_length : ∀ (fields : List StructField),
    (zeroCells fields).length = fields.length := by
  intro fields
  induction fields with
  | nil => rfl
  | cons f fs ih =>
    obtain ⟨n, t, o, nl⟩ := f
    simp [zeroCells, ih]

theorem missingFields_all_done : ∀ (fields : List StructField),
    missingFields fields (List.replicate fields.length true) = [] := by
  intro fields
  induction fields with
  | nil => rfl
  | cons f fs ih =>
    simp only [List.length_cons, List.replicate_succ, missingFields, Bool.not_true,
      Bool.and_false, Bool.false_eq_true, if_false]
    exact ih

theorem AssignString_string (tn : String) (nullable : Bool) (s : String) :
    _assemblerRepr.AssignString (SType.string tn) nullable s
      = Except.ok (wrapNullable nullable (Val.string s)) := by
  simp [_assemblerRepr.AssignString, _assembler.AssignString, _node.Kind, pure_eq_ok]

theorem AssignString_fields_spec (fields : List StructField)
    (hnodup : (fields.map StructField.Name).Nodup)
    (htypes : ∀ f ∈ fields, ∃ tn, f.Type = SType.string tn) :
    ∀ (rest done : List StructField) (parts : List String) (asm : _structAssembler),
      fields = done ++ rest → parts.length = rest.length →
      asm.cells.length = fields.length → asm.doneFields.length = fields.length →
      AssignString_fields fields rest parts asm
        = Except.ok
            { cells := asm.cells.take done.length ++ List.zipWith stringCell rest parts,
              doneFields := asm.doneFields.take done.length
                ++ List.replicate rest.length true } := by
  intro rest
  induction rest with
  | nil =>
    intro done parts asm hf hp hc hd
    rw [List.append_nil] at hf
    subst hf
    simp only [AssignString_fields, pure_eq_ok, List.zipWith_nil_left, List.append_nil,
      List.length_nil, List.replicate_zero]
    have e1 : asm.cells.take fields.length = asm.cells := by
      rw [← hc, List.take_length]
    have e2 : asm.doneFields.take fields.length = asm.doneFields := by
      rw [← hd, List.take_length]
    rw [e1, e2]
  | cons f rest ih =>
    intro done parts asm hf hp hc hd
    cases parts with
    | nil => simp at hp
    | cons p ps =>
      obtain ⟨name, ftype, optional, nullable⟩ := f
      obtain ⟨tn, htn⟩ := htypes (StructField.mk name ftype optional nullable)
        (by rw [hf]; simp)
      simp only [StructField.Type] at htn
      subst htn
      have hpre : ∀ m ∈ done, m.Name ≠ (StructField.mk name (SType.string tn) optional nullable).Name := by
        intro m hm heq
        rw [hf, List.map_append, List.map_cons] at hnodup
        have := (List.nodup_append.1 hnodup).2.2
        exact this (List.mem_map_of_mem _ hm) (by rw [heq]; exact List.mem_cons_self _ _)
      have hfind := findField_split (StructField.mk name (SType.string tn) optional nullable)
        rest done 0 hpre
      rw [← hf, Nat.zero_add] at hfind
      simp only [StructField.Name] at hfind
      have hk : done.length < fields.length := by
        rw [hf]; simp
      simp only [AssignString_fields, AssignString_string, bind_ok,
        _structAssembler.AssembleEntry, _structAssembler.store, hfind, pure_eq_ok]
      rw [ih (done ++ [StructField.mk name (SType.string tn) optional nullable]) ps _
        (by rw [hf]; simp) (by simpa using hp) (by simpa using hc) (by simpa using hd)]
      simp only [List.length_append, List.length_singleton, List.length_cons,
        List.zipWith_cons_cons, List.replicate_succ, List.length_nil, Nat.zero_add]
      rw [take_set_succ _ _ _ (by rw [hc]; exact hk), take_set_succ _ _ _ (by rw [hd]; exact hk)]
      simp [stringCell, StructField.IsOptional, StructField.IsNullable]

theorem derefNullable_present (nullable : Bool) (x v : Val)
    (h : derefNullable nullable x = Except.ok (FieldState.present v)) :
    x = wrapNullable nullable v := by
  unfold derefNullable at h
  cases nullable
  · simp [pure_eq_ok] at h
    simp [wrapNullable, h]
  · cases x <;> simp [Val.IsNil, Val.Elem, throwPanic, pure_eq_ok, bind_ok, bind_error,
      bind, Except.bind] at h
    simp [wrapNullable, h]

theorem fieldState_present (optional nullable : Bool) (c v : Val)
    (h : fieldState optional nullable c = Except.ok (FieldState.present v)) :
    c = if optional then Val.ptr (wrapNullable nullable v) else wrapNullable nullable v := by
  unfold fieldState at h
  cases optional
  · simp only [Bool.false_eq_true, if_false] at h ⊢
    exact derefNullable_present _ _ _ h
  · simp only [if_true] at h ⊢
    cases c <;> simp [Val.IsNil, Val.Elem, throwPanic, pure_eq_ok, bind_ok, bind_error,
      bind, Except.bind] at h
    rw [derefNullable_present _ _ _ h]


theorem FieldsHaveStrings_cells (cells : List Val) :
    ∀ (fs : List StructField) (i : Nat) (ss : List String),
      FieldsHaveStrings cells fs i ss → (∀ f ∈ fs, ∃ tn, f.Type = SType.string tn) →
      (cells.drop i).take fs.length = List.zipWith stringCell fs ss ∧
        ss.length = fs.length := by
  intro fs
  induction fs with
  | nil =>
    intro i ss h _
    simp only [FieldsHaveStrings] at h
    subst h
    simp
  | cons f fs ih =>
    intro i ss h htypes
    obtain ⟨c, v, s, tl, rfl, hc, hst, hs, hrest⟩ := h
    obtain ⟨tn, htn⟩ := htypes f (List.mem_cons_self _ _)
    obtain ⟨h1, h2⟩ := ih (i + 1) tl hrest (fun g hg => htypes g (List.mem_cons_of_mem _ hg))
    have hv : v = Val.string s := by
      rw [htn] at hs
      simp only [reprNode, Node.AsString, _nodeRepr.AsString, _node.AsString, _node.Kind] at hs
      cases v <;> simp [throwPanic, pure_eq_ok] at hs
      rw [hs]
    subst hv
    have hcell := fieldState_present _ _ _ _ hst
    have hi : i < cells.length := by
      rcases Nat.lt_or_ge i cells.length with h | h
      · exact h
      · rw [List.getElem?_eq_none h] at hc; cases hc
    rw [List.getElem?_eq_getElem hi] at hc
    injection hc with hc
    refine ⟨?_, by simp [h2]⟩
    rw [List.drop_eq_getElem_cons hi, List.length_cons, List.take_succ_cons, h1, hc, hcell]
    simp [stringCell]

/-- C8 (counterexample): the struct `V` with delimiter `":"` built with `x = "a:b"`,
`y = "c"`: `AsString` gives `"a:b:c"`, and `AssignString` of that string does not rebuild
the struct, it panics on the part count. -/
theorem C8_stringjoin_round_trip_counterexample :
    _nodeRepr.AsString exampleStringjoin (Val.struct [Val.string "a:b", Val.string "c"])
      = Except.ok "a:b:c" ∧
    _assemblerRepr.AssignString exampleStringjoin false "a:b:c"
      = throwPanic "TODO: len mismatch" :=
  ⟨rfl, rfl⟩

/-- C8 (amended): for a struct with Stringjoin representation with a non-empty delimiter
`δ` and at least one field, the fields of type String with distinct names, and a value
whose fields are all present strings in none of which, followed by `δ`, the delimiter
begins (for a delimiter of one character: it occurs in no field), `AssignString` of the
`AsString` output succeeds and rebuilds the same backing struct, field by field. -/
theorem C8_stringjoin_round_trip (name : String) (fields : List StructField)
    (delim : String) (cells : List Val) (ss : List String)
    (hdelim : delim ≠ "") (hfields : fields ≠ [])
    (hnames : (fields.map StructField.Name).Nodup)
    (htypes : ∀ f ∈ fields, ∃ tn, f.Type = SType.string tn)
    (hlen : cells.length = fields.length)
    (hvals : FieldsHaveStrings cells fields 0 ss)
    (hfree : ∀ s ∈ ss, delimiterFree delim.data s.data = true) :
    _nodeRepr.AsString (.struct name fields (.Stringjoin delim)) (Val.struct cells)
      = Except.ok (joinStrings delim ss) ∧
    _assemblerRepr.AssignString (.struct name fields (.Stringjoin delim)) false
        (joinStrings delim ss) = Except.ok (Val.struct cells) := by
  obtain ⟨hcells, hsslen⟩ := FieldsHaveStrings_cells cells fields 0 ss hvals htypes
  rw [List.drop_zero, ← hlen, List.take_length] at hcells
  constructor
  · have := AsString_join_first cells delim [] fields ss hvals
    simp only [List.append_nil] at this
    simp only [_nodeRepr.AsString, this, AsString_join, pure_eq_ok]
  · cases ss with
    | nil =>
      exfalso
      apply hfields
      exact List.length_eq_zero.1 (by simpa using hsslen.symm)
    | cons s tl =>
      have hsplit := Split_joinStrings delim hdelim s tl hfree
      have hloop := AssignString_fields_spec fields hnames htypes fields [] (s :: tl)
        (_assembler.BeginMap_struct fields) rfl hsslen
        (by simp [_assembler.BeginMap_struct, zeroCells_length])
        (by simp [_assembler.BeginMap_struct])
      simp only [_assemblerRepr.AssignString, hsplit, hsslen, ne_eq, not_true_eq_false,
        if_false, hloop, bind_ok, _structAssembler.Finish, List.length_nil, List.take_zero,
        List.nil_append, missingFields_all_done, pure_eq_ok, wrapNullable, Bool.false_eq_true,
        hcells]

/-- C8 (witness): the struct `V` with delimiter `":"` built with `x = "a"`, `y = "b"`. -/
theorem C8_stringjoin_round_trip_witness :
    _nodeRepr.AsString exampleStringjoin (Val.struct [Val.string "a", Val.string "b"])
      = Except.ok "a:b" ∧
    _assemblerRepr.AssignString exampleStringjoin false "a:b"
      = Except.ok (Val.struct [Val.string "a", Val.string "b"]) :=
  C8_stringjoin_round_trip "V"
    [.mk "x" (.string "String") false false, .mk "y" (.string "String") false false] ":"
    [Val.string "a", Val.string "b"] ["a", "b"]
    (by decide) (by simp) (by decide)
    (by
      intro f hf
      simp only [List.mem_cons, List.mem_singleton, List.not_mem_nil, or_false] at hf
      rcases hf with rfl | rfl
      · exact ⟨"String", rfl⟩
      · exact ⟨"String", rfl⟩)
    rfl
    ⟨Val.string "a", Val.string "a", "a", ["b"], rfl, rfl, rfl, rfl,
      ⟨Val.string "b", Val.string "b", "b", [], rfl, rfl, rfl, rfl, rfl⟩⟩
    (by
      intro s hs
      simp only [List.mem_cons, List.mem_singleton, List.not_mem_nil, or_false] at hs
      rcases hs with rfl | rfl
      · rfl
      · rfl)

/-- C9 (the code at the failing input): for the struct `V` with fields `x`, `y` and
delimiter `":"`, the input `"a:b:c"` splits into three parts, and `AssignString` on the
representation assembler does not return an error: it panics. -/
theorem C9_stringjoin_part_count_panics :
    strings.Split "a:b:c" ":" = ["a", "b", "c"] ∧
    _assemblerRepr.AssignString exampleStringjoin false "a:b:c"
      = throwPanic "TODO: len mismatch" ∧
    ¬ ∃ e, _assemblerRepr.AssignString exampleStringjoin false "a:b:c" = throwErr e := by
  refine ⟨by decide, rfl, ?_⟩
  rintro ⟨e, h⟩
  have h2 : _assemblerRepr.AssignString exampleStringjoin false "a:b:c"
      = throwPanic "TODO: len mismatch" := rfl
  rw [h2] at h
  cases h

/-! ## Stringprefix unions: `AsString` and `AssignString` -/

theorem data_ne_nil (delim : String) (hdelim : delim ≠ "") : delim.data ≠ [] := by
  intro h0
  apply hdelim
  apply String.ext
  rw [h0]

theorem getElem?_append_cons {α : Type} (pre post : List α) (a : α) :
    (pre ++ a :: post)[pre.length]? = some a := by
  induction pre with
  | nil => simp
  | cons x pre ih => simpa using ih

theorem AsString_member_at (mval : Val) :
    ∀ (members : List SType) (i : Nat) (M : SType), members[i]? = some M →
      AsString_member members i mval
        = (_nodeRepr.AsString M mval >>= fun s => pure (M.Name, s)) := by
  intro members
  induction members with
  | nil => intro i M h; simp at h
  | cons m rest ih =>
    intro i M h
    cases i with
    | zero =>
      simp only [List.getElem?_cons_zero, Option.some.injEq] at h
      subst h
      rw [AsString_member]
    | succ i =>
      simp only [List.getElem?_cons_succ] at h
      rw [AsString_member]
      exact ih i M h

/-- The Stringprefix case of `AsString` on a union inhabiting the member at index `i`. -/
theorem AsString_union_prefixed (uname : String) (members : List SType) (delim : String)
    (table : List (String × String)) (i : Nat) (M : SType) (mval : Val)
    (hM : members[i]? = some M) :
    _nodeRepr.AsString (.union uname members (.StringPrefix delim table))
        (unionSetMember members.length i mval)
      = (_nodeRepr.AsString M mval >>= fun s =>
          GetDiscriminant table M.Name >>= fun d => pure (d ++ delim ++ s)) := by
  have hi : i < members.length := by
    rcases Nat.lt_or_ge i members.length with h | h
    · exact h
    · rw [List.getElem?_eq_none h] at hM
      cases hM
  rw [_nodeRepr.AsString, unionMember_unionSetMember _ _ _ hi]
  simp only [bind_ok, AsString_member_at mval members i M hM]
  cases _nodeRepr.AsString M mval with
  | error e => rfl
  | ok s => rfl

theorem AssignString_member_skip_delim (table : List (String × String)) (uname : String)
    (n : Nat) (nullable : Bool) (s p r : String) :
    ∀ (pre rest : List SType) (k : Nat),
      (∀ m ∈ pre, ∃ d, GetDiscriminant table m.Name = Except.ok d ∧ d ≠ p) →
      AssignString_member table uname n nullable s (some (p, r)) (pre ++ rest) k
        = AssignString_member table uname n nullable s (some (p, r)) rest (k + pre.length) := by
  intro pre
  induction pre with
  | nil => intro rest k _; rfl
  | cons m pre ih =>
    intro rest k h
    obtain ⟨d, hd, hne⟩ := h m (List.mem_cons_self _ _)
    have := ih rest (k + 1) (fun x hx => h x (List.mem_cons_of_mem _ hx))
    rw [List.cons_append, AssignString_member, hd]
    simp only [bind_ok, ne_eq, hne, not_false_eq_true, if_true]
    rw [this]
    congr 1
    simp only [List.length_cons]
    omega

theorem AssignString_member_skip_scan (table : List (String × String)) (uname : String)
    (n : Nat) (nullable : Bool) (s : String) :
    ∀ (pre rest : List SType) (k : Nat),
      (∀ m ∈ pre, ∃ d, GetDiscriminant table m.Name = Except.ok d ∧
        strings.HasPrefix s d = false) →
      AssignString_member table uname n nullable s none (pre ++ rest) k
        = AssignString_member table uname n nullable s none rest (k + pre.length) := by
  intro pre
  induction pre with
  | nil => intro rest k _; rfl
  | cons m pre ih =>
    intro rest k h
    obtain ⟨d, hd, hne⟩ := h m (List.mem_cons_self _ _)
    have := ih rest (k + 1) (fun x hx => h x (List.mem_cons_of_mem _ hx))
    rw [List.cons_append, AssignString_member, hd]
    simp only [bind_ok, hne, Bool.not_false, if_true]
    rw [this]
    congr 1
    simp only [List.length_cons]
    omega

theorem cutAux_delimiterFree (sep rest : List Char) (hsep : sep ≠ []) :
    ∀ (d cur : List Char), delimiterFree sep d = true →
      strings.cutAux sep (d ++ (sep ++ rest)) cur = some (cur.reverse ++ d, rest) := by
  intro d
  induction d with
  | nil =>
    intro cur _
    cases sep with
    | nil => exact absurd rfl hsep
    | cons c sep2 =>
      have hp : (c :: sep2).isPrefixOf (c :: (sep2 ++ rest)) = true := by
        rw [List.isPrefixOf_iff_prefix]
        exact List.prefix_append (c :: sep2) rest
      have hdrop : (c :: (sep2 ++ rest)).drop (c :: sep2).length = rest := by
        simp
      simp only [List.nil_append, List.cons_append, strings.cutAux, List.append_eq, hp,
        if_true, hdrop, List.append_nil]
  | cons c d ih =>
    intro cur h
    simp only [delimiterFree, Bool.and_eq_true, Bool.not_eq_true'] at h
    obtain ⟨h1, h2⟩ := h
    have hp : sep.isPrefixOf (c :: (d ++ (sep ++ rest))) = false := by
      cases hb : sep.isPrefixOf (c :: (d ++ (sep ++ rest)))
      · rfl
      · exfalso
        rw [List.isPrefixOf_iff_prefix] at hb
        have e : c :: (d ++ (sep ++ rest)) = (c :: d ++ sep) ++ rest := by simp
        rw [e] at hb
        have hcontra : sep <+: c :: d ++ sep :=
          List.prefix_of_prefix_length_le hb (List.prefix_append _ _)
            (by simp only [List.length_append, List.length_cons]; omega)
        have := (List.isPrefixOf_iff_prefix).2 hcontra
        rw [h1] at this
        cases this
    simp only [List.cons_append, strings.cutAux, List.append_eq, hp, Bool.false_eq_true,
      if_false]
    rw [ih (c :: cur) h2]
    simp

theorem cutAux_none (sep : List Char) :
    ∀ (cs cur : List Char), ¬ sep <:+: cs → strings.cutAux sep cs cur = none := by
  intro cs
  induction cs with
  | nil => intro cur _; rfl
  | cons c cs ih =>
    intro cur h
    have hp : sep.isPrefixOf (c :: cs) = false := by
      cases hb : sep.isPrefixOf (c :: cs)
      · rfl
      · exfalso
        rw [List.isPrefixOf_iff_prefix] at hb
        exact h hb.isInfix
    have hrest : ¬ sep <:+: cs := fun hi => h (List.infix_cons hi)
    simp only [strings.cutAux, hp, Bool.false_eq_true, if_false]
    exact ih (c :: cur) hrest

/-- `strings.SplitN(d + δ + s, δ, 2)` cuts at the end of `d` when `δ` does not begin
inside `d`. -/
theorem SplitN2_discriminant (d delim s : String) (hdelim : delim ≠ "")
    (hfree : delimiterFree delim.data d.data = true) :
    strings.SplitN2 (d ++ delim ++ s) delim = [d, s] := by
  have h := cutAux_delimiterFree delim.data s.data (data_ne_nil delim hdelim) d.data [] hfree
  simp only [strings.SplitN2, String.data_append, List.append_assoc, h, List.reverse_nil,
    List.nil_append]

/-- `strings.SplitN(s, δ, 2)` gives `s` alone when `δ` does not occur in `s`. -/
theorem SplitN2_absent (delim s : String) (h : ¬ delim.data <:+: s.data) :
    strings.SplitN2 s delim = [s] := by
  simp only [strings.SplitN2, cutAux_none delim.data s.data [] h]

/-- The Stringprefix case of `AssignString` with a non-empty delimiter: the input is
`d + δ + s`, `d` the discriminant of the member `M`, no member declared before `M` has
the discriminant `d`, and `δ` does not begin inside `d`.  The member `M` is selected;
the assembler of a nullable field panics there, any other assigns `s` to `M`. -/
theorem AssignString_stringprefix_delim (uname : String) (pre post : List SType)
    (M : SType) (delim : String) (table : List (String × String)) (nullable : Bool)
    (s d : String) (hdelim : delim ≠ "")
    (hd : GetDiscriminant table M.Name = Except.ok d)
    (hfree : delimiterFree delim.data d.data = true)
    (hpre : ∀ m ∈ pre, ∃ d2, GetDiscriminant table m.Name = Except.ok d2 ∧ d2 ≠ d) :
    _assemblerRepr.AssignString (.union uname (pre ++ M :: post) (.StringPrefix delim table))
        nullable (d ++ delim ++ s)
      = (if nullable then throwPanic "reflect: call of reflect.Value.Field on ptr Value"
          else _assemblerRepr.AssignString M nullable s >>= fun v =>
            pure (unionSetMember (pre ++ M :: post).length pre.length v)) := by
  rw [_assemblerRepr.AssignString]
  simp only [ne_eq, hdelim, not_false_eq_true, if_true, SplitN2_discriminant d delim s hdelim hfree]
  rw [AssignString_member_skip_delim table uname _ nullable _ d s pre (M :: post) 0 hpre]
  rw [AssignString_member, hd]
  simp only [bind_ok, ne_eq, not_true_eq_false, if_false, Nat.zero_add]

/-- The Stringprefix case of `AssignString` with the empty delimiter: the discriminant
`d` of `M` is a prefix of the input, the discriminant of no member declared before `M`
is.  The member `M` is selected; the assembler of a nullable field panics there, any
other assigns the remainder to `M`. -/
theorem AssignString_stringprefix_scan (uname : String) (pre post : List SType)
    (M : SType) (table : List (String × String)) (nullable : Bool)
    (s d : String)
    (hd : GetDiscriminant table M.Name = Except.ok d)
    (hM : strings.HasPrefix s d = true)
    (hpre : ∀ m ∈ pre, ∃ d2, GetDiscriminant table m.Name = Except.ok d2 ∧
      strings.HasPrefix s d2 = false) :
    _assemblerRepr.AssignString (.union uname (pre ++ M :: post) (.StringPrefix "" table))
        nullable s
      = (if nullable then throwPanic "reflect: call of reflect.Value.Field on ptr Value"
          else _assemblerRepr.AssignString M nullable (String.mk (s.data.drop d.length)) >>=
            fun v => pure (unionSetMember (pre ++ M :: post).length pre.length v)) := by
  rw [_assemblerRepr.AssignString]
  simp only [ne_eq, not_true_eq_false, if_false]
  rw [AssignString_member_skip_scan table uname _ nullable _ pre (M :: post) 0 hpre]
  rw [AssignString_member, hd]
  simp only [bind_ok, hM, Bool.not_true, Bool.false_eq_true, if_false, Nat.zero_add]

theorem AssignString_member_none (table : List (String × String)) (uname : String)
    (n : Nat) (nullable : Bool) (s : String) (split : Option (String × String)) (k : Nat) :
    AssignString_member table uname n nullable s split [] k
      = throwErr (Error.Errorf
          "schema rejects data: the union type %s requires a known prefix, and it was not found in the data %q"
          [uname, s]) := by
  rw [AssignString_member]
/-! ## C11 to C14: Stringprefix unions -/

/-- C11 (counterexample): with the empty delimiter and the members `A "a"`, `B "ab"`, the
value inhabiting `B` with `"c"` has the representation string `"abc"`, and `AssignString`
of it builds a different value, `A` with `"bc"`; with the delimiter `":"` and the
discriminant `"x:y"` of `A`, the value inhabiting `A` with `"h"` has the representation
string `"x:y:h"`, and `AssignString` of it fails. -/
theorem C11_stringprefix_round_trip_counterexample :
    (_nodeRepr.AsString exampleStringprefixOverlap (unionSetMember 2 1 (Val.string "c"))
        = Except.ok "abc" ∧
      _assemblerRepr.AssignString exampleStringprefixOverlap false "abc"
        = Except.ok (unionSetMember 2 0 (Val.string "bc")) ∧
      unionSetMember 2 0 (Val.string "bc") ≠ unionSetMember 2 1 (Val.string "c")) ∧
    (_nodeRepr.AsString exampleStringprefixInner (unionSetMember 2 0 (Val.string "h"))
        = Except.ok "x:y:h" ∧
      _assemblerRepr.AssignString exampleStringprefixInner false "x:y:h"
        = throwErr (Error.Errorf
            "schema rejects data: the union type %s requires a known prefix, and it was not found in the data %q"
            ["U", "x:y:h"])) := by
  refine ⟨⟨rfl, rfl, ?_⟩, rfl, rfl⟩
  intro h
  have h1 : Val.struct [Val.ptr (Val.string "bc"), Val.nilPtr]
      = Val.struct [Val.nilPtr, Val.ptr (Val.string "c")] := h
  simp at h1

/-- C11 (amended): for a union with Stringprefix representation and its member `M` with
discriminant `d`, where every member declared before `M` has a discriminant, which
differs from `d` (delimiter not empty) or is no prefix of `d + s` (delimiter empty), and
a delimiter that is not empty does not begin inside `d`: for a value inhabiting `M`
whose member string is `s`, `AsString` gives `d + delimiter + s`, and `AssignString` of
that string, on an assembler that is not the one of a nullable field, selects `M` and
assigns exactly `s` to it, setting the slot of `M` when the assembler of `M` accepts
`s`.  On the assembler of a nullable field the call panics when it has selected `M`. -/
theorem C11_stringprefix_round_trip (uname : String) (pre post : List SType) (M : SType)
    (delim : String) (table : List (String × String)) (mval : Val)
    (s d : String)
    (hd : GetDiscriminant table M.Name = Except.ok d)
    (hs : _nodeRepr.AsString M mval = Except.ok s)
    (hfree : delim ≠ "" → delimiterFree delim.data d.data = true)
    (hpre : ∀ m ∈ pre, ∃ d2, GetDiscriminant table m.Name = Except.ok d2 ∧
      (delim ≠ "" → d2 ≠ d) ∧ (delim = "" → strings.HasPrefix (d ++ s) d2 = false)) :
    _nodeRepr.AsString (.union uname (pre ++ M :: post) (.StringPrefix delim table))
        (unionSetMember (pre ++ M :: post).length pre.length mval)
      = Except.ok (d ++ delim ++ s) ∧
    _assemblerRepr.AssignString (.union uname (pre ++ M :: post) (.StringPrefix delim table))
        false (d ++ delim ++ s)
      = (_assemblerRepr.AssignString M false s >>= fun v =>
          pure (unionSetMember (pre ++ M :: post).length pre.length v)) ∧
    _assemblerRepr.AssignString (.union uname (pre ++ M :: post) (.StringPrefix delim table))
        true (d ++ delim ++ s)
      = throwPanic "reflect: call of reflect.Value.Field on ptr Value" := by
  have hassign : ∀ nullable : Bool,
      _assemblerRepr.AssignString
          (.union uname (pre ++ M :: post) (.StringPrefix delim table)) nullable
          (d ++ delim ++ s)
        = (if nullable then throwPanic "reflect: call of reflect.Value.Field on ptr Value"
            else _assemblerRepr.AssignString M nullable s >>= fun v =>
              pure (unionSetMember (pre ++ M :: post).length pre.length v)) := by
    intro nullable
    by_cases hdelim : delim = ""
    · subst hdelim
      have hM : strings.HasPrefix (d ++ "" ++ s) d = true := by
        simp only [strings.HasPrefix, String.data_append, List.isPrefixOf_iff_prefix,
          List.append_assoc]
        exact List.prefix_append _ _
      have hpre2 : ∀ m ∈ pre, ∃ d2, GetDiscriminant table m.Name = Except.ok d2 ∧
          strings.HasPrefix (d ++ "" ++ s) d2 = false := by
        intro m hm
        obtain ⟨d2, h1, _, h3⟩ := hpre m hm
        refine ⟨d2, h1, ?_⟩
        have e : d ++ "" ++ s = d ++ s := by
          apply String.ext
          simp [String.data_append]
        rw [e]
        exact h3 rfl
      rw [AssignString_stringprefix_scan uname pre post M table nullable (d ++ "" ++ s) d
        hd hM hpre2]
      have e2 : String.mk ((d ++ "" ++ s).data.drop d.length) = s := by
        apply String.ext
        simp only [String.data_append, String.length, List.append_assoc]
        rw [List.drop_left]
        rfl
      rw [e2]
    · exact AssignString_stringprefix_delim uname pre post M delim table nullable s d hdelim
        hd (hfree hdelim) (fun m hm => by
          obtain ⟨d2, h1, h2, _⟩ := hpre m hm
          exact ⟨d2, h1, h2 hdelim⟩)
  refine ⟨?_, ?_, ?_⟩
  · rw [AsString_union_prefixed uname (pre ++ M :: post) delim table pre.length M mval
      (getElem?_append_cons pre post M), hs, hd]
    rfl
  · rw [hassign false]
    simp only [Bool.false_eq_true, if_false]
  · rw [hassign true]
    simp only [if_true]

/-- C11 (witness): the union with delimiter `":"` and discriminants `"a"`, `"b"`,
inhabiting `B` with `"hello"`: the string `"b:hello"` rebuilds the value; on the
assembler of a nullable field it panics. -/
theorem C11_stringprefix_round_trip_witness :
    _nodeRepr.AsString exampleStringprefixDelim (unionSetMember 2 1 (Val.string "hello"))
      = Except.ok "b:hello" ∧
    _assemblerRepr.AssignString exampleStringprefixDelim false "b:hello"
      = Except.ok (unionSetMember 2 1 (Val.string "hello")) ∧
    _assemblerRepr.AssignString exampleStringprefixDelim true "b:hello"
      = throwPanic "reflect: call of reflect.Value.Field on ptr Value" :=
  C11_stringprefix_round_trip "U" [.string "A"] [] (.string "B") ":"
    [("a", "A"), ("b", "B")] (Val.string "hello") "hello" "b" rfl rfl
    (fun _ => rfl)
    (by
      intro m hm
      simp only [List.mem_singleton] at hm
      subst hm
      exact ⟨"a", rfl, fun _ => by decide, fun h => absurd h (by decide)⟩)

/-- C12: for a union with Stringprefix representation inhabiting its member `M`, which
has the discriminant `d`, the representation view has Kind String, and `AsString` gives
`d + delimiter + s` when the representation view of `M` gives the string `s`, and the
failure of the view of `M` when it fails. -/
theorem C12_stringprefix_AsString (uname : String) (members : List SType) (delim : String)
    (table : List (String × String)) (i : Nat) (M : SType) (mval : Val) (d : String)
    (hM : members[i]? = some M)
    (hd : GetDiscriminant table M.Name = Except.ok d) :
    _nodeRepr.Kind (.union uname members (.StringPrefix delim table))
        (unionSetMember members.length i mval) = Except.ok Kind.String ∧
    (∀ s, _nodeRepr.AsString M mval = Except.ok s →
      _nodeRepr.AsString (.union uname members (.StringPrefix delim table))
        (unionSetMember members.length i mval) = Except.ok (d ++ delim ++ s)) ∧
    (∀ e, _nodeRepr.AsString M mval = Except.error e →
      _nodeRepr.AsString (.union uname members (.StringPrefix delim table))
        (unionSetMember members.length i mval) = Except.error e) := by
  refine ⟨rfl, ?_, ?_⟩
  · intro s hs
    rw [AsString_union_prefixed uname members delim table i M mval hM, hs, hd]
    rfl
  · intro e he
    rw [AsString_union_prefixed uname members delim table i M mval hM, he]
    rfl

/-- C12 (witness): the union `{ A "a:", B "b:" }` inhabiting `A` with `"hello"` has the
representation kind String and the representation string `"a:hello"`. -/
theorem C12_stringprefix_AsString_witness :
    _nodeRepr.Kind exampleStringprefixColon (unionSetMember 2 0 (Val.string "hello"))
      = Except.ok Kind.String ∧
    _nodeRepr.AsString exampleStringprefixColon (unionSetMember 2 0 (Val.string "hello"))
      = Except.ok "a:hello" :=
  have h := C12_stringprefix_AsString "U" [.string "A", .string "B"] ""
    [("a:", "A"), ("b:", "B")] 0 (.string "A") (Val.string "hello") "a:" rfl rfl
  ⟨h.1, h.2.1 "hello" rfl⟩

/-- C13 (counterexample): the members `A "a"`, `B "ab"` in that order and the input
`"abc"`: both discriminants are prefixes of the input and `"ab"` is the longer, and
`AssignString` selects `A` with the remainder `"bc"`, not `B` with `"c"`. -/
theorem C13_stringprefix_longest_counterexample :
    strings.HasPrefix "abc" "a" = true ∧ strings.HasPrefix "abc" "ab" = true ∧
    "a".length < "ab".length ∧
    _assemblerRepr.AssignString exampleStringprefixOverlap false "abc"
      = Except.ok (unionSetMember 2 0 (Val.string "bc")) ∧
    _assemblerRepr.AssignString exampleStringprefixOverlap false "abc"
      ≠ Except.ok (unionSetMember 2 1 (Val.string "c")) := by
  refine ⟨rfl, rfl, by decide, rfl, ?_⟩
  intro h
  have h1 : (Except.ok (Val.struct [Val.ptr (Val.string "bc"), Val.nilPtr]) : Res Val)
      = Except.ok (Val.struct [Val.nilPtr, Val.ptr (Val.string "c")]) := h
  simp at h1

/-- C13 (amended): for a union with Stringprefix representation whose delimiter is empty
and an input `s`, `AssignString`, on an assembler that is not the one of a nullable
field, selects the first member in declaration order whose discriminant `d` is a prefix
of `s`, and assigns the remainder of `s` after `d` to it; the slot of that member is set
when its assembler accepts the remainder.  On the assembler of a nullable field the
call panics when it has selected the member. -/
theorem C13_stringprefix_first_match (uname : String) (pre post : List SType) (M : SType)
    (table : List (String × String)) (s d : String)
    (hd : GetDiscriminant table M.Name = Except.ok d)
    (hM : strings.HasPrefix s d = true)
    (hpre : ∀ m ∈ pre, ∃ d2, GetDiscriminant table m.Name = Except.ok d2 ∧
      strings.HasPrefix s d2 = false) :
    d ++ String.mk (s.data.drop d.length) = s ∧
    _assemblerRepr.AssignString (.union uname (pre ++ M :: post) (.StringPrefix "" table))
        false s
      = (_assemblerRepr.AssignString M false (String.mk (s.data.drop d.length)) >>= fun v =>
          pure (unionSetMember (pre ++ M :: post).length pre.length v)) ∧
    _assemblerRepr.AssignString (.union uname (pre ++ M :: post) (.StringPrefix "" table))
        true s
      = throwPanic "reflect: call of reflect.Value.Field on ptr Value" := by
  refine ⟨?_, ?_, ?_⟩
  · apply String.ext
    simp only [strings.HasPrefix, List.isPrefixOf_iff_prefix] at hM
    obtain ⟨t, ht⟩ := hM
    simp only [String.data_append, String.length, ← ht, List.drop_left]
  · rw [AssignString_stringprefix_scan uname pre post M table false s d hd hM hpre]
    simp only [Bool.false_eq_true, if_false]
  · rw [AssignString_stringprefix_scan uname pre post M table true s d hd hM hpre]
    simp only [if_true]

/-- C13 (witness): the union `{ A "a:", B "b:" }` and the input `"b:hello"`: `A` is
passed over, `B` is selected with the remainder `"hello"`; on the assembler of a
nullable field the call panics. -/
theorem C13_stringprefix_first_match_witness :
    "b:" ++ String.mk ("b:hello".data.drop "b:".length) = "b:hello" ∧
    _assemblerRepr.AssignString exampleStringprefixColon false "b:hello"
      = Except.ok (unionSetMember 2 1 (Val.string "hello")) ∧
    _assemblerRepr.AssignString exampleStringprefixColon true "b:hello"
      = throwPanic "reflect: call of reflect.Value.Field on ptr Value" :=
  C13_stringprefix_first_match "U" [.string "A"] [] (.string "B")
    [("a:", "A"), ("b:", "B")] "b:hello" "b:" rfl rfl
    (by
      intro m hm
      simp only [List.mem_singleton] at hm
      subst hm
      exact ⟨"a:", rfl, rfl⟩)

/-- C14: for a union with Stringprefix representation in which every member has a
discriminant, `AssignString` returns an error, and so sets no member slot, when the
delimiter is not empty and does not occur in the input; when the delimiter is not empty
and no member has the text before its first occurrence as discriminant; and when the
delimiter is empty and no discriminant is a prefix of the input. -/
theorem C14_stringprefix_no_match (uname : String) (members : List SType) (delim : String)
    (table : List (String × String)) (nullable : Bool)
    (hdisc : ∀ m ∈ members, ∃ d, GetDiscriminant table m.Name = Except.ok d) :
    (∀ s : String, delim ≠ "" → ¬ delim.data <:+: s.data →
      _assemblerRepr.AssignString (.union uname members (.StringPrefix delim table)) nullable s
        = throwErr (Error.Errorf
            "schema rejects data: the union type %s expects delimiter %q, and it was not found in the data %q"
            [uname, delim, s])) ∧
    (∀ p r : String, delim ≠ "" → delimiterFree delim.data p.data = true →
      (∀ m ∈ members, GetDiscriminant table m.Name ≠ Except.ok p) →
      _assemblerRepr.AssignString (.union uname members (.StringPrefix delim table)) nullable
          (p ++ delim ++ r)
        = throwErr (Error.Errorf
            "schema rejects data: the union type %s requires a known prefix, and it was not found in the data %q"
            [uname, p ++ delim ++ r])) ∧
    (∀ s : String, delim = "" →
      (∀ m ∈ members, ∀ d, GetDiscriminant table m.Name = Except.ok d →
        strings.HasPrefix s d = false) →
      _assemblerRepr.AssignString (.union uname members (.StringPrefix delim table)) nullable s
        = throwErr (Error.Errorf
            "schema rejects data: the union type %s requires a known prefix, and it was not found in the data %q"
            [uname, s])) := by
  refine ⟨?_, ?_, ?_⟩
  · intro s hdelim hocc
    rw [_assemblerRepr.AssignString]
    simp only [ne_eq, hdelim, not_false_eq_true, if_true, SplitN2_absent delim s hocc]
  · intro p r hdelim hfree hnone
    rw [_assemblerRepr.AssignString]
    simp only [ne_eq, hdelim, not_false_eq_true, if_true,
      SplitN2_discriminant p delim r hdelim hfree]
    have h := AssignString_member_skip_delim table uname members.length nullable
      (p ++ delim ++ r) p r members [] 0 (fun m hm => by
        obtain ⟨d, hd⟩ := hdisc m hm
        refine ⟨d, hd, ?_⟩
        intro heq
        subst heq
        exact hnone m hm hd)
    rw [List.append_nil] at h
    rw [h, AssignString_member_none]
  · intro s hdelim hnone
    subst hdelim
    rw [_assemblerRepr.AssignString]
    simp only [ne_eq, not_true_eq_false, if_false]
    have h := AssignString_member_skip_scan table uname members.length nullable s
      members [] 0 (fun m hm => by
        obtain ⟨d, hd⟩ := hdisc m hm
        exact ⟨d, hd, hnone m hm d hd⟩)
    rw [List.append_nil] at h
    rw [h, AssignString_member_none]

/-- C14 (witness): the union with delimiter `":"` and discriminants `"a"`, `"b"` rejects
`"ahello"`, in which no delimiter occurs, and `"c:hello"`, whose text before the
delimiter is no discriminant; the union `{ A "a:", B "b:" }` without delimiter rejects
`"zzz"`. -/
theorem C14_stringprefix_no_match_witness :
    _assemblerRepr.AssignString exampleStringprefixDelim false "ahello"
      = throwErr (Error.Errorf
          "schema rejects data: the union type %s expects delimiter %q, and it was not found in the data %q"
          ["U", ":", "ahello"]) ∧
    _assemblerRepr.AssignString exampleStringprefixDelim false "c:hello"
      = throwErr (Error.Errorf
          "schema rejects data: the union type %s requires a known prefix, and it was not found in the data %q"
          ["U", "c:hello"]) ∧
    _assemblerRepr.AssignString exampleStringprefixColon false "zzz"
      = throwErr (Error.Errorf
          "schema rejects data: the union type %s requires a known prefix, and it was not found in the data %q"
          ["U", "zzz"]) :=
  have hmem : ∀ m ∈ [SType.string "A", SType.string "B"],
      ∃ d, GetDiscriminant [("a", "A"), ("b", "B")] m.Name = Except.ok d := by
    intro m hm
    simp only [List.mem_cons, List.mem_singleton, List.not_mem_nil, or_false] at hm
    rcases hm with rfl | rfl
    · exact ⟨"a", rfl⟩
    · exact ⟨"b", rfl⟩
  have h := C14_stringprefix_no_match "U" [.string "A", .string "B"] ":"
    [("a", "A"), ("b", "B")] false hmem
  ⟨h.1 "ahello" (by decide) (by decide),
    h.2.1 "c" "hello" (by decide) rfl (by
      intro m hm
      simp only [List.mem_cons, List.mem_singleton, List.not_mem_nil, or_false] at hm
      rcases hm with rfl | rfl
      · intro h0
        have h1 : (Except.ok "a" : Res String) = Except.ok "c" := h0
        exact absurd (Except.ok.inj h1) (by decide)
      · intro h0
        have h1 : (Except.ok "b" : Res String) = Except.ok "c" := h0
        exact absurd (Except.ok.inj h1) (by decide)),
    (C14_stringprefix_no_match "U" [.string "A", .string "B"] ""
      [("a:", "A"), ("b:", "B")] false (by
        intro m hm
        simp only [List.mem_cons, List.mem_singleton, List.not_mem_nil, or_false] at hm
        rcases hm with rfl | rfl
        · exact ⟨"a:", rfl⟩
        · exact ⟨"b:", rfl⟩)).2.2 "zzz" rfl (by
      intro m hm d hd
      simp only [List.mem_cons, List.mem_singleton, List.not_mem_nil, or_false] at hm
      rcases hm with rfl | rfl
      · have h1 : (Except.ok "a:" : Res String) = Except.ok d := hd
        rw [← Except.ok.inj h1]
        rfl
      · have h1 : (Except.ok "b:" : Res String) = Except.ok d := hd
        rw [← Except.ok.inj h1]
        rfl)⟩
/-! ## C15, C16: the assembler of a kinded union -/

theorem AssignString_kinded_none (name : String) (n : Nat) (nullable : Bool) (s : String) :
    ∀ (members : List SType) (idx : Nat), (∀ m ∈ members, m.Name ≠ name) →
      AssignString_kinded name n nullable s members idx
        = throwPanic "runtime error: invalid memory address or nil pointer dereference" := by
  intro members
  induction members with
  | nil => intro idx _; rw [AssignString_kinded]
  | cons m rest ih =>
    intro idx h
    have hm : m.Name ≠ name := h m (List.mem_cons_self _ _)
    rw [AssignString_kinded]
    simp only [ne_eq, hm, not_false_eq_true, if_true]
    exact ih (idx + 1) (fun x hx => h x (List.mem_cons_of_mem _ hx))

theorem AssignBool_kinded_none (name : String) (n : Nat) (nullable : Bool) (b : Bool) :
    ∀ (members : List SType) (idx : Nat), (∀ m ∈ members, m.Name ≠ name) →
      AssignBool_kinded name n nullable b members idx
        = throwPanic "runtime error: invalid memory address or nil pointer dereference" := by
  intro members
  induction members with
  | nil => intro idx _; rw [AssignBool_kinded]
  | cons m rest ih =>
    intro idx h
    have hm : m.Name ≠ name := h m (List.mem_cons_self _ _)
    rw [AssignBool_kinded]
    simp only [ne_eq, hm, not_false_eq_true, if_true]
    exact ih (idx + 1) (fun x hx => h x (List.mem_cons_of_mem _ hx))

/-- C15 (the code at the failing input): for the kinded union with the members `Foo int`
and `Bar string`, `AssignString("hi")` is routed to `Bar`, and the value built has the
typed entry `Bar` holding `"hi"`; `AssignInt(7)` is not routed to `Foo`, it panics.  For
every kinded union `AssignInt`, `AssignFloat`, `AssignBytes` and `AssignLink` panic,
whatever kinds the strategy maps. -/
theorem C15_kinded_AssignInt_panics :
    (_assemblerRepr.AssignString exampleKinded false "hi"
        = Except.ok (unionSetMember 2 1 (Val.string "hi")) ∧
      _node.LookupByString exampleKinded (unionSetMember 2 1 (Val.string "hi")) "Bar"
        = Except.ok (Node.typed (.string "Bar") (Val.string "hi"))) ∧
    _assemblerRepr.AssignInt exampleKinded false 7 = throwPanic "TODO" ∧
    (∀ (uname : String) (members : List SType) (table : List (Kind × String))
        (nullable : Bool),
      (∀ i, _assemblerRepr.AssignInt (.union uname members (.Kinded table)) nullable i
        = throwPanic "TODO") ∧
      (∀ f, _assemblerRepr.AssignFloat (.union uname members (.Kinded table)) nullable f
        = throwPanic "TODO") ∧
      (∀ p, _assemblerRepr.AssignBytes (.union uname members (.Kinded table)) nullable p
        = throwPanic "TODO") ∧
      (∀ c, _assemblerRepr.AssignLink (.union uname members (.Kinded table)) nullable c
        = throwPanic "TODO")) :=
  ⟨⟨rfl, rfl⟩, rfl, fun _ _ _ _ => ⟨fun _ => rfl, fun _ => rfl, fun _ => rfl, fun _ => rfl⟩⟩

/-- C16 (the code on an unmapped kind): for a kinded union none of whose members has the
name the strategy gives for the kind String, `AssignString` on the representation
assembler returns no error: `asKinded` gives a nil assembler, and the call on it panics;
likewise `AssignBool` for the kind Bool. -/
theorem C16_kinded_unmapped_kind_panics (uname : String) (members : List SType)
    (table : List (Kind × String)) (nullable : Bool) :
    (∀ s : String, (∀ m ∈ members, m.Name ≠ GetMember table Kind.String) →
      _assemblerRepr.AssignString (.union uname members (.Kinded table)) nullable s
        = throwPanic "runtime error: invalid memory address or nil pointer dereference") ∧
    (∀ b : Bool, (∀ m ∈ members, m.Name ≠ GetMember table Kind.Bool) →
      _assemblerRepr.AssignBool (.union uname members (.Kinded table)) nullable b
        = throwPanic "runtime error: invalid memory address or nil pointer dereference") := by
  constructor
  · intro s h
    rw [_assemblerRepr.AssignString]
    exact AssignString_kinded_none _ _ nullable s members 0 h
  · intro b h
    rw [_assemblerRepr.AssignBool]
    exact AssignBool_kinded_none _ _ nullable b members 0 h

/-- C16 (witness): the kinded union with the one member `Foo int` has no member for the
kind String, and `AssignString("hi")` panics. -/
theorem C16_kinded_unmapped_kind_panics_witness :
    _assemblerRepr.AssignString exampleKindedInt false "hi"
      = throwPanic "runtime error: invalid memory address or nil pointer dereference" :=
  (C16_kinded_unmapped_kind_panics "U" [.int "Foo"] [(Kind.Int, "Foo")] false).1 "hi" (by
    intro m hm
    simp only [List.mem_singleton] at hm
    subst hm
    decide)
/-! ## C17, C18: the struct assembler of the Map representation -/

theorem decorateMissing_eq_map (quote : String → String) (renames : List (String × String)) :
    ∀ (missing : List String),
      decorateMissing quote renames missing
        = missing.map fun n =>
            if GetFieldKey renames n ≠ n then
              n ++ (" (serial:" ++ quote (GetFieldKey renames n) ++ ")")
            else n := by
  intro missing
  induction missing with
  | nil => rfl
  | cons n rest ih =>
    simp only [decorateMissing, outboundMappedKey, List.map_cons, ih]

theorem inboundMappedKey_serial (renames : List (String × String)) (f : StructField)
    (post : List StructField) :
    ∀ (pre : List StructField),
      (∀ g ∈ pre, GetFieldKey renames g.Name ≠ GetFieldKey renames f.Name) →
      inboundMappedKey (pre ++ f :: post) renames (GetFieldKey renames f.Name) = f.Name := by
  intro pre
  induction pre with
  | nil => intro _; simp [inboundMappedKey]
  | cons g pre ih =>
    intro h
    have hg : GetFieldKey renames f.Name ≠ GetFieldKey renames g.Name :=
      fun e => h g (List.mem_cons_self _ _) e.symm
    simp only [List.cons_append, inboundMappedKey, hg, if_false]
    exact ih (fun x hx => h x (List.mem_cons_of_mem _ hx))

/-- With pairwise distinct serial keys, `inboundMappedKey` of the serial key of a field
is the name of the field. -/
theorem inboundMappedKey_outbound (fields : List StructField)
    (renames : List (String × String))
    (hdistinct : (fields.map fun f => GetFieldKey renames f.Name).Nodup)
    (f : StructField) (hf : f ∈ fields) :
    inboundMappedKey fields renames (outboundMappedKey renames f.Name) = f.Name := by
  obtain ⟨pre, post, rfl⟩ := List.append_of_mem hf
  apply inboundMappedKey_serial
  intro g hg heq
  rw [List.map_append, List.map_cons] at hdistinct
  have := (List.nodup_append.1 hdistinct).2.2
  exact this (List.mem_map_of_mem _ hg) (by rw [heq]; exact List.mem_cons_self _ _)

/-- C17: for a struct with Map representation, the representation assembler's `Finish`
returns the value the typed struct assembler's `Finish` returns; when that fails with
missing required fields, it fails with the same names in the same order and number, each
name whose serial key differs from it followed by ` (serial:<quoted serial key>)`, the
others unchanged; every other failure is passed through. -/
theorem C17_struct_map_finish (quote : String → String) (name : String)
    (fields : List StructField) (renames : List (String × String)) (w : _structAssembler) :
    (∀ v, _structAssembler.Finish w fields = Except.ok v →
      _structAssemblerRepr.Finish quote (.struct name fields (.Map renames)) w = Except.ok v) ∧
    (∀ missing,
      _structAssembler.Finish w fields = throwErr (Error.ErrMissingRequiredField missing) →
      _structAssemblerRepr.Finish quote (.struct name fields (.Map renames)) w
        = throwErr (Error.ErrMissingRequiredField (missing.map fun n =>
            if GetFieldKey renames n ≠ n then
              n ++ (" (serial:" ++ quote (GetFieldKey renames n) ++ ")")
            else n))) ∧
    (∀ e, _structAssembler.Finish w fields = Except.error e →
      (∀ missing, e ≠ Failure.error (Error.ErrMissingRequiredField missing)) →
      _structAssemblerRepr.Finish quote (.struct name fields (.Map renames)) w
        = Except.error e) := by
  refine ⟨?_, ?_, ?_⟩
  · intro v h
    simp only [_structAssemblerRepr.Finish, reprStrategy, SType.Fields, pure_eq_ok, bind_ok, h]
  · intro missing h
    simp only [_structAssemblerRepr.Finish, reprStrategy, SType.Fields, pure_eq_ok, bind_ok, h,
      throwErr, decorateMissing_eq_map]
  · intro e h hne
    simp only [_structAssemblerRepr.Finish, reprStrategy, SType.Fields, pure_eq_ok, bind_ok, h]
    cases e with
    | error err =>
      cases err with
      | ErrMissingRequiredField missing => exact absurd rfl (hne missing)
      | _ => rfl
    | _ => rfl

/-- C17 (witness): the struct `P` with required fields `firstName`, renamed to `fn`, and
`lastName`; `Finish` with no field assigned names both, the renamed one with its serial
key. -/
theorem C17_struct_map_finish_witness :
    _structAssemblerRepr.Finish (fun k => "\"" ++ k ++ "\"") exampleRenameRequired
        (_assembler.BeginMap_struct [.mk "firstName" (.string "String") false false,
          .mk "lastName" (.string "String") false false])
      = throwErr (Error.ErrMissingRequiredField ["firstName (serial:\"fn\")", "lastName"]) :=
  (C17_struct_map_finish (fun k => "\"" ++ k ++ "\"") "P"
    [.mk "firstName" (.string "String") false false,
      .mk "lastName" (.string "String") false false] [("firstName", "fn")]
    (_assembler.BeginMap_struct [.mk "firstName" (.string "String") false false,
      .mk "lastName" (.string "String") false false])).2.1 ["firstName", "lastName"] rfl

/-- C18: for a struct with Map representation whose fields have pairwise distinct serial
keys and every field `f`: `inboundMappedKey` of the serial key of `f` is the name of
`f`; `LookupByString` of the serial key on the representation view gives the typed
lookup of the name, passed through `reprNode`; and the representation assembler's
`AssembleValue`, with the serial key in the key cell, is the typed struct assembler's
`AssembleValue` with the name in it, as is `AssembleEntry`. -/
theorem C18_inbound_left_inverse (name : String) (fields : List StructField)
    (renames : List (String × String))
    (hdistinct : (fields.map fun f => GetFieldKey renames f.Name).Nodup)
    (f : StructField) (hf : f ∈ fields) :
    inboundMappedKey fields renames (outboundMappedKey renames f.Name) = f.Name ∧
    (∀ val, _nodeRepr.LookupByString (.struct name fields (.Map renames)) val
        (outboundMappedKey renames f.Name)
      = (_node.LookupByString (.struct name fields (.Map renames)) val f.Name >>= fun v =>
          pure (reprNode v))) ∧
    (∀ w, _structAssemblerRepr.AssembleValue (.struct name fields (.Map renames)) w
        (outboundMappedKey renames f.Name)
      = _structAssembler.AssembleValue w fields f.Name) ∧
    (∀ w, _structAssemblerRepr.AssembleEntry (.struct name fields (.Map renames)) w
        (outboundMappedKey renames f.Name)
      = _structAssembler.AssembleEntry w fields f.Name) := by
  have h := inboundMappedKey_outbound fields renames hdistinct f hf
  refine ⟨h, ?_, ?_, ?_⟩
  · intro val
    simp only [_nodeRepr.LookupByString, reprStrategy, SType.Fields, pure_eq_ok, bind_ok, h]
  · intro w
    simp only [_structAssemblerRepr.AssembleValue, reprStrategy, SType.Fields, pure_eq_ok,
      bind_ok, h]
  · intro w
    simp only [_structAssemblerRepr.AssembleEntry, _structAssemblerRepr.AssembleKey,
      _structAssemblerRepr.AssembleValue, _structAssembler.AssembleValue, reprStrategy,
      SType.Fields, pure_eq_ok, bind_ok, h]

/-- C18 (witness): in the struct `P` with `firstName` renamed to `fn`, the serial key
`fn` maps back to `firstName`, and the lookup of `fn` on the representation view gives
the representation node of the field `firstName`. -/
theorem C18_inbound_left_inverse_witness :
    inboundMappedKey [.mk "firstName" (.string "String") true false,
        .mk "lastName" (.string "String") false false] [("firstName", "fn")] "fn"
      = "firstName" ∧
    _nodeRepr.LookupByString exampleRename
        (Val.struct [Val.ptr (Val.string "Ada"), Val.string "Lovelace"]) "fn"
      = Except.ok (Node.repr (.string "String") (Val.string "Ada")) :=
  have h := C18_inbound_left_inverse "P"
    [.mk "firstName" (.string "String") true false,
      .mk "lastName" (.string "String") false false] [("firstName", "fn")] (by decide)
    (.mk "firstName" (.string "String") true false) (List.mem_cons_self _ _)
  ⟨h.1, h.2.1 (Val.struct [Val.ptr (Val.string "Ada"), Val.string "Lovelace"])⟩
/-! ## C19, C20: `LookupByIndex` on a struct with Tuple representation -/

/-- The Tuple case of `LookupByIndex` at an index within the field list. -/
theorem tuple_lookup_eq (name : String) (fields : List StructField) (val : Val) (i : Nat)
    (f : StructField) (hf : fields[i]? = some f) :
    _nodeRepr.LookupByIndex (.struct name fields .Tuple) val (i : Int)
      = (_node.LookupByString (.struct name fields .Tuple) val f.Name >>= fun v =>
          pure (reprNode v)) := by
  have hi : i < fields.length := by
    rcases Nat.lt_or_ge i fields.length with h | h
    · exact h
    · rw [List.getElem?_eq_none h] at hf
      cases hf
  have hrange : ¬ ((i : Int) < 0 ∨ (i : Int) ≥ (fields.length : Int)) := by omega
  simp only [_nodeRepr.LookupByIndex, reprStrategy, SType.Fields, pure_eq_ok, bind_ok, hrange,
    if_false, Int.toNat_ofNat, hf]

/-- C19: for a struct with Tuple representation and an index `i` within its `n` fields,
the representation view has Kind List and `LookupByIndex(i)` is the typed lookup of the
schema name of the `i`-th declared field, passed through `reprNode`; when no field
declared before has that name, it is the representation node of the cell of the `i`-th
field. -/
theorem C19_tuple_lookup_by_index (name : String) (fields : List StructField) (val : Val)
    (i : Nat) (f : StructField) (hf : fields[i]? = some f) :
    _nodeRepr.Kind (.struct name fields .Tuple) val = Except.ok Kind.List ∧
    _nodeRepr.LookupByIndex (.struct name fields .Tuple) val (i : Int)
      = (_node.LookupByString (.struct name fields .Tuple) val f.Name >>= fun v =>
          pure (reprNode v)) ∧
    ((∀ g ∈ fields.take i, g.Name ≠ f.Name) →
      ∀ (cells : List Val) (c : Val) (st : FieldState), val = Val.struct cells →
        cells[i]? = some c → fieldState f.IsOptional f.IsNullable c = Except.ok st →
        _nodeRepr.LookupByIndex (.struct name fields .Tuple) val (i : Int)
          = Except.ok (reprNode (fieldNode f.Type st))) := by
  refine ⟨rfl, tuple_lookup_eq name fields val i f hf, ?_⟩
  intro hnames cells c st hval hc hst
  rw [tuple_lookup_eq name fields val i f hf]
  obtain ⟨hsplit, hlen⟩ := split_at_index fields i f hf
  have hfind := findField_split f (fields.drop (i + 1)) (fields.take i) 0 hnames
  rw [← hsplit, hlen, Nat.zero_add] at hfind
  subst hval
  simp only [_node.LookupByString, hfind, Val.Field, hc, pure_eq_ok, bind_ok, hst]

/-- C19 (witness): the struct `T { a Int b String }` with Tuple representation holding
`5` and `"x"`: index 1 gives the representation node of `b`. -/
theorem C19_tuple_lookup_by_index_witness :
    _nodeRepr.Kind exampleTuple (Val.struct [Val.int 5, Val.string "x"])
      = Except.ok Kind.List ∧
    _nodeRepr.LookupByIndex exampleTuple (Val.struct [Val.int 5, Val.string "x"]) 1
      = Except.ok (Node.repr (.string "String") (Val.string "x")) :=
  have h := C19_tuple_lookup_by_index "T"
    [.mk "a" (.int "Int") false false, .mk "b" (.string "String") false false]
    (Val.struct [Val.int 5, Val.string "x"]) 1 (.mk "b" (.string "String") false false) rfl
  ⟨h.1, h.2.2 (by
      intro g hg
      simp only [List.take_succ_cons, List.take_zero, List.mem_singleton] at hg
      subst hg
      decide)
    [Val.int 5, Val.string "x"] (Val.string "x") (FieldState.present (Val.string "x"))
    rfl rfl rfl⟩

/-- C20 (the code out of range): for a struct with Tuple representation with `n` fields
and an index `i` with `i < 0` or `i ≥ n`, `LookupByIndex(i)` on the representation view
returns no NotFound error: the field list is indexed with `i`, and the call panics. -/
theorem C20_tuple_lookup_out_of_range_panics (name : String) (fields : List StructField)
    (val : Val) (i : Int) (h : i < 0 ∨ i ≥ (fields.length : Int)) :
    _nodeRepr.LookupByIndex (.struct name fields .Tuple) val i
      = throwPanic "runtime error: index out of range" := by
  simp only [_nodeRepr.LookupByIndex, reprStrategy, SType.Fields, pure_eq_ok, bind_ok, h,
    if_true]

/-- C20 (witness): the struct `T { a Int b String }` with Tuple representation at the
index 2. -/
theorem C20_tuple_lookup_out_of_range_panics_witness :
    _nodeRepr.LookupByIndex exampleTuple (Val.struct [Val.int 5, Val.string "x"]) 2
      = throwPanic "runtime error: index out of range" :=
  C20_tuple_lookup_out_of_range_panics "T"
    [.mk "a" (.int "Int") false false, .mk "b" (.string "String") false false]
    (Val.struct [Val.int 5, Val.string "x"]) 2 (Or.inr (by decide))
/-! ## C21: the list assembler of a struct with Tuple representation -/

theorem drop_set_succ {α : Type} (a : α) :
    ∀ (l : List α) (k m : Nat), (l.set k a).drop (k + 1 + m) = l.drop (k + 1 + m) := by
  intro l
  induction l with
  | nil => intro k m; simp
  | cons x l ih =>
    intro k m
    cases k with
    | zero =>
      have e : 0 + 1 + m = m + 1 := by omega
      rw [e]
      simp
    | succ k =>
      have e : k + 1 + 1 + m = (k + 1 + m) + 1 := by omega
      rw [e]
      simp only [List.set_cons_succ, List.drop_succ_cons]
      exact ih k m

theorem drop_eq_getElem?_cons {α : Type} (a : α) :
    ∀ (l : List α) (k : Nat), l[k]? = some a → l.drop k = a :: l.drop (k + 1) := by
  intro l k h
  have hk : k < l.length := by
    rcases Nat.lt_or_ge k l.length with h1 | h1
    · exact h1
    · rw [List.getElem?_eq_none h1] at h; cases h
  rw [List.drop_eq_getElem_cons hk]
  rw [List.getElem?_eq_getElem hk] at h
  injection h with h
  rw [h]

theorem listStruct_AssembleValue_at (name : String) (done rest : List StructField)
    (f : StructField) (w : _listStructAssemblerRepr)
    (hnames : ((done ++ f :: rest).map StructField.Name).Nodup)
    (hidx : w.nextIndex = done.length) :
    _listStructAssemblerRepr.AssembleValue (.struct name (done ++ f :: rest) .Tuple) w
      = Except.ok (done.length, f,
          { asm := { w.asm with doneFields := w.asm.doneFields.set done.length true },
            nextIndex := done.length + 1 }) := by
  have hpre : ∀ m ∈ done, m.Name ≠ f.Name := by
    intro m hm heq
    rw [List.map_append, List.map_cons] at hnames
    have := (List.nodup_append.1 hnames).2.2
    exact this (List.mem_map_of_mem _ hm) (by rw [heq]; exact List.mem_cons_self _ _)
  have hfind := findField_split f rest done 0 hpre
  rw [Nat.zero_add] at hfind
  simp only [_listStructAssemblerRepr.AssembleValue, reprStrategy, SType.Fields, pure_eq_ok,
    bind_ok, hidx, getElem?_append_cons, _structAssembler.AssembleEntry, hfind]

theorem assembleValues_spec (name : String) (fields : List StructField)
    (hnames : (fields.map StructField.Name).Nodup) :
    ∀ (vals : List Val) (done rest : List StructField) (w : _listStructAssemblerRepr),
      fields = done ++ rest → vals.length ≤ rest.length → w.nextIndex = done.length →
      w.asm.cells.length = fields.length → w.asm.doneFields.length = fields.length →
      assembleValues (.struct name fields .Tuple) vals w
        = Except.ok
            { asm :=
                { cells := w.asm.cells.take done.length ++ List.zipWith assignedCell rest vals
                    ++ w.asm.cells.drop (done.length + vals.length),
                  doneFields := w.asm.doneFields.take done.length
                    ++ List.replicate vals.length true
                    ++ w.asm.doneFields.drop (done.length + vals.length) },
              nextIndex := done.length + vals.length } := by
  intro vals
  induction vals with
  | nil =>
    intro done rest w _ _ hidx _ _
    simp only [assembleValues, pure_eq_ok, List.zipWith_nil_right, List.append_nil,
      List.length_nil, Nat.add_zero, List.replicate_zero, List.take_append_drop, ← hidx]
  | cons v vs ih =>
    intro done rest w hf hlen hidx hc hd
    cases rest with
    | nil => simp at hlen
    | cons f rest =>
      subst hf
      have hk : done.length < w.asm.cells.length := by rw [hc]; simp
      have hk2 : done.length < w.asm.doneFields.length := by rw [hd]; simp
      rw [assembleValues, listStruct_AssembleValue_at name done rest f w hnames hidx]
      simp only [bind_ok, _structAssembler.store]
      rw [ih (done ++ [f]) rest _ (by simp) (by simpa using hlen) (by simp)
        (by simpa using hc) (by simpa using hd)]
      simp only [List.length_append, List.length_singleton, List.length_cons, List.length_nil,
        Nat.zero_add, List.zipWith_cons_cons, List.replicate_succ]
      rw [take_set_succ _ _ _ hk, take_set_succ _ _ _ hk2, drop_set_succ, drop_set_succ]
      have e : done.length + (vs.length + 1) = done.length + 1 + vs.length := by omega
      rw [e]
      simp [assignedCell]

theorem missingFields_mem (f : StructField) (hopt : f.IsOptional = false) :
    ∀ (fields : List StructField) (dones : List Bool) (j : Nat),
      fields[j]? = some f → dones[j]? = some false → f.Name ∈ missingFields fields dones := by
  intro fields
  induction fields with
  | nil => intro dones j h; simp at h
  | cons g gs ih =>
    intro dones j hf hd
    cases dones with
    | nil => simp at hd
    | cons d ds =>
      cases j with
      | zero =>
        simp only [List.getElem?_cons_zero, Option.some.injEq] at hf hd
        subst hf
        subst hd
        simp [missingFields, hopt]
      | succ j =>
        simp only [List.getElem?_cons_succ] at hf hd
        have := ih ds j hf hd
        simp only [missingFields]
        split
        · exact List.mem_cons_of_mem _ this
        · exact this

/-- C21: for a struct with Tuple representation whose fields have distinct names, the
list assembler that `BeginList` returns puts the `k`-th value it is given in the cell of
the `k`-th declared field, for up to as many values as there are fields; its `Finish`
is the typed struct assembler's `Finish`, and fails, naming the field, when a field
that is not optional has not been supplied. -/
theorem C21_tuple_list_assembler (name : String) (fields : List StructField)
    (vals : List Val) (hnames : (fields.map StructField.Name).Nodup)
    (hlen : vals.length ≤ fields.length) :
    _assemblerRepr.BeginList (.struct name fields .Tuple)
      = Except.ok (.ofStruct { asm := _assembler.BeginMap_struct fields, nextIndex := 0 }) ∧
    assembleValues (.struct name fields .Tuple) vals
        { asm := _assembler.BeginMap_struct fields, nextIndex := 0 }
      = Except.ok
          { asm :=
              { cells := List.zipWith assignedCell fields vals
                  ++ (zeroCells fields).drop vals.length,
                doneFields := List.replicate vals.length true
                  ++ List.replicate (fields.length - vals.length) false },
            nextIndex := vals.length } ∧
    (∀ w, _listStructAssemblerRepr.Finish (.struct name fields .Tuple) w
      = _structAssembler.Finish w.asm fields) ∧
    (∀ (j : Nat) (f : StructField), vals.length ≤ j → fields[j]? = some f →
      f.IsOptional = false →
      ∃ missing, f.Name ∈ missing ∧
        (assembleValues (.struct name fields .Tuple) vals
            { asm := _assembler.BeginMap_struct fields, nextIndex := 0 } >>= fun w =>
          _listStructAssemblerRepr.Finish (.struct name fields .Tuple) w)
          = throwErr (Error.ErrMissingRequiredField missing)) := by
  have hrun := assembleValues_spec name fields hnames vals [] fields
    { asm := _assembler.BeginMap_struct fields, nextIndex := 0 } rfl hlen rfl
    (by simp [_assembler.BeginMap_struct, zeroCells_length])
    (by simp [_assembler.BeginMap_struct])
  simp only [List.length_nil, List.take_zero, List.nil_append, Nat.zero_add,
    _assembler.BeginMap_struct] at hrun
  have hdone : List.drop vals.length (List.map (fun _ => false) fields)
      = List.replicate (fields.length - vals.length) false := by
    rw [← List.map_drop]
    have : ∀ (l : List StructField), l.map (fun _ => false) = List.replicate l.length false := by
      intro l
      induction l with
      | nil => rfl
      | cons x l ih => simp [List.replicate_succ, ih]
    rw [this, List.length_drop]
  rw [hdone] at hrun
  have hfin : ∀ w, _listStructAssemblerRepr.Finish (.struct name fields .Tuple) w
      = _structAssembler.Finish w.asm fields := by
    intro w
    simp only [_listStructAssemblerRepr.Finish, reprStrategy, SType.Fields, pure_eq_ok, bind_ok]
  refine ⟨rfl, ?_, hfin, ?_⟩
  · simpa only [_assembler.BeginMap_struct] using hrun
  · intro j f hj hf hopt
    have hjn : j < fields.length := by
      rcases Nat.lt_or_ge j fields.length with h1 | h1
      · exact h1
      · rw [List.getElem?_eq_none h1] at hf; cases hf
    have hdj : (List.replicate vals.length true
        ++ List.replicate (fields.length - vals.length) false)[j]? = some false := by
      rw [List.getElem?_append_right (by simpa using hj)]
      simp only [List.length_replicate]
      rw [List.getElem?_replicate]
      simp only [ite_eq_left_iff, not_lt, reduceCtorEq, imp_false, not_le]
      omega
    have hmem := missingFields_mem f hopt fields _ j hf hdj
    simp only [_assembler.BeginMap_struct, hrun, bind_ok, hfin, _structAssembler.Finish]
    split
    · rename_i heq
      rw [heq] at hmem
      cases hmem
    · exact ⟨_, hmem, rfl⟩

/-- C21 (witness): the struct `T { a Int b String }` with Tuple representation given the
one value `5`: it goes to `a`, and `Finish` fails, naming `b`. -/
theorem C21_tuple_list_assembler_witness :
    assembleValues exampleTuple [Val.int 5]
        { asm := _assembler.BeginMap_struct
            [.mk "a" (.int "Int") false false, .mk "b" (.string "String") false false],
          nextIndex := 0 }
      = Except.ok
          { asm := { cells := [Val.int 5, Val.string ""], doneFields := [true, false] },
            nextIndex := 1 } ∧
    ∃ missing, "b" ∈ missing ∧
      (assembleValues exampleTuple [Val.int 5]
          { asm := _assembler.BeginMap_struct
              [.mk "a" (.int "Int") false false, .mk "b" (.string "String") false false],
            nextIndex := 0 } >>= fun w =>
        _listStructAssemblerRepr.Finish exampleTuple w)
        = throwErr (Error.ErrMissingRequiredField missing) :=
  have h := C21_tuple_list_assembler "T"
    [.mk "a" (.int "Int") false false, .mk "b" (.string "String") false false]
    [Val.int 5] (by decide) (by decide)
  ⟨h.2.1, h.2.2.2 1 (.mk "b" (.string "String") false false) (by decide) rfl rfl⟩
/-! ## C22 to C24: lookup by segment and by node, error type names, `reprNode` -/

/-- C22: for a representation node whose `Kind()` is `k`: when `k` is neither Map nor
List, `LookupBySegment` and `LookupByNode` return a WrongKind error with their method
name, the kind set Recursive and the actual kind `k`; when `k` is Map they are
`LookupByString` of the segment's string and of the key node's `AsString`, whose failure
is returned; when `k` is List they are `LookupByIndex` of the segment's index and of the
key node's `AsInt`, whose failure is returned. -/
theorem C22_lookup_by_segment_and_node (schemaType : SType) (val : Val) (k : Kind)
    (hk : _nodeRepr.Kind schemaType val = Except.ok k) :
    (k ≠ Kind.Map → k ≠ Kind.List →
      (∀ seg, _nodeRepr.LookupBySegment schemaType val seg
        = throwErr (Error.ErrWrongKind schemaType.Name "LookupBySegment" KindSet_Recursive k)) ∧
      (∀ key, _nodeRepr.LookupByNode schemaType val key
        = throwErr (Error.ErrWrongKind schemaType.Name "LookupByNode" KindSet_Recursive k))) ∧
    (k = Kind.Map →
      (∀ seg, _nodeRepr.LookupBySegment schemaType val seg
        = _nodeRepr.LookupByString schemaType val seg.String) ∧
      (∀ key, _nodeRepr.LookupByNode schemaType val key
        = (key.AsString >>= fun s => _nodeRepr.LookupByString schemaType val s))) ∧
    (k = Kind.List →
      (∀ seg, _nodeRepr.LookupBySegment schemaType val seg
        = (seg.Index >>= fun idx => _nodeRepr.LookupByIndex schemaType val idx)) ∧
      (∀ key, _nodeRepr.LookupByNode schemaType val key
        = (key.AsInt >>= fun i => _nodeRepr.LookupByIndex schemaType val i))) := by
  refine ⟨?_, ?_, ?_⟩
  · intro h1 h2
    constructor
    · intro seg
      simp only [_nodeRepr.LookupBySegment, hk, bind_ok]
    · intro key
      simp only [_nodeRepr.LookupByNode, hk, bind_ok]
  · intro h
    subst h
    exact ⟨fun seg => by simp only [_nodeRepr.LookupBySegment, hk, bind_ok],
      fun key => by simp only [_nodeRepr.LookupByNode, hk, bind_ok]⟩
  · intro h
    subst h
    exact ⟨fun seg => by simp only [_nodeRepr.LookupBySegment, hk, bind_ok],
      fun key => by simp only [_nodeRepr.LookupByNode, hk, bind_ok]⟩

/-- C22 (witness): the struct `V` with Stringjoin representation has the representation
kind String, and `LookupBySegment` on it fails with WrongKind; the struct `T` with Tuple
representation has the kind List, and the segment `1` gives the field `b`, the segment
`"x"`, which is no index, the error of the conversion. -/
theorem C22_lookup_by_segment_and_node_witness :
    _nodeRepr.LookupBySegment exampleStringjoin (Val.struct [Val.string "a", Val.string "b"])
        (PathSegment.ofString "x")
      = throwErr (Error.ErrWrongKind "V" "LookupBySegment" KindSet_Recursive Kind.String) ∧
    _nodeRepr.LookupBySegment exampleTuple (Val.struct [Val.int 5, Val.string "x"])
        (PathSegment.ofInt 1)
      = Except.ok (Node.repr (.string "String") (Val.string "x")) ∧
    _nodeRepr.LookupBySegment exampleTuple (Val.struct [Val.int 5, Val.string "x"])
        (PathSegment.ofString "x")
      = throwErr (Error.Errorf "strconv.ParseInt: parsing %q: invalid syntax" ["x"]) :=
  ⟨((C22_lookup_by_segment_and_node exampleStringjoin
      (Val.struct [Val.string "a", Val.string "b"]) Kind.String rfl).1
      (by decide) (by decide)).1 (PathSegment.ofString "x"),
    ((C22_lookup_by_segment_and_node exampleTuple (Val.struct [Val.int 5, Val.string "x"])
      Kind.List rfl).2.2 rfl).1 (PathSegment.ofInt 1),
    ((C22_lookup_by_segment_and_node exampleTuple (Val.struct [Val.int 5, Val.string "x"])
      Kind.List rfl).2.2 rfl).1 (PathSegment.ofString "x")⟩

/-- C23 (the code at the failing input): on the representation view of the struct `V`
with Stringjoin representation, `AsInt` and `LookupBySegment` fail with a WrongKind
error whose type name is `V`, not `V.Repr`; the representation struct assembler's
`AssembleKey` panics with a WrongKind error whose type name is `V.Repr`.  The type name
of the scalar accessors and of the lookups is the schema type's name for every type
that has a representation strategy. -/
theorem C23_repr_error_type_name :
    _nodeRepr.AsInt exampleStringjoin (Val.struct [Val.string "a", Val.string "b"])
      = throwErr (Error.ErrWrongKind "V" "AsInt" KindSet_JustInt Kind.String) ∧
    _nodeRepr.LookupBySegment exampleStringjoin (Val.struct [Val.string "a", Val.string "b"])
        (PathSegment.ofString "x")
      = throwErr (Error.ErrWrongKind "V" "LookupBySegment" KindSet_Recursive Kind.String) ∧
    "V" ≠ "V" ++ ".Repr" ∧
    _structAssemblerRepr.AssembleKey exampleStringjoin
      = Except.error (Failure.panicErr
          (Error.ErrWrongKind ("V" ++ ".Repr") "AssembleKey" KindSet_JustMap Kind.String)) ∧
    (∀ (schemaType : SType) (val : Val) (k : Kind), reprStrategy schemaType ≠ none →
      _nodeRepr.Kind schemaType val = Except.ok k →
      _nodeRepr.AsBool schemaType val
        = throwErr (Error.ErrWrongKind schemaType.Name "AsBool" KindSet_JustBool k) ∧
      _nodeRepr.AsInt schemaType val
        = throwErr (Error.ErrWrongKind schemaType.Name "AsInt" KindSet_JustInt k) ∧
      _nodeRepr.AsFloat schemaType val
        = throwErr (Error.ErrWrongKind schemaType.Name "AsFloat" KindSet_JustFloat k) ∧
      _nodeRepr.AsBytes schemaType val
        = throwErr (Error.ErrWrongKind schemaType.Name "AsBytes" KindSet_JustBytes k) ∧
      _nodeRepr.AsLink schemaType val
        = throwErr (Error.ErrWrongKind schemaType.Name "AsLink" KindSet_JustLink k)) := by
  refine ⟨rfl, rfl, by decide, rfl, ?_⟩
  intro schemaType val k hstg hk
  simp only [_nodeRepr.AsBool, _nodeRepr.AsInt, _nodeRepr.AsFloat, _nodeRepr.AsBytes,
    _nodeRepr.AsLink, hstg, if_false, hk, bind_ok, and_self]

/-- C23 (witness): the general part at the struct `V` with Stringjoin representation. -/
theorem C23_repr_error_type_name_witness :
    _nodeRepr.AsBool exampleStringjoin (Val.struct [Val.string "a", Val.string "b"])
      = throwErr (Error.ErrWrongKind "V" "AsBool" KindSet_JustBool Kind.String) :=
  (C23_repr_error_type_name.2.2.2.2 exampleStringjoin
    (Val.struct [Val.string "a", Val.string "b"]) Kind.String (by decide) rfl).1

/-- C24: `reprNode` is idempotent; a typed node gives its representation view, and a
representation view, Absent, Null and a plain string node are returned unchanged. -/
theorem C24_reprNode_idempotent :
    (∀ n : Node, reprNode (reprNode n) = reprNode n) ∧
    (∀ (t : SType) (v : Val), reprNode (Node.typed t v) = Node.repr t v) ∧
    (∀ (t : SType) (v : Val), reprNode (Node.repr t v) = Node.repr t v) ∧
    reprNode Node.Absent = Node.Absent ∧ reprNode Node.Null = Node.Null ∧
    (∀ s : String, reprNode (Node.basicString s) = Node.basicString s) := by
  refine ⟨?_, fun _ _ => rfl, fun _ _ => rfl, rfl, rfl, fun _ => rfl⟩
  intro n
  cases n <;> rfl
/-! ## C31: the inverse key maps take the first match -/

theorem inboundMappedKey_first (renames : List (String × String)) (f : StructField)
    (post : List StructField) (key : String) (hf : GetFieldKey renames f.Name = key) :
    ∀ (pre : List StructField), (∀ g ∈ pre, GetFieldKey renames g.Name ≠ key) →
      inboundMappedKey (pre ++ f :: post) renames key = f.Name := by
  subst hf
  exact inboundMappedKey_serial renames f post

theorem inboundMappedKey_fallback (renames : List (String × String)) (key : String) :
    ∀ (fields : List StructField), (∀ g ∈ fields, GetFieldKey renames g.Name ≠ key) →
      inboundMappedKey fields renames key = key := by
  intro fields
  induction fields with
  | nil => intro _; rfl
  | cons g fields ih =>
    intro h
    have hg : key ≠ GetFieldKey renames g.Name := fun e => h g (List.mem_cons_self _ _) e.symm
    simp only [inboundMappedKey, hg, if_false]
    exact ih (fun x hx => h x (List.mem_cons_of_mem _ hx))

theorem inboundMappedType_fallback (table : List (String × String)) (key : String) :
    ∀ (members : List SType),
      (∀ m ∈ members, ∃ dm, GetDiscriminant table m.Name = Except.ok dm ∧ dm ≠ key) →
      inboundMappedType members table key = Except.ok key := by
  intro members
  induction members with
  | nil => intro _; rfl
  | cons m members ih =>
    intro h
    obtain ⟨dm, h1, h2⟩ := h m (List.mem_cons_self _ _)
    simp only [inboundMappedType, h1, bind_ok, if_neg (Ne.symm h2)]
    exact ih (fun x hx => h x (List.mem_cons_of_mem _ hx))

/-- C31: in a struct with Map representation, let `f` be the first field in declaration
order whose serial key is `key`.  Then `inboundMappedKey` of `key` is the name of `f`;
`LookupByString` of `key` on the representation view is the typed lookup of the name
of `f` and the representation assembler's `AssembleValue` with `key` in the key cell is
the typed one with the name of `f`; a later field with another name is not what `key`
maps to, also when its serial key is `key`.  When no field has the serial key `k`,
`inboundMappedKey` gives `k` unchanged, so that the representation view and the
representation assembler take `k` as the schema name: the name of a renamed field
which is no field's serial key is an alias of the field.  `inboundMappedType` of a
keyed union does the same with the members and their discriminants. -/
theorem C31_inbound_first_match (name : String) (pre post : List StructField)
    (f : StructField) (renames : List (String × String)) (key : String)
    (hpre : ∀ g ∈ pre, GetFieldKey renames g.Name ≠ key)
    (hf : GetFieldKey renames f.Name = key) :
    inboundMappedKey (pre ++ f :: post) renames key = f.Name ∧
    (∀ val, _nodeRepr.LookupByString (.struct name (pre ++ f :: post) (.Map renames)) val key
      = (_node.LookupByString (.struct name (pre ++ f :: post) (.Map renames)) val f.Name
          >>= fun v => pure (reprNode v))) ∧
    (∀ w, _structAssemblerRepr.AssembleValue (.struct name (pre ++ f :: post) (.Map renames))
        w key
      = _structAssembler.AssembleValue w (pre ++ f :: post) f.Name) ∧
    (∀ g ∈ post, g.Name ≠ f.Name →
      inboundMappedKey (pre ++ f :: post) renames key ≠ g.Name) ∧
    (∀ (fields : List StructField) (k : String),
      (∀ g ∈ fields, GetFieldKey renames g.Name ≠ k) →
      inboundMappedKey fields renames k = k ∧
      (∀ val, _nodeRepr.LookupByString (.struct name fields (.Map renames)) val k
        = (_node.LookupByString (.struct name fields (.Map renames)) val k
            >>= fun v => pure (reprNode v))) ∧
      (∀ w, _structAssemblerRepr.AssembleValue (.struct name fields (.Map renames)) w k
        = _structAssembler.AssembleValue w fields k)) ∧
    (∀ (table : List (String × String)) (preM postM : List SType) (M : SType) (d : String),
      GetDiscriminant table M.Name = Except.ok d →
      (∀ m ∈ preM, ∃ dm, GetDiscriminant table m.Name = Except.ok dm ∧ dm ≠ d) →
      inboundMappedType (preM ++ M :: postM) table d = Except.ok M.Name) ∧
    (∀ (table : List (String × String)) (members : List SType) (k : String),
      (∀ m ∈ members, ∃ dm, GetDiscriminant table m.Name = Except.ok dm ∧ dm ≠ k) →
      inboundMappedType members table k = Except.ok k) := by
  have h := inboundMappedKey_first renames f post key hf pre hpre
  refine ⟨h, ?_, ?_, ?_, ?_, ?_, ?_⟩
  · intro val
    simp only [_nodeRepr.LookupByString, reprStrategy, SType.Fields, pure_eq_ok, bind_ok, h]
  · intro w
    simp only [_structAssemblerRepr.AssembleValue, reprStrategy, SType.Fields, pure_eq_ok,
      bind_ok, h]
  · intro g _ hne
    rw [h]
    exact fun e => hne e.symm
  · intro fields k hk
    have h2 := inboundMappedKey_fallback renames k fields hk
    refine ⟨h2, ?_, ?_⟩
    · intro val
      simp only [_nodeRepr.LookupByString, reprStrategy, SType.Fields, pure_eq_ok, bind_ok, h2]
    · intro w
      simp only [_structAssemblerRepr.AssembleValue, reprStrategy, SType.Fields, pure_eq_ok,
        bind_ok, h2]
  · intro table preM postM M d hM hpreM
    exact inboundMappedType_split table M d postM hM preM hpreM
  · intro table members k hk
    exact inboundMappedType_fallback table k members hk

/-- C31 (witness): in `struct S { a String b String }` with both `a` and `b` renamed to
`x`, the key `x` maps to `a`, not to `b`, and the lookup of `x` on the representation
view gives the field `a`; the name `a`, which is no field's serial key, maps to itself
and the lookup of `a` gives the field `a` too. -/
theorem C31_inbound_first_match_witness :
    inboundMappedKey [.mk "a" (.string "String") false false,
        .mk "b" (.string "String") false false] [("a", "x"), ("b", "x")] "x" = "a" ∧
    inboundMappedKey [.mk "a" (.string "String") false false,
        .mk "b" (.string "String") false false] [("a", "x"), ("b", "x")] "x" ≠ "b" ∧
    _nodeRepr.LookupByString
        (.struct "S" [.mk "a" (.string "String") false false,
          .mk "b" (.string "String") false false] (.Map [("a", "x"), ("b", "x")]))
        (Val.struct [Val.string "1", Val.string "2"]) "x"
      = Except.ok (Node.repr (.string "String") (Val.string "1")) ∧
    inboundMappedKey [.mk "a" (.string "String") false false,
        .mk "b" (.string "String") false false] [("a", "x"), ("b", "x")] "a" = "a" ∧
    _nodeRepr.LookupByString
        (.struct "S" [.mk "a" (.string "String") false false,
          .mk "b" (.string "String") false false] (.Map [("a", "x"), ("b", "x")]))
        (Val.struct [Val.string "1", Val.string "2"]) "a"
      = Except.ok (Node.repr (.string "String") (Val.string "1")) :=
  have h := C31_inbound_first_match "S" []
    [.mk "b" (.string "String") false false] (.mk "a" (.string "String") false false)
    [("a", "x"), ("b", "x")] "x" (by intro g hg; cases hg) (by decide)
  have h5 := h.2.2.2.2.1 [.mk "a" (.string "String") false false,
      .mk "b" (.string "String") false false] "a"
    (by
      intro g hg
      simp only [List.mem_cons, List.mem_singleton, List.not_mem_nil, or_false] at hg
      rcases hg with rfl | rfl <;> decide)
  ⟨h.1,
    h.2.2.2.1 (.mk "b" (.string "String") false false) (List.mem_cons_self _ _) (by decide),
    (h.2.1 (Val.struct [Val.string "1", Val.string "2"])).trans rfl,
    h5.1,
    (h5.2.1 (Val.struct [Val.string "1", Val.string "2"])).trans rfl⟩
end Bindnode

namespace Schemadsl

/-! ## The tokenizer on the shapes of text that the statements use -/

theorem nameByte_class (b : Char) (h : isNameByte b = true) :
    ¬ (b = ' ' ∨ b = '\t' ∨ b = '\r') ∧ b ≠ '\n' ∧ b ≠ '"' ∧
      ['{', '}', '[', ']', '(', ')', ':', '&'].contains b = false ∧ b ≠ '#' := by
  refine ⟨?_, ?_, ?_, ?_, ?_⟩
  · rintro (rfl | rfl | rfl) <;> exact absurd h (by decide)
  · rintro rfl; exact absurd h (by decide)
  · rintro rfl; exact absurd h (by decide)
  · cases hc : ['{', '}', '[', ']', '(', ')', ':', '&'].contains b
    · rfl
    · exfalso
      simp only [List.contains_eq_any_beq, List.any_cons, List.any_nil, Bool.or_false,
        Bool.or_eq_true, beq_iff_eq] at hc
      rcases hc with rfl | rfl | rfl | rfl | rfl | rfl | rfl | rfl <;>
        exact absurd h (by decide)
  · rintro rfl; exact absurd h (by decide)

theorem nameLoop_name (t : Char) (rest : List Char) (ht : isNameByte t = false) :
    ∀ (cs sb : List Char), (∀ c ∈ cs, isNameByte c = true) →
      nameLoop sb (cs ++ t :: rest) = some (sb ++ cs, t :: rest) := by
  intro cs
  induction cs with
  | nil => intro sb _; simp [nameLoop, ht]
  | cons c cs ih =>
    intro sb h
    have hc : isNameByte c = true := h c (List.mem_cons_self _ _)
    simp only [List.cons_append, nameLoop, hc, if_true, List.append_eq]
    rw [ih (sb ++ [c]) (fun x hx => h x (List.mem_cons_of_mem _ hx))]
    simp

/-- A name followed by a byte that does not continue it is one token. -/
theorem consumeLoop_name (path : String) (N : List Char) (t : Char) (rest : List Char)
    (line col : Nat) (hne : N ≠ []) (hN : ∀ c ∈ N, isNameByte c = true)
    (ht : isNameByte t = false) :
    consumeLoop path (N ++ t :: rest) false line col
      = .ok (String.mk N, t :: rest, line, col + 1) := by
  cases N with
  | nil => exact absurd rfl hne
  | cons b cs =>
    obtain ⟨h1, h2, h3, h4, h5⟩ := nameByte_class b (hN b (List.mem_cons_self _ _))
    simp only [List.cons_append, consumeLoop, h1, h2, h3, h4, h5, if_false,
      Bool.false_eq_true, List.append_eq]
    rw [nameLoop_name t rest ht cs [b] (fun x hx => hN x (List.mem_cons_of_mem _ hx))]
    rfl

/-- The byte `|` followed by a byte that continues no name is the token `|`. -/
theorem consumeLoop_bar (path : String) (t : Char) (rest : List Char) (line col : Nat)
    (ht : isNameByte t = false) :
    consumeLoop path ('|' :: t :: rest) false line col
      = .ok ("|", t :: rest, line, col + 1) := by
  have h1 : ¬ ('|' = ' ' ∨ '|' = '\t' ∨ '|' = '\r') := by decide
  have h2 : ['{', '}', '[', ']', '(', ')', ':', '&'].contains '|' = false := by decide
  simp only [consumeLoop, h1, h2, if_false, Bool.false_eq_true, nameLoop, ht,
    show ('|' = '\n') = False from by decide, show ('|' = '"') = False from by decide,
    show ('|' = '#') = False from by decide]

/-- A quoted string is one token, with its quotes. -/
theorem consumeLoop_quoted (path : String) (d rest : List Char) (line col : Nat)
    (hd : '"' ∉ d) :
    consumeLoop path ('"' :: (d ++ '"' :: rest)) false line col
      = .ok (String.mk ('"' :: (d ++ ['"'])), rest, line, col + 1) := by
  have hread : ∀ (d : List Char), '"' ∉ d →
      ReadString '"' (d ++ '"' :: rest) = some (d ++ ['"'], rest) := by
    intro d
    induction d with
    | nil => intro _; simp [ReadString]
    | cons c d ih =>
      intro h
      have hc : c ≠ '"' := fun e => h (by rw [e]; exact List.mem_cons_self _ _)
      have hd2 : '"' ∉ d := fun e => h (List.mem_cons_of_mem _ e)
      simp only [List.cons_append, ReadString, hc, if_false, List.append_eq, ih hd2]
  have h1 : ¬ ('"' = ' ' ∨ '"' = '\t' ∨ '"' = '\r') := by decide
  simp only [consumeLoop, h1, if_false, show ('"' = '\n') = False from by decide, if_true,
    hread d hd]
  rfl

theorem consumeLoop_space (path : String) (rest : List Char) (line col : Nat) :
    consumeLoop path (' ' :: rest) false line col
      = consumeLoop path rest false line (col + 1) := by
  simp [consumeLoop]

theorem consumeLoop_open (path : String) (rest : List Char) (line col : Nat) :
    consumeLoop path ('{' :: rest) false line col = .ok ("\x7b", rest, line, col + 1) := by
  have h1 : ¬ ('{' = ' ' ∨ '{' = '\t' ∨ '{' = '\r') := by decide
  have h2 : ['{', '}', '[', ']', '(', ')', ':', '&'].contains '{' = true := by decide
  simp only [consumeLoop, h1, h2, if_false, if_true, show ('{' = '\n') = False from by decide,
    show ('{' = '"') = False from by decide]

theorem consumeLoop_close (path : String) (rest : List Char) (line col : Nat) :
    consumeLoop path ('}' :: rest) false line col = .ok ("\x7d", rest, line, col + 1) := by
  have h1 : ¬ ('}' = ' ' ∨ '}' = '\t' ∨ '}' = '\r') := by decide
  have h2 : ['{', '}', '[', ']', '(', ')', ':', '&'].contains '}' = true := by decide
  simp only [consumeLoop, h1, h2, if_false, if_true, show ('}' = '\n') = False from by decide,
    show ('}' = '"') = False from by decide]

/-- Blank text to the end of the input gives `io.EOF`. -/
theorem consumeLoop_blank (path : String) :
    ∀ (text : List Char) (line col : Nat), IsBlank text →
      consumeLoop path text false line col = .error .EOF := by
  intro text
  induction text with
  | nil => intro line col _; rfl
  | cons c text ih =>
    intro line col h
    have hrest : IsBlank text := fun x hx => h x (List.mem_cons_of_mem _ hx)
    rcases h c (List.mem_cons_self _ _) with rfl | rfl | rfl | rfl
    · simp only [consumeLoop, true_or, if_true]
      exact ih _ _ hrest
    · simp only [consumeLoop, true_or, or_true, if_true]
      exact ih _ _ hrest
    · simp only [consumeLoop, or_true, if_true]
      exact ih _ _ hrest
    · have h1 : ¬ ('\n' = ' ' ∨ '\n' = '\t' ∨ '\n' = '\r') := by decide
      simp only [consumeLoop, h1, if_false, if_true]
      exact ih _ _ hrest
/-! ## C25 to C29: the parser at concrete sources -/

/-- C25 (the code at the failing input): `type Foo struct { x optional Int (implicit 3) } `
parses to a struct with the one field `x`, optional, of type `Int`, with Map
representation, but the implicit value of `x` is the empty `AnyScalar`: the integer `3`
is dropped, `Int` is not set.  The booleans are taken: `(implicit true)` gives
`Bool = true`. -/
theorem C25_implicit_int_dropped :
    Parse noEscapes "" "type Foo struct \x7b x optional Int (implicit 3) \x7d "
      = Except.ok { Types := { Keys := ["Foo"], Values := [("Foo", TypeDefn.TypeDefnStruct
          { Fields := { Keys := ["x"], Values := [("x",
              { TypeRef := .TypeName "Int", Optional := some true, Nullable := none })] },
            Representation := .StructRepresentation_Map { Keys := ["x"], Values := [("x",
              { Rename := none, Implicit := some AnyScalar.zero })] } })] } } ∧
    AnyScalar.zero.Int = none ∧
    Parse noEscapes "" "type Foo struct \x7b x optional Bool (implicit true) \x7d "
      = Except.ok { Types := { Keys := ["Foo"], Values := [("Foo", TypeDefn.TypeDefnStruct
          { Fields := { Keys := ["x"], Values := [("x",
              { TypeRef := .TypeName "Bool", Optional := some true, Nullable := none })] },
            Representation := .StructRepresentation_Map { Keys := ["x"], Values := [("x",
              { Rename := none,
                Implicit := some { AnyScalar.zero with Bool := some true } })] } })] } } := by
  decide!

/-- C26 (the code at the failing input): a source with two declarations of the type `A`
is parsed without error; the name is twice in the keys, and the later declaration is
the value. -/
theorem C26_duplicate_type_names_accepted :
    Parse noEscapes "" "type A bool\ntype A int\n"
      = Except.ok { Types := { Keys := ["A", "A"], Values := [("A", TypeDefn.TypeDefnInt)] } } := by
  decide!

/-- C27 (the code at the failing input): the tokenizer gives `|A` and `=Foo` as one
token each, not `|` and `=` followed by the name, and the union written `|A "a"` is
rejected, while the same union with a space after `|` is parsed. -/
theorem C27_bar_and_equals_join_the_name :
    parser.consumeToken
        { path := "", br := "|A \"a\"".data, peekedToken := "", line := 1, col := 1 }
      = Except.ok ("|A",
          { path := "", br := " \"a\"".data, peekedToken := "", line := 1, col := 2 }) ∧
    parser.consumeToken
        { path := "", br := "=Foo ".data, peekedToken := "", line := 1, col := 1 }
      = Except.ok ("=Foo",
          { path := "", br := " ".data, peekedToken := "", line := 1, col := 2 }) ∧
    Parse noEscapes "" "type U union \x7b |A \"a\" \x7d representation keyed "
      = Except.error (ParseError.positioned "" 1 10 "expected %q or %q, got %q"
          ["\x7d", "|", "|A"]) ∧
    Parse noEscapes "" "type U union \x7b | A \"a\" \x7d representation keyed "
      = Except.ok { Types := { Keys := ["U"], Values := [("U", TypeDefn.TypeDefnUnion
          { Members := [.TypeName "A"],
            Representation := .UnionRepresentation_Keyed
              { Keys := ["a"], Values := [("a", .TypeName "A")] } })] } } := by
  decide!

/-- C28 (the code at the failing input): a kinded union whose member `Foo` has the
discriminant `bogus`, which names no kind, is parsed without error, with `bogus` as the
key of the member. -/
theorem C28_kinded_discriminant_not_checked :
    Parse noEscapes "" "type U union \x7b | Foo bogus \x7d representation kinded "
      = Except.ok { Types := { Keys := ["U"], Values := [("U", TypeDefn.TypeDefnUnion
          { Members := [.TypeName "Foo"],
            Representation := .UnionRepresentation_Kinded
              { Keys := ["bogus"], Values := [("bogus", .TypeName "Foo")] } })] } } := by
  decide!

/-- C29 (the code at the failing input): the source `type Foo bool` with nothing after
it is rejected, the end of the input inside the token `bool` being an error; followed by
a newline or a space it parses to the one type `Foo` with the variant `bool`. -/
theorem C29_scalar_at_end_of_input_rejected :
    Parse noEscapes "" "type Foo bool"
      = Except.error (ParseError.positioned "" 1 6 "EOF" []) ∧
    Parse noEscapes "" "type Foo bool\n"
      = Except.ok { Types := { Keys := ["Foo"], Values := [("Foo", TypeDefn.TypeDefnBool)] } } ∧
    Parse noEscapes "" "type Foo bool "
      = Except.ok { Types := { Keys := ["Foo"], Values := [("Foo", TypeDefn.TypeDefnBool)] } } := by
  decide!
/-! ## C30: the declaration of a keyed union -/

theorem name_not_punctuation (N : String) (hN : IsName N) :
    ["\"", "\x7b", "\x7d", "[", "]", "(", ")", ":"].contains N = false := by
  cases hc : ["\"", "\x7b", "\x7d", "[", "]", "(", ")", ":"].contains N
  · rfl
  · exfalso
    simp only [List.contains_eq_any_beq, List.any_cons, List.any_nil, Bool.or_false,
      Bool.or_eq_true, beq_iff_eq] at hc
    have h := hN.2
    rcases hc with rfl | rfl | rfl | rfl | rfl | rfl | rfl | rfl
    · exact absurd (h '"' (by decide)) (by decide)
    · exact absurd (h '{' (by decide)) (by decide)
    · exact absurd (h '}' (by decide)) (by decide)
    · exact absurd (h '[' (by decide)) (by decide)
    · exact absurd (h ']' (by decide)) (by decide)
    · exact absurd (h '(' (by decide)) (by decide)
    · exact absurd (h ')' (by decide)) (by decide)
    · exact absurd (h ':' (by decide)) (by decide)

theorem consumeToken_eq (path : String) (br : List Char) (line col : Nat) :
    parser.consumeToken { path := path, br := br, peekedToken := "", line := line, col := col }
      = (match consumeLoop path br false line col with
          | .error e => .error e
          | .ok (tok, left, l2, c2) =>
            .ok (tok, { path := path, br := left, peekedToken := "", line := l2, col := c2 })) := by
  simp only [parser.consumeToken, ne_eq, not_true_eq_false, if_false]

/-- A space and a name followed by a byte that does not continue it, read by
`consumeToken`. -/
theorem consumeToken_name (path : String) (N : String) (t : Char) (rest : List Char)
    (line col : Nat) (hN : IsName N) (ht : isNameByte t = false) :
    parser.consumeToken
        { path := path, br := ' ' :: (N.data ++ t :: rest), peekedToken := "", line := line,
            col := col }
      = .ok (N,
          { path := path, br := t :: rest, peekedToken := "", line := line, col := col + 2 }) := by
  rw [consumeToken_eq, consumeLoop_space, consumeLoop_name path N.data t rest line (col + 1)
    hN.1 hN.2 ht]

/-- The same for `consumeName`. -/
theorem consumeName_name (path : String) (N : String) (t : Char) (rest : List Char)
    (line col : Nat) (hN : IsName N) (ht : isNameByte t = false) :
    parser.consumeName
        { path := path, br := ' ' :: (N.data ++ t :: rest), peekedToken := "", line := line,
            col := col }
      = .ok (N,
          { path := path, br := t :: rest, peekedToken := "", line := line, col := col + 2 }) := by
  rw [parser.consumeName, consumeToken_name path N t rest line col hN ht]
  simp only [name_not_punctuation N hN, Bool.false_eq_true, if_false]
  obtain ⟨hne, hall⟩ := hN
  cases hd : N.data with
  | nil => exact absurd hd hne
  | cons c cs =>
    have hc : c ≠ '"' := by
      intro e
      have := hall c (by rw [hd]; exact List.mem_cons_self _ _)
      rw [e] at this
      exact absurd this (by decide)
    simp only [hc, if_false]

theorem blank_not_nameByte (t : Char) (h : t = ' ' ∨ t = '\t' ∨ t = '\r' ∨ t = '\n') :
    isNameByte t = false := by
  rcases h with rfl | rfl | rfl | rfl <;> decide

/-- The member loop of `typeUnion` on the members as written and the closing brace. -/
theorem typeUnion_members_text (path : String) :
    ∀ (ms : List MemberDecl) (fuel : Nat) (members : List UnionMember) (keys : List String)
      (rest : List Char) (line col : Nat),
      ms.length < fuel →
      (∀ m ∈ ms, IsName m.name ∧ '"' ∉ m.disc.data) →
      parser.typeUnion_members fuel
          { path := path, br := unionMembersText ms ++ ' ' :: '}' :: rest, peekedToken := "",
              line := line, col := col } members keys
        = .ok (members ++ ms.map (fun m => UnionMember.TypeName m.name),
            keys ++ ms.map (fun m => quoted m.disc),
            { path := path, br := rest, peekedToken := "", line := line,
                col := col + 6 * ms.length + 2 }) := by
  intro ms
  induction ms with
  | nil =>
    intro fuel members keys rest line col hfuel _
    cases fuel with
    | zero => simp at hfuel
    | succ fuel =>
      simp only [unionMembersText, List.nil_append, parser.typeUnion_members, consumeToken_eq,
        consumeLoop_space, consumeLoop_close, if_true, List.map_nil, List.append_nil,
        List.length_nil, Nat.mul_zero, Nat.add_zero]
  | cons m ms ih =>
    intro fuel members keys rest line col hfuel hms
    cases fuel with
    | zero => simp at hfuel
    | succ fuel =>
      obtain ⟨hname, hdisc⟩ := hms m (List.mem_cons_self _ _)
      have hbar : ("|" = "\x7d") = False := by decide
      rw [parser.typeUnion_members]
      simp only [unionMembersText, List.cons_append, List.append_assoc, consumeToken_eq,
        consumeLoop_space]
      rw [consumeLoop_bar path ' ' _ line (col + 1) (by decide)]
      simp only [hbar, if_false, ne_eq, not_true_eq_false]
      rw [consumeName_name path m.name ' ' _ line (col + 1 + 1) hname (by decide)]
      simp only [consumeToken_eq, consumeLoop_space]
      rw [consumeLoop_quoted path m.disc.data _ line (col + 1 + 1 + 2 + 1) hdisc]
      simp only []
      rw [ih fuel _ _ rest line _ (by simpa using hfuel)
        (fun x hx => hms x (List.mem_cons_of_mem _ hx))]
      simp only [List.map_cons, List.append_assoc, List.singleton_append, List.length_cons,
        quoted, List.cons_append, List.nil_append]
      have e : col + 1 + 1 + 2 + 1 + 1 + 6 * ms.length + 2 = col + 6 * (ms.length + 1) + 2 := by
        omega
      rw [e]

theorem mapSet_new {V : Type} (k : String) (v : V) :
    ∀ (values : List (String × V)), k ∉ values.map Prod.fst →
      mapSet values k v = values ++ [(k, v)] := by
  intro values
  induction values with
  | nil => intro _; rfl
  | cons kv values ih =>
    intro h
    obtain ⟨k2, v2⟩ := kv
    have hk : k2 ≠ k := fun e => h (by simp [e])
    have hrest : k ∉ values.map Prod.fst := fun e => h (by simp [e])
    simp only [mapSet, hk, if_false, ih hrest, List.cons_append]

/-- The loop of the keyed representation over members with distinct keys. -/
theorem typeUnion_keyed_text (escaped : String → Option String) (p : parser) :
    ∀ (ms done : List MemberDecl),
      (∀ m ∈ ms, strconv.Unquote escaped (quoted m.disc) = some m.key) →
      ((done ++ ms).map MemberDecl.key).Nodup →
      typeUnion_keyed escaped p (ms.map fun m => quoted m.disc)
          (ms.map fun m => UnionMember.TypeName m.name)
          { Keys := done.map MemberDecl.key,
              Values := done.map fun m => (m.key, UnionMember.TypeName m.name) }
        = .ok { Keys := (done ++ ms).map MemberDecl.key,
                  Values := (done ++ ms).map fun m => (m.key, UnionMember.TypeName m.name) } := by
  intro ms
  induction ms with
  | nil => intro done _ _; simp [typeUnion_keyed]
  | cons m ms ih =>
    intro done hq hnodup
    have hnew : m.key ∉ (done.map fun x => (x.key, UnionMember.TypeName x.name)).map Prod.fst := by
      intro hmem
      rw [List.map_append, List.map_cons] at hnodup
      have := (List.nodup_append.1 hnodup).2.2
      refine this ?_ (List.mem_cons_self _ _)
      simpa [List.map_map, Function.comp_def] using hmem
    have e : done ++ m :: ms = (done ++ [m]) ++ ms := by simp
    simp only [List.map_cons, typeUnion_keyed, hq m (List.mem_cons_self _ _), mapAppend,
      mapSet_new _ _ _ hnew]
    have := ih (done ++ [m]) (fun x hx => hq x (List.mem_cons_of_mem _ hx))
      (by rw [← e]; exact hnodup)
    simp only [List.map_append, List.map_cons, List.map_nil] at this
    rw [this, e]
    simp only [List.map_append, List.map_cons, List.map_nil]

theorem unionMembersText_length :
    ∀ (ms : List MemberDecl), ms.length ≤ (unionMembersText ms).length := by
  intro ms
  induction ms with
  | nil => simp
  | cons m ms ih =>
    simp only [unionMembersText, List.length_cons, List.length_append]
    omega

/-- The end of `typeUnion` on ` representation keyed` followed by blank text. -/
theorem typeUnion_representation_text (escaped : String → Option String) (path : String)
    (ms : List MemberDecl) (t : Char) (rest : List Char) (line col : Nat)
    (ht : isNameByte t = false)
    (hq : ∀ m ∈ ms, strconv.Unquote escaped (quoted m.disc) = some m.key)
    (hnodup : (ms.map MemberDecl.key).Nodup) :
    parser.typeUnion_representation escaped
        { path := path, br := ' ' :: ("representation".data ++ ' ' :: ("keyed".data ++ t :: rest)),
            peekedToken := "", line := line, col := col }
        (ms.map fun m => UnionMember.TypeName m.name) (ms.map fun m => quoted m.disc)
      = .ok ({ Members := ms.map fun m => UnionMember.TypeName m.name,
               Representation := .UnionRepresentation_Keyed
                 { Keys := ms.map MemberDecl.key,
                   Values := ms.map fun m => (m.key, UnionMember.TypeName m.name) } },
          { path := path, br := t :: rest, peekedToken := "", line := line, col := col + 4 }) := by
  have hname1 : IsName "representation" := ⟨by decide, by decide⟩
  have hname2 : IsName "keyed" := ⟨by decide, by decide⟩
  rw [parser.typeUnion_representation, parser.consumeRequired,
    consumeToken_name path "representation" ' ' _ line col hname1 (by decide)]
  simp only [ne_eq, not_true_eq_false, if_false]
  rw [consumeName_name path "keyed" t rest line (col + 2) hname2 ht]
  simp only [if_true]
  have := typeUnion_keyed_text escaped
    { path := path, br := t :: rest, peekedToken := "", line := line, col := col + 2 + 2 }
    ms [] hq (by simpa using hnodup)
  simp only [List.map_nil, List.nil_append] at this
  rw [this]

/-- Go `parser.typeUnion` on the members as written, the closing brace and
` representation keyed`. -/
theorem typeUnion_text (escaped : String → Option String) (path : String)
    (ms : List MemberDecl) (fuel : Nat) (t : Char) (rest : List Char) (line col : Nat)
    (hfuel : ms.length < fuel) (ht : isNameByte t = false)
    (hms : ∀ m ∈ ms, IsName m.name ∧ '"' ∉ m.disc.data)
    (hq : ∀ m ∈ ms, strconv.Unquote escaped (quoted m.disc) = some m.key)
    (hnodup : (ms.map MemberDecl.key).Nodup) :
    parser.typeUnion escaped fuel
        { path := path,
            br := unionMembersText ms ++ ' ' :: '}' :: ' ' ::
              ("representation".data ++ ' ' :: ("keyed".data ++ t :: rest)),
            peekedToken := "", line := line, col := col }
      = .ok ({ Members := ms.map fun m => UnionMember.TypeName m.name,
               Representation := .UnionRepresentation_Keyed
                 { Keys := ms.map MemberDecl.key,
                   Values := ms.map fun m => (m.key, UnionMember.TypeName m.name) } },
          { path := path, br := t :: rest, peekedToken := "", line := line,
              col := col + 6 * ms.length + 2 + 4 }) := by
  rw [parser.typeUnion, typeUnion_members_text path ms fuel [] [] _ line col hfuel hms]
  simp only [List.nil_append]
  rw [typeUnion_representation_text escaped path ms t rest line _ ht hq hnodup]

/-- Go `parser.typeDefn` on ` union {` and the body of a keyed union. -/
theorem typeDefn_text (escaped : String → Option String) (path : String)
    (ms : List MemberDecl) (fuel : Nat) (t : Char) (rest : List Char) (line col : Nat)
    (hfuel : ms.length < fuel) (ht : isNameByte t = false)
    (hms : ∀ m ∈ ms, IsName m.name ∧ '"' ∉ m.disc.data)
    (hq : ∀ m ∈ ms, strconv.Unquote escaped (quoted m.disc) = some m.key)
    (hnodup : (ms.map MemberDecl.key).Nodup) :
    parser.typeDefn escaped fuel
        { path := path,
            br := ' ' :: ("union".data ++ ' ' :: '{' :: (unionMembersText ms ++ ' ' :: '}' ::
              ' ' :: ("representation".data ++ ' ' :: ("keyed".data ++ t :: rest)))),
            peekedToken := "", line := line, col := col }
      = .ok (.TypeDefnUnion
          { Members := ms.map fun m => UnionMember.TypeName m.name,
            Representation := .UnionRepresentation_Keyed
              { Keys := ms.map MemberDecl.key,
                Values := ms.map fun m => (m.key, UnionMember.TypeName m.name) } },
          { path := path, br := t :: rest, peekedToken := "", line := line,
              col := col + 2 + 2 + 6 * ms.length + 2 + 4 }) := by
  have hname : IsName "union" := ⟨by decide, by decide⟩
  have h1 : ("union" = "struct") = False := by decide
  rw [parser.typeDefn, consumeToken_name path "union" ' ' _ line col hname (by decide)]
  simp only [h1, if_false, if_true, parser.consumeRequired, consumeToken_eq, consumeLoop_space,
    consumeLoop_open, ne_eq, not_true_eq_false]
  rw [typeUnion_text escaped path ms fuel t rest line _ hfuel ht hms hq hnodup]

/-- The loop of `Parse` on blank text. -/
theorem Parse_loop_blank (escaped : String → Option String) (path : String) (fuel : Nat)
    (text : List Char) (line col : Nat) (sch : Schema) (h : IsBlank text) :
    Parse_loop escaped (fuel + 1)
        { path := path, br := text, peekedToken := "", line := line, col := col } sch
      = .ok sch := by
  rw [Parse_loop, consumeToken_eq, consumeLoop_blank path text line col h]

/-- Go `Parse` on the declaration of a keyed union followed by blank text. -/
theorem Parse_keyedUnionText (escaped : String → Option String) (path : String) (U : String)
    (ms : List MemberDecl) (tail : List Char)
    (hU : IsName U)
    (hms : ∀ m ∈ ms, IsName m.name ∧ '"' ∉ m.disc.data)
    (hq : ∀ m ∈ ms, strconv.Unquote escaped (quoted m.disc) = some m.key)
    (hnodup : (ms.map MemberDecl.key).Nodup)
    (htail : tail ≠ []) (hblank : IsBlank tail) :
    Parse escaped path (keyedUnionText U ms tail)
      = .ok { Types := { Keys := [U], Values := [(U, .TypeDefnUnion
          { Members := ms.map fun m => UnionMember.TypeName m.name,
            Representation := .UnionRepresentation_Keyed
              { Keys := ms.map MemberDecl.key,
                Values := ms.map fun m => (m.key, UnionMember.TypeName m.name) } })] } } := by
  cases tail with
  | nil => exact absurd rfl htail
  | cons t rest =>
    have ht : isNameByte t = false := blank_not_nameByte t (hblank t (List.mem_cons_self _ _))
    have hlen : ms.length ≤ (keyedUnionText U ms (t :: rest)).length := by
      have := unionMembersText_length ms
      simp only [keyedUnionText, String.length_mk, List.length_append, List.length_cons]
      omega
    have htype : IsName "type" := ⟨by decide, by decide⟩
    rw [Parse]
    generalize (keyedUnionText U ms (t :: rest)).length = L at hlen
    have hfuel : 2 * L + 8 = (2 * L + 6 + 1) + 1 := by omega
    rw [hfuel, Parse_loop]
    simp only [keyedUnionText, consumeToken_eq]
    rw [consumeLoop_name path "type".data ' ' _ 1 1 htype.1 htype.2 (by decide)]
    simp only [if_true]
    rw [consumeName_name path U ' ' _ 1 _ hU (by decide)]
    simp only []
    rw [typeDefn_text escaped path ms _ t rest 1 _ (by omega) ht hms hq hnodup]
    simp only []
    rw [Parse_loop_blank escaped path _ (t :: rest) 1 _ _ hblank]
    rfl

/-- A union body after which the tokenizer fails, or gives a token other than
`representation`, is an error of `typeUnion`. -/
theorem typeUnion_requires_representation (escaped : String → Option String) (fuel : Nat)
    (p p1 : parser) (members : List UnionMember) (reprKeys : List String)
    (hbody : parser.typeUnion_members fuel p [] [] = .ok (members, reprKeys, p1)) :
    match p1.consumeToken with
    | .error e => parser.typeUnion escaped fuel p = .error e
    | .ok (got, p2) =>
      got ≠ "representation" →
        parser.typeUnion escaped fuel p
          = .error (p2.errf "expected %q, got %q" ["representation", got]) := by
  rw [parser.typeUnion, hbody]
  simp only [parser.typeUnion_representation, parser.consumeRequired]
  cases p1.consumeToken with
  | error e => rfl
  | ok r =>
    obtain ⟨got, p2⟩ := r
    intro hne
    simp only [ne_eq, hne, not_false_eq_true, if_true]

/-- C30: for every name `U`, every list of members `| Mi "di"` whose names are names,
whose discriminants have no quote inside and unquote to pairwise distinct keys, and every
non-empty blank text after it, `Parse` of
`type U union { | M1 "d1" ... | Mn "dn" } representation keyed` gives the schema with
the one type `U`, a union whose members are `M1..Mn` in the order declared and whose
Keyed representation has the unquoted discriminants as keys, in the order declared,
each bound to its member.  And when, after the body of a union, the tokenizer fails or
gives a token other than `representation`, `typeUnion` fails: with the error of the
tokenizer, or with `expected "representation", got` the token. -/
theorem C30_keyed_union_members_and_keys (escaped : String → Option String)
    (path U : String) (ms : List MemberDecl) (tail : List Char)
    (hU : IsName U)
    (hms : ∀ m ∈ ms, IsName m.name ∧ '"' ∉ m.disc.data)
    (hq : ∀ m ∈ ms, strconv.Unquote escaped (quoted m.disc) = some m.key)
    (hnodup : (ms.map MemberDecl.key).Nodup)
    (htail : tail ≠ []) (hblank : IsBlank tail) :
    Parse escaped path (keyedUnionText U ms tail)
      = .ok { Types := { Keys := [U], Values := [(U, .TypeDefnUnion
          { Members := ms.map fun m => UnionMember.TypeName m.name,
            Representation := .UnionRepresentation_Keyed
              { Keys := ms.map MemberDecl.key,
                Values := ms.map fun m => (m.key, UnionMember.TypeName m.name) } })] } } ∧
    ∀ (fuel : Nat) (p p1 : parser) (members : List UnionMember) (reprKeys : List String),
      parser.typeUnion_members fuel p [] [] = .ok (members, reprKeys, p1) →
      match p1.consumeToken with
      | .error e => parser.typeUnion escaped fuel p = .error e
      | .ok (got, p2) =>
        got ≠ "representation" →
          parser.typeUnion escaped fuel p
            = .error (p2.errf "expected %q, got %q" ["representation", got]) :=
  ⟨Parse_keyedUnionText escaped path U ms tail hU hms hq hnodup htail hblank,
    fun fuel p p1 members reprKeys hbody =>
      typeUnion_requires_representation escaped fuel p p1 members reprKeys hbody⟩

/-- C30 (witness): `type U union { | A "a" | B "b" } representation keyed` and a newline
parses to the union with the members `A`, `B` and the keys `a`, `b`; the body
` | A "a" } keyed ` is rejected, `keyed` standing where `representation` is required. -/
theorem C30_keyed_union_members_and_keys_witness :
    keyedUnionText "U" [⟨"A", "a", "a"⟩, ⟨"B", "b", "b"⟩] ['\n']
      = "type U union \x7b | A \"a\" | B \"b\" \x7d representation keyed\n" ∧
    Parse noEscapes "" (keyedUnionText "U" [⟨"A", "a", "a"⟩, ⟨"B", "b", "b"⟩] ['\n'])
      = .ok { Types := { Keys := ["U"], Values := [("U", .TypeDefnUnion
          { Members := [.TypeName "A", .TypeName "B"],
            Representation := .UnionRepresentation_Keyed
              { Keys := ["a", "b"],
                Values := [("a", .TypeName "A"), ("b", .TypeName "B")] } })] } } ∧
    parser.typeUnion noEscapes 3
        { path := "", br := " | A \"a\" \x7d keyed ".data, peekedToken := "", line := 1, col := 1 }
      = .error (.positioned "" 1 11 "expected %q, got %q" ["representation", "keyed"]) :=
  have h := C30_keyed_union_members_and_keys noEscapes "" "U"
    [⟨"A", "a", "a"⟩, ⟨"B", "b", "b"⟩] ['\n']
    ⟨by decide, by decide⟩
    (by
      intro m hm
      simp only [List.mem_cons, List.mem_singleton, List.not_mem_nil, or_false] at hm
      rcases hm with rfl | rfl <;> exact ⟨⟨by decide, by decide⟩, by decide⟩)
    (by
      intro m hm
      simp only [List.mem_cons, List.mem_singleton, List.not_mem_nil, or_false] at hm
      rcases hm with rfl | rfl <;> rfl)
    (by decide) (by decide)
    (by
      intro c hc
      simp only [List.mem_singleton] at hc
      exact Or.inr (Or.inr (Or.inr hc)))
  have h2 : "keyed" ≠ "representation" →
      parser.typeUnion noEscapes 3
          { path := "", br := " | A \"a\" \x7d keyed ".data, peekedToken := "", line := 1, col := 1 }
        = .error (.positioned "" 1 11 "expected %q, got %q" ["representation", "keyed"]) :=
    h.2 3 { path := "", br := " | A \"a\" \x7d keyed ".data, peekedToken := "", line := 1, col := 1 }
      { path := "", br := " keyed ".data, peekedToken := "", line := 1, col := 9 }
      [.TypeName "A"] ["\"a\""] (by decide!)
  ⟨by decide, h.1, h2 (by decide)⟩

/-! ## C34: every run of the parser ends -/

theorem String_mk_ne_empty (l : List Char) (h : l ≠ []) : String.mk l ≠ "" := by
  intro e
  exact h (congrArg String.data e)

theorem ReadString_left (delim : Char) :
    ∀ (cs read left : List Char), ReadString delim cs = some (read, left) →
      left.length < cs.length := by
  intro cs
  induction cs with
  | nil => intro read left h; simp [ReadString] at h
  | cons b rest ih =>
    intro read left h
    rw [ReadString] at h
    by_cases hb : b = delim
    · simp only [hb, if_true, Option.some.injEq, Prod.mk.injEq] at h
      rw [← h.2]
      simp
    · simp only [hb, if_false] at h
      cases hr : ReadString delim rest with
      | none => rw [hr] at h; cases h
      | some r =>
        obtain ⟨read2, left2⟩ := r
        rw [hr] at h
        simp only [Option.some.injEq, Prod.mk.injEq] at h
        have := ih read2 left2 hr
        rw [← h.2]
        simp only [List.length_cons]
        omega

theorem nameLoop_left :
    ∀ (cs sb tok left : List Char), nameLoop sb cs = some (tok, left) →
      left.length ≤ cs.length ∧ (sb ≠ [] → tok ≠ []) := by
  intro cs
  induction cs with
  | nil => intro sb tok left h; simp [nameLoop] at h
  | cons b rest ih =>
    intro sb tok left h
    rw [nameLoop] at h
    by_cases hb : isNameByte b = true
    · simp only [hb, if_true] at h
      obtain ⟨h1, h2⟩ := ih (sb ++ [b]) tok left h
      refine ⟨?_, fun _ => h2 (by simp)⟩
      simp only [List.length_cons]
      omega
    · simp only [hb, Bool.false_eq_true, if_false, Option.some.injEq, Prod.mk.injEq] at h
      obtain ⟨rfl, rfl⟩ := h
      exact ⟨Nat.le_refl _, fun hsb => hsb⟩

/-- The read loop of the tokenizer gives a token that is not empty and leaves fewer
bytes than it was given, or fails with an error that the Go code returns. -/
theorem consumeLoop_spec (path : String) :
    ∀ (cs : List Char) (comment : Bool) (line col : Nat),
      (∀ tok left l c, consumeLoop path cs comment line col = .ok (tok, left, l, c) →
        tok ≠ "" ∧ left.length < cs.length) ∧
      (∀ e, consumeLoop path cs comment line col = .error e → e.IsReturned = true) := by
  intro cs
  induction cs with
  | nil =>
    intro comment line col
    cases comment
    · refine ⟨fun tok left l c h => ?_, fun e h => ?_⟩
      · simp [consumeLoop] at h
      · simp only [consumeLoop, Except.error.injEq] at h
        rw [← h]
        rfl
    · refine ⟨fun tok left l c h => ?_, fun e h => ?_⟩
      · simp [consumeLoop] at h
      · simp only [consumeLoop, Except.error.injEq] at h
        rw [← h]
        rfl
  | cons b rest ih =>
    intro comment line col
    have hstep : ∀ (cm : Bool) (l2 c2 : Nat),
        (∀ tok left l c, consumeLoop path rest cm l2 c2 = .ok (tok, left, l, c) →
          tok ≠ "" ∧ left.length < (b :: rest).length) ∧
        (∀ e, consumeLoop path rest cm l2 c2 = .error e → e.IsReturned = true) := by
      intro cm l2 c2
      refine ⟨fun tok left l c h => ?_, (ih cm l2 c2).2⟩
      have := (ih cm l2 c2).1 tok left l c h
      refine ⟨this.1, ?_⟩
      simp only [List.length_cons]
      omega
    cases comment
    · rw [consumeLoop]
      by_cases h1 : b = ' ' ∨ b = '\t' ∨ b = '\r'
      · simp only [h1, if_true]
        exact hstep _ _ _
      · simp only [h1, if_false]
        by_cases h2 : b = '\n'
        · simp only [h2, if_true]
          exact hstep _ _ _
        · simp only [h2, if_false]
          by_cases h3 : b = '"'
          · simp only [h3, if_true]
            cases hr : ReadString '"' rest with
            | none =>
              refine ⟨fun tok left l c h => ?_, fun e h => ?_⟩
              · cases h
              · simp only [Except.error.injEq] at h
                rw [← h]
                rfl
            | some r =>
              obtain ⟨quoted, left2⟩ := r
              refine ⟨fun tok left l c h => ?_, fun e h => ?_⟩
              · simp only [Except.ok.injEq, Prod.mk.injEq] at h
                obtain ⟨rfl, rfl, _, _⟩ := h
                refine ⟨?_, ?_⟩
                · intro e
                  have := congrArg String.length e
                  simp only [String.length_append] at this
                  have h0 : "\"".length = 1 := by decide
                  have h00 : "".length = 0 := by decide
                  omega
                · have := ReadString_left '"' rest quoted left2 hr
                  simp only [List.length_cons]
                  omega
              · cases h
          · simp only [h3, if_false]
            by_cases h4 : ['\x7b', '\x7d', '[', ']', '(', ')', ':', '&'].contains b = true
            · simp only [h4, if_true]
              refine ⟨fun tok left l c h => ?_, fun e h => ?_⟩
              · simp only [Except.ok.injEq, Prod.mk.injEq] at h
                obtain ⟨rfl, rfl, _, _⟩ := h
                exact ⟨String_mk_ne_empty _ (by simp), by simp⟩
              · cases h
            · simp only [h4, Bool.false_eq_true, if_false]
              by_cases h5 : b = '#'
              · simp only [h5, if_true]
                exact hstep _ _ _
              · simp only [h5, if_false]
                cases hr : nameLoop [b] rest with
                | none =>
                  refine ⟨fun tok left l c h => ?_, fun e h => ?_⟩
                  · cases h
                  · simp only [Except.error.injEq] at h
                    rw [← h]
                    rfl
                | some r =>
                  obtain ⟨tok2, left2⟩ := r
                  obtain ⟨hl, hne⟩ := nameLoop_left rest [b] tok2 left2 hr
                  refine ⟨fun tok left l c h => ?_, fun e h => ?_⟩
                  · simp only [Except.ok.injEq, Prod.mk.injEq] at h
                    obtain ⟨rfl, rfl, _, _⟩ := h
                    refine ⟨String_mk_ne_empty _ (hne (by simp)), ?_⟩
                    simp only [List.length_cons]
                    omega
                  · cases h
    · rw [consumeLoop]
      by_cases h2 : b = '\n'
      · simp only [h2, if_true]
        exact hstep _ _ _
      · simp only [h2, if_false]
        exact hstep _ _ _

theorem consumeToken_ok (p p2 : parser) (tok : String)
    (h : p.consumeToken = .ok (tok, p2)) :
    tok ≠ "" ∧ p2.unread < p.unread ∧ p2.peekedToken = "" := by
  rw [parser.consumeToken] at h
  by_cases hp : p.peekedToken = ""
  · simp only [hp, ne_eq, not_true_eq_false, if_false] at h
    cases hr : consumeLoop p.path p.br false p.line p.col with
    | error e => rw [hr] at h; cases h
    | ok r =>
      obtain ⟨tok2, left, l, c⟩ := r
      rw [hr] at h
      simp only [Except.ok.injEq, Prod.mk.injEq] at h
      obtain ⟨rfl, rfl⟩ := h
      obtain ⟨h1, h2⟩ := (consumeLoop_spec p.path p.br false p.line p.col).1 _ _ _ _ hr
      refine ⟨h1, ?_, rfl⟩
      simp only [parser.unread, hp, if_true]
      omega
  · simp only [ne_eq, hp, not_false_eq_true, if_true, Except.ok.injEq, Prod.mk.injEq] at h
    obtain ⟨rfl, rfl⟩ := h
    refine ⟨hp, ?_, rfl⟩
    simp only [parser.unread, hp, if_true, if_false]
    omega

theorem consumeToken_error (p : parser) (e : ParseError) (h : p.consumeToken = .error e) :
    e.IsReturned = true := by
  rw [parser.consumeToken] at h
  by_cases hp : p.peekedToken = ""
  · simp only [hp, ne_eq, not_true_eq_false, if_false] at h
    cases hr : consumeLoop p.path p.br false p.line p.col with
    | error e2 =>
      rw [hr] at h
      simp only [Except.error.injEq] at h
      rw [← h]
      exact (consumeLoop_spec p.path p.br false p.line p.col).2 _ hr
    | ok r =>
      obtain ⟨tok2, left, l, c⟩ := r
      rw [hr] at h
      cases h
  · simp only [ne_eq, hp, not_false_eq_true, if_true] at h
    cases h

theorem consumeToken_advances (p : parser) : Advances p p.consumeToken := by
  cases h : p.consumeToken with
  | error e => exact consumeToken_error p e h
  | ok r =>
    obtain ⟨tok, p2⟩ := r
    exact (consumeToken_ok p p2 tok h).2

theorem errf_returned (p : parser) (format : String) (operands : List String) :
    (p.errf format operands).IsReturned = true := rfl

/-- After `peekToken` the token is kept as the peeked one; the input left to read is not
more, and it is less when no token was peeked before. -/
theorem peekToken_ok (p p2 : parser) (tok : String) (h : p.peekToken = .ok (tok, p2)) :
    tok ≠ "" ∧ p2.peekedToken = tok ∧ p2.unread ≤ p.unread ∧
      (p.peekedToken = "" → p2.unread < p.unread) := by
  rw [parser.peekToken] at h
  by_cases hp : p.peekedToken = ""
  · simp only [hp, ne_eq, not_true_eq_false, if_false] at h
    cases hr : p.consumeToken with
    | error e => rw [hr] at h; cases h
    | ok r =>
      obtain ⟨tok2, p3⟩ := r
      rw [hr] at h
      simp only [Except.ok.injEq, Prod.mk.injEq] at h
      obtain ⟨rfl, rfl⟩ := h
      obtain ⟨h1, h2, h3⟩ := consumeToken_ok p p3 _ hr
      have h4 : ({ p3 with peekedToken := tok2 } : parser).unread + 1 ≤ p.unread := by
        simp only [parser.unread, hp, if_true, h1, if_false] at h2 ⊢
        rw [h3] at h2
        simp only [if_true] at h2
        omega
      exact ⟨h1, rfl, by omega, fun _ => by omega⟩
  · simp only [ne_eq, hp, not_false_eq_true, if_true, Except.ok.injEq, Prod.mk.injEq] at h
    obtain ⟨rfl, rfl⟩ := h
    exact ⟨hp, rfl, Nat.le_refl _, fun e => absurd e hp⟩

theorem peekToken_error (p : parser) (e : ParseError) (h : p.peekToken = .error e) :
    e.IsReturned = true := by
  rw [parser.peekToken] at h
  by_cases hp : p.peekedToken = ""
  · simp only [hp, ne_eq, not_true_eq_false, if_false] at h
    cases hr : p.consumeToken with
    | error e2 =>
      rw [hr] at h
      simp only [Except.error.injEq] at h
      rw [← h]
      exact consumeToken_error p e2 hr
    | ok r =>
      obtain ⟨tok2, p3⟩ := r
      rw [hr] at h
      cases h
  · simp only [ne_eq, hp, not_false_eq_true, if_true] at h
    cases h

/-- With a token peeked, `consumePeeked` does not panic. -/
theorem consumePeeked_ok (p : parser) (hp : p.peekedToken ≠ "") :
    ∃ p2, p.consumePeeked = .ok p2 ∧ p2.unread < p.unread ∧ p2.peekedToken = "" := by
  refine ⟨{ p with peekedToken := "" }, ?_, ?_, rfl⟩
  · simp only [parser.consumePeeked, hp, if_false]
  · simp only [parser.unread, hp, if_true, if_false]
    omega

theorem consumeName_advances (p : parser) : Advances p p.consumeName := by
  rw [parser.consumeName]
  cases h : p.consumeToken with
  | error e => exact consumeToken_error p e h
  | ok r =>
    obtain ⟨tok, p2⟩ := r
    obtain ⟨h1, h2, h3⟩ := consumeToken_ok p p2 tok h
    simp only []
    split
    · rfl
    · cases hd : tok.data with
      | nil =>
        exfalso
        apply h1
        apply String.ext
        rw [hd]
      | cons c cs =>
        simp only []
        split
        · rfl
        · exact ⟨h2, h3⟩

theorem consumeRequired_ok (p p2 : parser) (tok : String)
    (h : p.consumeRequired tok = .ok p2) : p2.unread < p.unread ∧ p2.peekedToken = "" := by
  rw [parser.consumeRequired] at h
  cases hr : p.consumeToken with
  | error e => rw [hr] at h; cases h
  | ok r =>
    obtain ⟨got, p3⟩ := r
    rw [hr] at h
    simp only [] at h
    split at h
    · cases h
    · simp only [Except.ok.injEq] at h
      subst h
      exact (consumeToken_ok p p3 got hr).2

theorem consumeRequired_error (p : parser) (tok : String) (e : ParseError)
    (h : p.consumeRequired tok = .error e) : e.IsReturned = true := by
  rw [parser.consumeRequired] at h
  cases hr : p.consumeToken with
  | error e2 =>
    rw [hr] at h
    simp only [Except.error.injEq] at h
    rw [← h]
    exact consumeToken_error p e2 hr
  | ok r =>
    obtain ⟨got, p3⟩ := r
    rw [hr] at h
    simp only [] at h
    split at h
    · simp only [Except.error.injEq] at h
      rw [← h]
      rfl
    · cases h

theorem Advances.mono {α : Type} (p p2 : parser) (r : Except ParseError (α × parser))
    (h : Advances p2 r) (hle : p2.unread ≤ p.unread) : Advances p r := by
  cases r with
  | error e => exact h
  | ok x =>
    obtain ⟨a, p3⟩ := x
    exact ⟨Nat.lt_of_lt_of_le h.1 hle, h.2⟩

/-- The type of a field, a list or a map, inline definitions nested to any depth: with
fuel above the input left to read, and for a list no token peeked, the productions
end, in an error that the Go code returns or having read some of the input. -/
theorem inline_advances :
    ∀ (fuel : Nat),
      (∀ p : parser, p.unread < fuel → Advances p (parser.typeNameOrInlineDefn fuel p)) ∧
      (∀ p : parser, p.peekedToken = "" → p.unread < fuel →
        Advances p (parser.typeList fuel p)) ∧
      (∀ p : parser, p.unread < fuel → Advances p (parser.typeMap fuel p)) := by
  intro fuel
  induction fuel with
  | zero =>
    exact ⟨fun p h => absurd h (Nat.not_lt_zero _), fun p _ h => absurd h (Nat.not_lt_zero _),
      fun p h => absurd h (Nat.not_lt_zero _)⟩
  | succ fuel ih =>
    obtain ⟨ihT, ihL, ihM⟩ := ih
    refine ⟨?_, ?_, ?_⟩
    · intro p hp
      rw [parser.typeNameOrInlineDefn]
      cases h1 : p.consumeToken with
      | error e => exact consumeToken_error p e h1
      | ok r =>
        obtain ⟨tok, p2⟩ := r
        obtain ⟨_, h2, h3⟩ := consumeToken_ok p p2 tok h1
        simp only []
        split
        · rfl
        · split
          · have hL := ihL p2 h3 (by omega)
            cases h4 : parser.typeList fuel p2 with
            | error e => rw [h4] at hL; exact hL
            | ok r2 =>
              obtain ⟨tlist, p3⟩ := r2
              rw [h4] at hL
              exact ⟨by have := hL.1; omega, hL.2⟩
          · split
            · have hM := ihM p2 (by omega)
              cases h4 : parser.typeMap fuel p2 with
              | error e => rw [h4] at hM; exact hM
              | ok r2 =>
                obtain ⟨tmap, p3⟩ := r2
                rw [h4] at hM
                exact ⟨by have := hM.1; omega, hM.2⟩
            · exact ⟨h2, h3⟩
    · intro p hfresh hp
      rw [parser.typeList]
      cases h1 : p.peekToken with
      | error e => exact peekToken_error p e h1
      | ok r =>
        obtain ⟨tok, p2⟩ := r
        obtain ⟨ht, hpk, _, hlt⟩ := peekToken_ok p p2 tok h1
        have hlt := hlt hfresh
        simp only []
        have key : ∀ (nullable : Option Bool) (p3 : parser), p3.unread ≤ p2.unread →
            Advances p
              (match parser.typeNameOrInlineDefn fuel p3 with
                | .error e => .error e
                | .ok (valueType, p4) =>
                  match p4.consumeRequired "]" with
                  | .error e => .error e
                  | .ok p5 => .ok (TypeDefnList.mk valueType nullable, p5)) := by
          intro nullable p3 hle
          have hT := ihT p3 (by omega)
          cases h4 : parser.typeNameOrInlineDefn fuel p3 with
          | error e => rw [h4] at hT; exact hT
          | ok r2 =>
            obtain ⟨valueType, p4⟩ := r2
            rw [h4] at hT
            simp only []
            cases h5 : p4.consumeRequired "]" with
            | error e => exact consumeRequired_error p4 _ e h5
            | ok p5 =>
              obtain ⟨h6, h7⟩ := consumeRequired_ok p4 p5 _ h5
              exact ⟨by have := hT.1; omega, h7⟩
        by_cases hn : tok = "nullable"
        · obtain ⟨p3, hc, hc2, _⟩ := consumePeeked_ok p2 (by rw [hpk]; exact ht)
          simp only [hn, if_true, hc]
          exact key _ p3 (by omega)
        · simp only [hn, if_false]
          exact key _ p2 (Nat.le_refl _)
    · intro p hp
      rw [parser.typeMap]
      have h0 := consumeName_advances p
      cases h1 : p.consumeName with
      | error e => rw [h1] at h0; exact h0
      | ok r =>
        obtain ⟨keyType, p1⟩ := r
        rw [h1] at h0
        simp only []
        cases h2 : p1.consumeRequired ":" with
        | error e => exact consumeRequired_error p1 _ e h2
        | ok p1b =>
          obtain ⟨h3, _⟩ := consumeRequired_ok p1 p1b _ h2
          simp only []
          cases h4 : p1b.peekToken with
          | error e => exact peekToken_error p1b e h4
          | ok r2 =>
            obtain ⟨tok, p2⟩ := r2
            obtain ⟨ht, hpk, hle, _⟩ := peekToken_ok p1b p2 tok h4
            simp only []
            have key : ∀ (nullable : Option Bool) (p3 : parser), p3.unread ≤ p2.unread →
                Advances p
                  (match parser.typeNameOrInlineDefn fuel p3 with
                    | .error e => .error e
                    | .ok (valueType, p4) =>
                      match p4.consumeRequired "\x7d" with
                      | .error e => .error e
                      | .ok p5 => .ok (TypeDefnMap.mk keyType valueType nullable, p5)) := by
              intro nullable p3 hle3
              have hT := ihT p3 (by have := h0.1; omega)
              cases h5 : parser.typeNameOrInlineDefn fuel p3 with
              | error e => rw [h5] at hT; exact hT
              | ok r3 =>
                obtain ⟨valueType, p4⟩ := r3
                rw [h5] at hT
                simp only []
                cases h6 : p4.consumeRequired "\x7d" with
                | error e => exact consumeRequired_error p4 _ e h6
                | ok p5 =>
                  obtain ⟨h7, h8⟩ := consumeRequired_ok p4 p5 _ h6
                  exact ⟨by have := hT.1; have := h0.1; omega, h8⟩
            by_cases hn : tok = "nullable"
            · obtain ⟨p3, hc, hc2, _⟩ := consumePeeked_ok p2 (by rw [hpk]; exact ht)
              simp only [hn, if_true, hc]
              exact key _ p3 (by omega)
            · simp only [hn, if_false]
              exact key _ p2 (Nat.le_refl _)

theorem typeStruct_field_advances :
    ∀ (fuel : Nat) (p : parser) (optional nullable : Option Bool),
      p.peekedToken = "" → p.unread < fuel →
      Advances p (parser.typeStruct_field fuel p optional nullable) := by
  intro fuel
  induction fuel with
  | zero => intro p _ _ _ h; exact absurd h (Nat.not_lt_zero _)
  | succ fuel ih =>
    intro p optional nullable hfresh hp
    rw [parser.typeStruct_field]
    cases h1 : p.peekToken with
    | error e => exact peekToken_error p e h1
    | ok r =>
      obtain ⟨tok, p2⟩ := r
      obtain ⟨ht, hpk, _, hlt⟩ := peekToken_ok p p2 tok h1
      have hlt := hlt hfresh
      obtain ⟨p3, hc, hc2, hc3⟩ := consumePeeked_ok p2 (by rw [hpk]; exact ht)
      simp only []
      split
      · split
        · rfl
        · rw [hc]
          exact Advances.mono p p3 _ (ih p3 _ _ hc3 (by omega)) (by omega)
      · split
        · split
          · rfl
          · rw [hc]
            exact Advances.mono p p3 _ (ih p3 _ _ hc3 (by omega)) (by omega)
        · have hT := (inline_advances fuel).1 p2 (by omega)
          cases h4 : parser.typeNameOrInlineDefn fuel p2 with
          | error e => rw [h4] at hT; exact hT
          | ok r2 =>
            obtain ⟨typ, p4⟩ := r2
            rw [h4] at hT
            exact ⟨by have := hT.1; omega, hT.2⟩

theorem typeStruct_scalar_error (escaped : String → Option String) (p : parser)
    (scalar : String) (hs : scalar ≠ "") (e : ParseError)
    (h : parser.typeStruct_scalar escaped p scalar = .error e) : e.IsReturned = true := by
  rw [parser.typeStruct_scalar] at h
  cases hd : scalar.data with
  | nil =>
    exfalso
    apply hs
    apply String.ext
    rw [hd]
  | cons c cs =>
    rw [hd] at h
    simp only [] at h
    split at h
    · split at h
      · simp only [Except.error.injEq] at h
        rw [← h]
        rfl
      · cases h
    · split at h <;> cases h

theorem typeStruct_advances (escaped : String → Option String) :
    ∀ (fuel : Nat) (p : parser) (repr : OrderedMap StructRepresentation_Map_FieldDetails)
      (fields : OrderedMap StructField),
      p.unread < fuel → Advances p (parser.typeStruct escaped fuel p repr fields) := by
  intro fuel
  induction fuel with
  | zero => intro p _ _ h; exact absurd h (Nat.not_lt_zero _)
  | succ fuel ih =>
    intro p repr fields hp
    rw [parser.typeStruct]
    cases h1 : p.consumeToken with
    | error e => exact consumeToken_error p e h1
    | ok r =>
      obtain ⟨tok, p1⟩ := r
      obtain ⟨_, h2, h3⟩ := consumeToken_ok p p1 tok h1
      simp only []
      split
      · exact ⟨h2, h3⟩
      · have hF := typeStruct_field_advances fuel p1 none none h3 (by omega)
        cases h4 : parser.typeStruct_field fuel p1 none none with
        | error e => rw [h4] at hF; exact hF
        | ok r2 =>
          obtain ⟨field, p2⟩ := r2
          rw [h4] at hF
          have hF1 := hF.1
          simp only []
          cases h5 : p2.peekToken with
          | error e => exact peekToken_error p2 e h5
          | ok r3 =>
            obtain ⟨tok2, p3⟩ := r3
            obtain ⟨ht2, hpk, hle, _⟩ := peekToken_ok p2 p3 tok2 h5
            simp only []
            split
            · obtain ⟨p4, hc, hc2, _⟩ := consumePeeked_ok p3 (by rw [hpk]; exact ht2)
              rw [hc]
              simp only []
              cases h6 : p4.consumeRequired "implicit" with
              | error e => exact consumeRequired_error p4 _ e h6
              | ok p5 =>
                obtain ⟨h7, _⟩ := consumeRequired_ok p4 p5 _ h6
                simp only []
                cases h8 : p5.consumeToken with
                | error e => exact consumeToken_error p5 e h8
                | ok r4 =>
                  obtain ⟨scalar, p6⟩ := r4
                  obtain ⟨hs, h9, _⟩ := consumeToken_ok p5 p6 scalar h8
                  simp only []
                  cases h10 : parser.typeStruct_scalar escaped p6 scalar with
                  | error e => exact typeStruct_scalar_error escaped p6 scalar hs e h10
                  | ok anyScalar =>
                    simp only []
                    cases h11 : p6.consumeRequired ")" with
                    | error e => exact consumeRequired_error p6 _ e h11
                    | ok p7 =>
                      obtain ⟨h12, _⟩ := consumeRequired_ok p6 p7 _ h11
                      exact Advances.mono p p7 _ (ih p7 _ _ (by omega)) (by omega)
            · exact Advances.mono p p3 _ (ih p3 _ _ (by omega)) (by omega)

/-- The member loop of `typeUnion` ends, with as many keys as members. -/
theorem typeUnion_members_spec :
    ∀ (fuel : Nat) (p : parser) (members : List UnionMember) (reprKeys : List String),
      p.unread < fuel → members.length = reprKeys.length →
      (∀ e, parser.typeUnion_members fuel p members reprKeys = .error e →
        e.IsReturned = true) ∧
      (∀ ms ks p1, parser.typeUnion_members fuel p members reprKeys = .ok (ms, ks, p1) →
        p1.unread < p.unread ∧ p1.peekedToken = "" ∧ ms.length = ks.length) := by
  intro fuel
  induction fuel with
  | zero => intro p _ _ h; exact absurd h (Nat.not_lt_zero _)
  | succ fuel ih =>
    intro p members reprKeys hp hlen
    rw [parser.typeUnion_members]
    cases h1 : p.consumeToken with
    | error e =>
      refine ⟨fun e2 h => ?_, fun ms ks p1 h => by cases h⟩
      simp only [Except.error.injEq] at h
      rw [← h]
      exact consumeToken_error p e h1
    | ok r =>
      obtain ⟨tok, p1⟩ := r
      obtain ⟨_, h2, h3⟩ := consumeToken_ok p p1 tok h1
      simp only []
      split
      · refine ⟨(fun e2 h => nomatch h), fun ms ks p2 h => ?_⟩
        simp only [Except.ok.injEq, Prod.mk.injEq] at h
        obtain ⟨rfl, rfl, rfl⟩ := h
        exact ⟨h2, h3, hlen⟩
      · split
        · refine ⟨fun e2 h => ?_, fun ms ks p2 h => by cases h⟩
          simp only [Except.error.injEq] at h
          rw [← h]
          rfl
        · have hN := consumeName_advances p1
          cases h4 : p1.consumeName with
          | error e =>
            rw [h4] at hN
            refine ⟨fun e2 h => ?_, fun ms ks p2 h => by cases h⟩
            simp only [Except.error.injEq] at h
            rw [← h]
            exact hN
          | ok r2 =>
            obtain ⟨name, p2⟩ := r2
            rw [h4] at hN
            have hN1 := hN.1
            simp only []
            cases h5 : p2.consumeToken with
            | error e =>
              refine ⟨fun e2 h => ?_, fun ms ks p3 h => by cases h⟩
              simp only [Except.error.injEq] at h
              rw [← h]
              exact consumeToken_error p2 e h5
            | ok r3 =>
              obtain ⟨key, p3⟩ := r3
              obtain ⟨_, h6, _⟩ := consumeToken_ok p2 p3 key h5
              simp only []
              obtain ⟨ih1, ih2⟩ := ih p3 (members ++ [UnionMember.TypeName name])
                (reprKeys ++ [key]) (by omega) (by simp [hlen])
              refine ⟨ih1, fun ms ks p4 h => ?_⟩
              obtain ⟨h7, h8, h9⟩ := ih2 ms ks p4 h
              exact ⟨by omega, h8, h9⟩

theorem typeUnion_keyed_error (escaped : String → Option String) (p : parser) :
    ∀ (keys : List String) (members : List UnionMember) (repr : OrderedMap UnionMember)
      (e : ParseError), keys.length ≤ members.length →
      typeUnion_keyed escaped p keys members repr = .error e → e.IsReturned = true := by
  intro keys
  induction keys with
  | nil => intro members repr e _ h; cases h
  | cons k keys ih =>
    intro members repr e hlen h
    rw [typeUnion_keyed] at h
    split at h
    · simp only [Except.error.injEq] at h
      rw [← h]
      rfl
    · cases members with
      | nil => simp at hlen
      | cons m ms =>
        simp only [] at h
        exact ih ms _ e (by simpa using hlen) h

theorem typeUnion_kinded_error :
    ∀ (keys : List String) (members : List UnionMember) (repr : OrderedMap UnionMember)
      (e : ParseError), keys.length ≤ members.length →
      typeUnion_kinded keys members repr = .error e → e.IsReturned = true := by
  intro keys
  induction keys with
  | nil => intro members repr e _ h; cases h
  | cons k keys ih =>
    intro members repr e hlen h
    cases members with
    | nil => simp at hlen
    | cons m ms =>
      rw [typeUnion_kinded] at h
      exact ih ms _ e (by simpa using hlen) h

theorem typeUnion_representation_advances (escaped : String → Option String) (p : parser)
    (members : List UnionMember) (reprKeys : List String)
    (hlen : members.length = reprKeys.length) :
    Advances p (parser.typeUnion_representation escaped p members reprKeys) := by
  rw [parser.typeUnion_representation]
  cases h1 : p.consumeRequired "representation" with
  | error e => exact consumeRequired_error p _ e h1
  | ok p1 =>
    obtain ⟨h2, _⟩ := consumeRequired_ok p p1 _ h1
    simp only []
    have hN := consumeName_advances p1
    cases h3 : p1.consumeName with
    | error e => rw [h3] at hN; exact hN
    | ok r =>
      obtain ⟨reprName, p2⟩ := r
      rw [h3] at hN
      have hN1 := hN.1
      simp only []
      split
      · cases h4 : typeUnion_keyed escaped p2 reprKeys members { Keys := [], Values := [] } with
        | error e => exact typeUnion_keyed_error escaped p2 _ _ _ e (by omega) h4
        | ok repr => exact ⟨by omega, hN.2⟩
      · split
        · cases h4 : typeUnion_kinded reprKeys members { Keys := [], Values := [] } with
          | error e => exact typeUnion_kinded_error _ _ _ e (by omega) h4
          | ok repr => exact ⟨by omega, hN.2⟩
        · rfl

theorem typeUnion_advances (escaped : String → Option String) (fuel : Nat) (p : parser)
    (hp : p.unread < fuel) : Advances p (parser.typeUnion escaped fuel p) := by
  rw [parser.typeUnion]
  obtain ⟨h1, h2⟩ := typeUnion_members_spec fuel p [] [] hp rfl
  cases h3 : parser.typeUnion_members fuel p [] [] with
  | error e => exact h1 e h3
  | ok r =>
    obtain ⟨members, reprKeys, p1⟩ := r
    obtain ⟨h4, _, h6⟩ := h2 members reprKeys p1 h3
    simp only []
    exact Advances.mono p p1 _ (typeUnion_representation_advances escaped p1 members reprKeys h6)
      (by omega)

theorem typeEnum_advances :
    ∀ (fuel : Nat) (p : parser) (members : List String),
      p.unread < fuel → Advances p (parser.typeEnum fuel p members) := by
  intro fuel
  induction fuel with
  | zero => intro p _ h; exact absurd h (Nat.not_lt_zero _)
  | succ fuel ih =>
    intro p members hp
    rw [parser.typeEnum]
    cases h1 : p.consumeToken with
    | error e => exact consumeToken_error p e h1
    | ok r =>
      obtain ⟨tok, p1⟩ := r
      obtain ⟨_, h2, h3⟩ := consumeToken_ok p p1 tok h1
      simp only []
      split
      · exact ⟨h2, h3⟩
      · split
        · rfl
        · cases h4 : p1.consumeToken with
          | error e => exact consumeToken_error p1 e h4
          | ok r2 =>
            obtain ⟨name, p2⟩ := r2
            obtain ⟨_, h5, _⟩ := consumeToken_ok p1 p2 name h4
            simp only []
            cases h6 : p2.consumeRequired "(" with
            | error e => exact consumeRequired_error p2 _ e h6
            | ok p3 =>
              obtain ⟨h7, _⟩ := consumeRequired_ok p2 p3 _ h6
              simp only []
              cases h8 : p3.consumeToken with
              | error e => exact consumeToken_error p3 e h8
              | ok r3 =>
                obtain ⟨key, p4⟩ := r3
                obtain ⟨_, h9, _⟩ := consumeToken_ok p3 p4 key h8
                simp only []
                cases h10 : p4.consumeRequired ")" with
                | error e => exact consumeRequired_error p4 _ e h10
                | ok p5 =>
                  obtain ⟨h11, _⟩ := consumeRequired_ok p4 p5 _ h10
                  exact Advances.mono p p5 _ (ih p5 _ (by omega)) (by omega)

theorem typeDefn_advances (escaped : String → Option String) (fuel : Nat) (p : parser)
    (hp : p.unread < fuel) : Advances p (parser.typeDefn escaped fuel p) := by
  rw [parser.typeDefn]
  cases h1 : p.consumeToken with
  | error e => exact consumeToken_error p e h1
  | ok r =>
    obtain ⟨kind, p1⟩ := r
    obtain ⟨_, h2, h3⟩ := consumeToken_ok p p1 kind h1
    dsimp only
    by_cases k1 : kind = "struct"
    · rw [if_pos k1]
      cases h4 : p1.consumeRequired "\x7b" with
      | error e => exact consumeRequired_error p1 _ e h4
      | ok p2 =>
        obtain ⟨h5, _⟩ := consumeRequired_ok p1 p2 _ h4
        have hB := typeStruct_advances escaped fuel p2 { Keys := [], Values := [] }
          { Keys := [], Values := [] } (by omega)
        dsimp only
        cases h6 : parser.typeStruct escaped fuel p2 { Keys := [], Values := [] }
            { Keys := [], Values := [] } with
        | error e => rw [h6] at hB; exact hB
        | ok r2 =>
          obtain ⟨defn, p3⟩ := r2
          rw [h6] at hB
          exact ⟨by have := hB.1; omega, hB.2⟩
    rw [if_neg k1]
    by_cases k2 : kind = "union"
    · rw [if_pos k2]
      cases h4 : p1.consumeRequired "\x7b" with
      | error e => exact consumeRequired_error p1 _ e h4
      | ok p2 =>
        obtain ⟨h5, _⟩ := consumeRequired_ok p1 p2 _ h4
        have hB := typeUnion_advances escaped fuel p2 (by omega)
        dsimp only
        cases h6 : parser.typeUnion escaped fuel p2 with
        | error e => rw [h6] at hB; exact hB
        | ok r2 =>
          obtain ⟨defn, p3⟩ := r2
          rw [h6] at hB
          exact ⟨by have := hB.1; omega, hB.2⟩
    rw [if_neg k2]
    by_cases k3 : kind = "enum"
    · rw [if_pos k3]
      cases h4 : p1.consumeRequired "\x7b" with
      | error e => exact consumeRequired_error p1 _ e h4
      | ok p2 =>
        obtain ⟨h5, _⟩ := consumeRequired_ok p1 p2 _ h4
        have hB := typeEnum_advances fuel p2 [] (by omega)
        dsimp only
        cases h6 : parser.typeEnum fuel p2 [] with
        | error e => rw [h6] at hB; exact hB
        | ok r2 =>
          obtain ⟨defn, p3⟩ := r2
          rw [h6] at hB
          exact ⟨by have := hB.1; omega, hB.2⟩
    rw [if_neg k3]
    by_cases k4 : kind = "bool"
    · rw [if_pos k4]
      exact ⟨h2, h3⟩
    rw [if_neg k4]
    by_cases k5 : kind = "bytes"
    · rw [if_pos k5]
      exact ⟨h2, h3⟩
    rw [if_neg k5]
    by_cases k6 : kind = "float"
    · rw [if_pos k6]
      exact ⟨h2, h3⟩
    rw [if_neg k6]
    by_cases k7 : kind = "int"
    · rw [if_pos k7]
      exact ⟨h2, h3⟩
    rw [if_neg k7]
    by_cases k8 : kind = "link"
    · rw [if_pos k8]
      exact ⟨h2, h3⟩
    rw [if_neg k8]
    by_cases k9 : kind = "string"
    · rw [if_pos k9]
      exact ⟨h2, h3⟩
    rw [if_neg k9]
    by_cases k10 : kind = "\x7b"
    · rw [if_pos k10]
      have hM := (inline_advances fuel).2.2 p1 (by omega)
      cases h4 : parser.typeMap fuel p1 with
      | error e => rw [h4] at hM; exact hM
      | ok r2 =>
        obtain ⟨defn, p2⟩ := r2
        rw [h4] at hM
        exact ⟨by have := hM.1; omega, hM.2⟩
    rw [if_neg k10]
    by_cases k11 : kind = "["
    · rw [if_pos k11]
      have hL := (inline_advances fuel).2.1 p1 h3 (by omega)
      cases h4 : parser.typeList fuel p1 with
      | error e => rw [h4] at hL; exact hL
      | ok r2 =>
        obtain ⟨defn, p2⟩ := r2
        rw [h4] at hL
        exact ⟨by have := hL.1; omega, hL.2⟩
    rw [if_neg k11]
    by_cases k12 : kind = "="
    · rw [if_pos k12]
      have hN := consumeName_advances p1
      cases h4 : p1.consumeName with
      | error e => rw [h4] at hN; exact hN
      | ok r2 =>
        obtain ⟨src, p2⟩ := r2
        rw [h4] at hN
        exact ⟨by have := hN.1; omega, hN.2⟩
    rw [if_neg k12]
    rfl

/-- The loop of `Parse` ends, with fuel above the input left to read: in a schema or in
an error that the Go code returns. -/
theorem Parse_loop_ends (escaped : String → Option String) :
    ∀ (fuel : Nat) (p : parser) (sch : Schema), p.unread < fuel →
      (∃ s, Parse_loop escaped fuel p sch = .ok s) ∨
      (∃ e, Parse_loop escaped fuel p sch = .error e ∧ e.IsReturned = true) := by
  intro fuel
  induction fuel with
  | zero => intro p _ h; exact absurd h (Nat.not_lt_zero _)
  | succ fuel ih =>
    intro p sch hp
    rw [Parse_loop]
    cases h1 : p.consumeToken with
    | error e =>
      have he := consumeToken_error p e h1
      cases e with
      | EOF => exact Or.inl ⟨sch, rfl⟩
      | positioned pfx line col format operands => exact Or.inr ⟨_, rfl, rfl⟩
      | panic msg => cases he
      | fuel => cases he
    | ok r =>
      obtain ⟨tok, p1⟩ := r
      obtain ⟨_, h2, _⟩ := consumeToken_ok p p1 tok h1
      simp only []
      split
      · have hN := consumeName_advances p1
        cases h4 : p1.consumeName with
        | error e => rw [h4] at hN; exact Or.inr ⟨e, rfl, hN⟩
        | ok r2 =>
          obtain ⟨name, p2⟩ := r2
          rw [h4] at hN
          have hN1 := hN.1
          simp only []
          have hD := typeDefn_advances escaped fuel p2 (by omega)
          cases h5 : parser.typeDefn escaped fuel p2 with
          | error e => rw [h5] at hD; exact Or.inr ⟨e, rfl, hD⟩
          | ok r3 =>
            obtain ⟨defn, p3⟩ := r3
            rw [h5] at hD
            have hD1 := hD.1
            exact ih p3 _ (by omega)
      · split
        · exact Or.inr ⟨_, rfl, rfl⟩
        · exact Or.inr ⟨_, rfl, rfl⟩

/-- C34: `Parse` ends on every source, with a schema or with an error that the Go code
returns: the embedding never runs out of its fuel, and the code does not panic.  The
tokenizer gives a token having consumed a byte or the peeked token, or fails; and each
production, `typeNameOrInlineDefn`, `typeList`, `typeMap` (inline definitions nested to
any depth), `typeStruct`, `typeUnion`, `typeEnum` and `typeDefn`, run with fuel above
the input left to read, fails with such an error or succeeds having consumed input. -/
theorem C34_parse_terminates (escaped : String → Option String) (name src : String) :
    ((∃ sch, Parse escaped name src = .ok sch) ∨
      (∃ e, Parse escaped name src = .error e ∧ e.IsReturned = true)) ∧
    Parse escaped name src ≠ .error .fuel ∧
    (∀ msg, Parse escaped name src ≠ .error (.panic msg)) ∧
    (∀ p : parser, Advances p p.consumeToken) ∧
    (∀ (fuel : Nat) (p : parser), p.unread < fuel →
      Advances p (parser.typeNameOrInlineDefn fuel p) ∧
      (p.peekedToken = "" → Advances p (parser.typeList fuel p)) ∧
      Advances p (parser.typeMap fuel p) ∧
      (∀ repr fields, Advances p (parser.typeStruct escaped fuel p repr fields)) ∧
      Advances p (parser.typeUnion escaped fuel p) ∧
      (∀ members, Advances p (parser.typeEnum fuel p members)) ∧
      Advances p (parser.typeDefn escaped fuel p)) := by
  have hmain : (∃ sch, Parse escaped name src = .ok sch) ∨
      (∃ e, Parse escaped name src = .error e ∧ e.IsReturned = true) := by
    rw [Parse]
    apply Parse_loop_ends
    simp only [parser.unread, if_true, String.length]
    omega
  refine ⟨hmain, ?_, ?_, consumeToken_advances, ?_⟩
  · intro h
    rcases hmain with ⟨sch, h2⟩ | ⟨e, h2, h3⟩
    · rw [h2] at h; cases h
    · rw [h2] at h
      simp only [Except.error.injEq] at h
      rw [h] at h3
      cases h3
  · intro msg h
    rcases hmain with ⟨sch, h2⟩ | ⟨e, h2, h3⟩
    · rw [h2] at h; cases h
    · rw [h2] at h
      simp only [Except.error.injEq] at h
      rw [h] at h3
      cases h3
  · intro fuel p hp
    exact ⟨(inline_advances fuel).1 p hp, fun hfresh => (inline_advances fuel).2.1 p hfresh hp,
      (inline_advances fuel).2.2 p hp,
      fun repr fields => typeStruct_advances escaped fuel p repr fields hp,
      typeUnion_advances escaped fuel p hp, fun members => typeEnum_advances fuel p members hp,
      typeDefn_advances escaped fuel p hp⟩
end Schemadsl
namespace Typesystem
/-! ## C32 and C33: what `validate` checks -/

theorem IsNull_iff_kind (node : Node) : node.IsNull = true ↔ node.ReprKind = .Null := by
  cases node <;> simp [Node.IsNull, Node.ReprKind]

theorem basic_kind_ne_null (t : SType) (h : t.IsBasic = true) : t.ReprKind ≠ .Null := by
  cases t <;> simp [SType.IsBasic, SType.ReprKind] at h ⊢

theorem null_not_conforms (t : SType) (h : t.IsBasic = true) (node : Node)
    (hnull : node.IsNull = true) : Conforms t node = false := by
  have hk := (IsNull_iff_kind node).1 hnull
  cases t <;> simp [SType.IsBasic] at h <;> simp [Conforms, SType.ReprKind, hk]

/-- A kind mismatch at a node gives the one error of the node. -/
theorem validate_kind_mismatch {Universe : Type} (pathJoin : String → String → String)
    (ts : Universe) (t : SType) (h : t.IsBasic = true) (node : Node) (pth : String)
    (hk : node.ReprKind ≠ t.ReprKind) :
    validate pathJoin ts t node pth = [kindError t node pth] := by
  cases t <;> simp [SType.IsBasic] at h <;> simp only [SType.ReprKind] at hk <;>
    simp only [validate, ne_eq, hk, not_false_eq_true, if_true]

/-- On the types built from the scalars and Map, `validate` gives no error exactly for
the nodes that conform. -/
theorem validate_nil_iff {Universe : Type} (pathJoin : String → String → String)
    (ts : Universe) :
    ∀ (t : SType), t.IsBasic = true → ∀ (node : Node) (pth : String),
      (validate pathJoin ts t node pth = [] ↔ Conforms t node = true)
  | .TypeBool _, _, node, pth => by
    by_cases hk : node.ReprKind = .Bool <;> simp [validate, Conforms, SType.ReprKind, hk]
  | .TypeString _, _, node, pth => by
    by_cases hk : node.ReprKind = .String <;> simp [validate, Conforms, SType.ReprKind, hk]
  | .TypeBytes _, _, node, pth => by
    by_cases hk : node.ReprKind = .Bytes <;> simp [validate, Conforms, SType.ReprKind, hk]
  | .TypeInt _, _, node, pth => by
    by_cases hk : node.ReprKind = .Int <;> simp [validate, Conforms, SType.ReprKind, hk]
  | .TypeFloat _, _, node, pth => by
    by_cases hk : node.ReprKind = .Float <;> simp [validate, Conforms, SType.ReprKind, hk]
  | .TypeMap name keyType valueType valueNullable, h, node, pth => by
    have hv : valueType.IsBasic = true := by simpa [SType.IsBasic] using h
    by_cases hk : node.ReprKind = .Map
    · simp only [validate, ne_eq, hk, not_true_eq_false, if_false, Conforms, decide_True,
        Bool.true_and, List.flatMap_eq_nil_iff, List.all_eq_true, Bool.or_eq_true,
        Bool.and_eq_true]
      constructor
      · intro hall k hkmem
        have := hall k hkmem
        by_cases hn : (node.TraverseField k).IsNull = true
        · left
          simp only [hn, if_true] at this
          cases valueNullable
          · simp at this
          · exact ⟨hn, rfl⟩
        · right
          simp only [hn, Bool.false_eq_true, if_false] at this
          exact (validate_nil_iff pathJoin ts valueType hv _ _).1 this
      · intro hall k hkmem
        rcases hall k hkmem with ⟨hn, hvn⟩ | hc
        · simp [hn, hvn]
        · have hn : (node.TraverseField k).IsNull = false := by
            cases hb : (node.TraverseField k).IsNull
            · rfl
            · rw [null_not_conforms valueType hv _ hb] at hc
              cases hc
          simp only [hn, Bool.false_eq_true, if_false]
          exact (validate_nil_iff pathJoin ts valueType hv _ _).2 hc
    · simp [validate, Conforms, hk]
  | .TypeList _ _ _, h, _, _ => by simp [SType.IsBasic] at h
  | .TypeLink _, h, _, _ => by simp [SType.IsBasic] at h
  | .TypeUnion _ _, h, _, _ => by simp [SType.IsBasic] at h
  | .TypeStruct _ _ _, h, _, _ => by simp [SType.IsBasic] at h
  | .TypeEnum _ _, h, _, _ => by simp [SType.IsBasic] at h

/-- C32: for every type `t` built from Bool, String, Bytes, Int, Float and Map only, the
value type of a map being such a type, and every node: `Validate` gives the empty list of
errors if and only if the node conforms to `t`, that is, its kind is the kind of `t` and,
when `t` is a map, the value of every entry is null with the values nullable, or
conforms to the value type; the same holds of `validate` at every path; and when the
kind of the node is not the kind of `t`, `validate` gives exactly the one error of the
kind mismatch at the node, whatever its children are. -/
theorem C32_validate_iff_conforms {Universe : Type} (pathJoin : String → String → String)
    (ts : Universe) (t : SType) (h : t.IsBasic = true) (node : Node) :
    (Validate pathJoin ts t node = [] ↔ Conforms t node = true) ∧
    (∀ pth, validate pathJoin ts t node pth = [] ↔ Conforms t node = true) ∧
    (∀ pth, node.ReprKind ≠ t.ReprKind →
      validate pathJoin ts t node pth = [kindError t node pth]) :=
  ⟨validate_nil_iff pathJoin ts t h node "/",
    fun pth => validate_nil_iff pathJoin ts t h node pth,
    fun pth hk => validate_kind_mismatch pathJoin ts t h node pth hk⟩

/-- C32 (witness): the map node with `a` the integer 1 and `b` null conforms to the map
type with nullable values of type Int and `Validate` gives no error; a string node
does not conform and `validate` gives the one error of the kind mismatch. -/
theorem C32_validate_iff_conforms_witness :
    Conforms (.TypeMap "M" (.TypeString "String") (.TypeInt "Int") true) exampleMapNode = true ∧
    Validate joinPlain () (.TypeMap "M" (.TypeString "String") (.TypeInt "Int") true)
        exampleMapNode = [] ∧
    validate joinPlain () (.TypeMap "M" (.TypeString "String") (.TypeInt "Int") true)
        (.string "x") "/"
      = [kindError (.TypeMap "M" (.TypeString "String") (.TypeInt "Int") true)
          (.string "x") "/"] :=
  ⟨by decide,
    (C32_validate_iff_conforms joinPlain ()
      (.TypeMap "M" (.TypeString "String") (.TypeInt "Int") true) rfl exampleMapNode).1.2
      (by decide),
    (C32_validate_iff_conforms joinPlain ()
      (.TypeMap "M" (.TypeString "String") (.TypeInt "Int") true) rfl (.string "x")).2.2 "/"
      (by decide)⟩

/-- C33: `validate`, and `Validate` with it, gives no error for any node when the type is
a List, a Link, a Union, an Enum or a Struct in the tuple style; for a Struct in the
map style it gives no error when the kind of the node is Map, whatever the fields of the
type and the entries of the node are, and the one error of the kind mismatch when the
kind is not Map. -/
theorem C33_validate_unchecked_types {Universe : Type}
    (pathJoin : String → String → String) (ts : Universe) (node : Node) (pth : String) :
    (∀ name valueType valueNullable,
      validate pathJoin ts (.TypeList name valueType valueNullable) node pth = [] ∧
      Validate pathJoin ts (.TypeList name valueType valueNullable) node = []) ∧
    (∀ name, validate pathJoin ts (.TypeLink name) node pth = [] ∧
      Validate pathJoin ts (.TypeLink name) node = []) ∧
    (∀ name members, validate pathJoin ts (.TypeUnion name members) node pth = [] ∧
      Validate pathJoin ts (.TypeUnion name members) node = []) ∧
    (∀ name members, validate pathJoin ts (.TypeEnum name members) node pth = [] ∧
      Validate pathJoin ts (.TypeEnum name members) node = []) ∧
    (∀ name fields, validate pathJoin ts (.TypeStruct name true fields) node pth = [] ∧
      Validate pathJoin ts (.TypeStruct name true fields) node = []) ∧
    (∀ name fields,
      validate pathJoin ts (.TypeStruct name false fields) node pth
        = (if node.ReprKind = .Map then []
            else [kindError (.TypeStruct name false fields) node pth]) ∧
      Validate pathJoin ts (.TypeStruct name false fields) node
        = (if node.ReprKind = .Map then []
            else [kindError (.TypeStruct name false fields) node "/"])) := by
  refine ⟨?_, ?_, ?_, ?_, ?_, ?_⟩
  · intro name valueType valueNullable
    exact ⟨by rw [validate], by rw [Validate, validate]⟩
  · intro name
    exact ⟨by rw [validate], by rw [Validate, validate]⟩
  · intro name members
    exact ⟨by rw [validate], by rw [Validate, validate]⟩
  · intro name members
    exact ⟨by rw [validate], by rw [Validate, validate]⟩
  · intro name fields
    exact ⟨by simp [validate], by simp [Validate, validate]⟩
  · intro name fields
    by_cases hk : node.ReprKind = .Map
    · exact ⟨by simp [validate, hk], by simp [Validate, validate, hk]⟩
    · exact ⟨by simp [validate, hk], by simp [Validate, validate, hk]⟩
end Typesystem
